import Mathlib

/-!
Verification of the RAMCloud cluster-coordinator sources.

This development shallowly embeds two subsystems of the repository:

* the coordinator server list (src/CoordinatorServerList.h): the per-entry
  two-phase-commit version bookkeeping, the update deque, and the update
  propagator.  Only the header of this class is present in the repository;
  the operation bodies are therefore modelled from the specification
  (spec.md section 4) and from the extensive semantic documentation in the
  header itself, and each such definition is marked accordingly.

* the table manager (src/TableManager.cc): createTable, dropTable,
  splitTablet, the LogCabin durability journal they maintain, the named
  crash-injection points (create_1 .. create_4, drop_1 .. drop_4, split_1,
  split_2), and the recovery replay entry points recoverCreateTable,
  recoverAliveTable, recoverDropTable, recoverLargestTableId and
  recoverSplitTablet.

Machine integers (uint32_t / uint64_t) are embedded as Nat; wherever an
arithmetic operation of the source could overflow a 64-bit register the
model reduces modulo 2^64 explicitly and the proofs discharge the absence
of actual overflow.
-/

namespace RC

/-! ## Generic association-list helpers

C++ std::map / std::unordered_map members are embedded as association
lists; the development compares such lists up to permutation, which is the
observable content of the maps (iteration order of the maps is never
semantically relevant in the modelled fragment). -/

/-- Lookup of the first binding of a key, as std::map::find. -/
def assocFind {α β : Type} [DecidableEq α] (k : α) : List (α × β) → Option β
  | [] => none
  | (a, b) :: l => if a = k then some b else assocFind k l

/-- Insert-or-assign of a key, as map[k] = v. -/
def assocSet {α β : Type} [DecidableEq α] (k : α) (v : β) : List (α × β) → List (α × β)
  | [] => [(k, v)]
  | (a, b) :: l => if a = k then (k, v) :: l else (a, b) :: assocSet k v l

/-- Erase of the first binding of a key, as map.erase(it). -/
def assocErase {α β : Type} [DecidableEq α] (k : α) : List (α × β) → List (α × β)
  | [] => []
  | (a, b) :: l => if a = k then l else (a, b) :: assocErase k l

/-! ## Coordinator main program (src/CoordinatorMain.cc)

The boost program_options declaration of the deadServerTimeout option,
lines 44-53 of CoordinatorMain.cc. -/

/-- Default of the deadServerTimeout command-line option;
CoordinatorMain.cc line 48: default_value(250). -/
def deadServerTimeoutDefault : Nat := 250

/-- Value of deadServerTimeout after option parsing: the command-line value
when one was supplied, the declared default otherwise (boost
program_options default_value semantics for CoordinatorMain.cc
lines 44-53). -/
def parsedDeadServerTimeout (cli : Option Nat) : Nat :=
  match cli with
  | some v => v
  | none => deadServerTimeoutDefault

/-- The timeout handed to CoordinatorService by main
(CoordinatorMain.cc lines 83-85): the parsed option value. -/
def coordinatorServiceDeadServerTimeout (cli : Option Nat) : Nat :=
  parsedDeadServerTimeout cli

/-! ## Coordinator server list: data model

From src/CoordinatorServerList.h.  The constants are source
(lines 70-77); the Entry fields are source (lines 88-235).  The class
implementation file is not part of the repository, so the operation
bodies below are modelled from the specification. -/

/-- CoordinatorServerList.h line 73. -/
def UNINITIALIZED_VERSION : Nat := 0

/-- CoordinatorServerList.h line 77. -/
def MAX_UPDATES_PER_RPC : Nat := 100

/-- ServerStatus of an entry (AbstractServerList). -/
inductive ServerStatus
  | up
  | crashed
  | removed
deriving DecidableEq

/-- Kind of one event of an incremental server-list message. -/
inductive SLEventKind
  | addEvent
  | crashedEvent
  | removedEvent
deriving DecidableEq

/-- One event of an incremental server-list message. -/
structure SLEvent where
  kind : SLEventKind
  serverId : Nat × Nat
deriving DecidableEq

/-- One entry of the coordinator server list
(CoordinatorServerList::Entry, header lines 88-235).  ServerId is the
(index, generation) pair.  The updating flag is ghost state making the
in-flight update RPC explicit: it is set when getWork hands out a work
unit for the entry and cleared by the matching workSuccess / workFailed;
the header (lines 144-150) documents that in the source this in-flight
state is represented by the inequality of the two version fields, which
is exactly what theorem c1 establishes about the ghost flag. -/
structure CSLEntry where
  serverId : Nat × Nat
  status : ServerStatus
  hasMembership : Bool
  serviceLocator : String
  readSpeed : Nat
  replicationId : Nat
  verifiedVersion : Nat
  updateVersion : Nat
  updating : Bool
deriving DecidableEq

/-- One element of the updates deque
(CoordinatorServerList::ServerListUpdatePair, header lines 746-773).
The full snapshot is represented by the list of server ids it
serializes; its contents are never inspected by the claims. -/
structure UpdatePair where
  version : Nat
  incremental : List SLEvent
  full : List (Nat × Nat)
deriving DecidableEq

/-- Modelled from the spec: the coordinator server-list state (spec
sections 3 and 4.6).  servers is the membership map (slot and generation
bookkeeping of id allocation is abstracted away: ids enter as
parameters); pendingUpdate is the staged incremental protobuf (header
lines 891-902); updates is the deque; minConfirmedVersion as in header
lines 937-944. -/
structure CSLState where
  servers : List CSLEntry
  currentVersion : Nat
  pendingUpdate : List SLEvent
  updates : List UpdatePair
  minConfirmedVersion : Nat
deriving DecidableEq

/-- The coordinator server list at construction: empty, version 0. -/
def initialCSL : CSLState :=
  { servers := [], currentVersion := 0, pendingUpdate := [],
    updates := [], minConfirmedVersion := 0 }

/-- Find the entry of a server id. -/
def findEntry (s : CSLState) (id : Nat × Nat) : Option CSLEntry :=
  s.servers.find? (fun e => e.serverId = id)

/-- Rewrite every entry carrying the given id. -/
def setEntry (s : CSLState) (id : Nat × Nat) (f : CSLEntry → CSLEntry) : CSLState :=
  { s with servers := s.servers.map (fun e => if e.serverId = id then f e else e) }

/-- An entry that accepts membership updates: status UP or CRASHED and the
MEMBERSHIP service offered (spec section 4.6, work selection). -/
def liveUpdatable (e : CSLEntry) : Bool :=
  (e.status = ServerStatus.up || e.status = ServerStatus.crashed) && e.hasMembership

/-! ## Coordinator server list: operations

Modelled from the spec (sections 4.2, 4.5, 4.6); the implementation file
of CoordinatorServerList is not part of the repository. -/

/-- Modelled from the spec: pushUpdate (spec section 4.2, publishing rule;
header lines 891-902).  Seals the staged incremental under the next
version, appends the (incremental, full) pair to the deque and advances
currentVersion; a call with nothing staged publishes nothing. -/
def pushUpdate (s : CSLState) : CSLState :=
  if s.pendingUpdate.isEmpty then s
  else
    let v := s.currentVersion + 1
    { s with
      currentVersion := v,
      pendingUpdate := [],
      updates := s.updates ++
        [{ version := v, incremental := s.pendingUpdate,
           full := s.servers.map (fun e => e.serverId) }] }

/-- Modelled from the spec: a freshly added entry (spec section 3: both
version fields start at UNINITIALIZED_VERSION; header lines 151-156). -/
def newEntry (id : Nat × Nat) (locator : String) (hasMembership : Bool)
    (readSpeed : Nat) : CSLEntry :=
  { serverId := id, status := ServerStatus.up, hasMembership := hasMembership,
    serviceLocator := locator, readSpeed := readSpeed, replicationId := 0,
    verifiedVersion := UNINITIALIZED_VERSION,
    updateVersion := UNINITIALIZED_VERSION, updating := false }

/-- Modelled from the spec: add(...) staging part (spec section 4.2) —
install an UP entry and stage its ADD event.  The version bump and deque
append happen in the enclosing pushUpdate. -/
def stageAdd (s : CSLState) (id : Nat × Nat) (locator : String)
    (hasMembership : Bool) (readSpeed : Nat) : CSLState :=
  { s with
    servers := s.servers ++ [newEntry id locator hasMembership readSpeed],
    pendingUpdate := s.pendingUpdate ++ [{ kind := SLEventKind.addEvent, serverId := id }] }

/-- Modelled from the spec: crashed(...) staging part (spec section 4.2) —
transition the entry to CRASHED and stage the CRASHED event. -/
def stageCrashed (s : CSLState) (id : Nat × Nat) : CSLState :=
  let s := setEntry s id (fun e => { e with status := ServerStatus.crashed })
  { s with pendingUpdate := s.pendingUpdate ++ [{ kind := SLEventKind.crashedEvent, serverId := id }] }

/-- Modelled from the spec: recoveryCompleted staging part (spec sections
4.2 and 4.5) — stage the REMOVE diff and transition the entry to
REMOVED; the slot itself is only released once the REMOVE update has
been confirmed by the cluster, which deletes the entry and is not
modelled further. -/
def stageRemove (s : CSLState) (id : Nat × Nat) : CSLState :=
  let s := setEntry s id (fun e => { e with status := ServerStatus.removed })
  { s with pendingUpdate := s.pendingUpdate ++ [{ kind := SLEventKind.removedEvent, serverId := id }] }

/-- Modelled from the spec: enlistServer (spec section 4.5, EnlistServer
rules 1-5).  When replacesId names a still-UP entry that entry is first
crashed in the same batch; then the new entry is added and the single
combined incremental is published.  The new id enters as a parameter in
place of the id allocator; the allocator's uniqueness guarantee (spec
section 3, ServerId) is modelled by the guard rejecting an id already
present. -/
def enlistServer (s : CSLState) (replacesId : Option (Nat × Nat))
    (newId : Nat × Nat) (locator : String) (hasMembership : Bool)
    (readSpeed : Nat) : CSLState :=
  if (findEntry s newId).isSome then s
  else
    let s :=
      match replacesId with
      | some rid =>
        match findEntry s rid with
        | some e => if e.status = ServerStatus.up then stageCrashed s rid else s
        | none => s
      | none => s
    pushUpdate (stageAdd s newId locator hasMembership readSpeed)

/-- Modelled from the spec: serverCrashed (spec sections 4.2 and 4.5) —
crash a currently UP entry and publish the CRASHED diff. -/
def serverCrashed (s : CSLState) (id : Nat × Nat) : CSLState :=
  match findEntry s id with
  | some e => if e.status = ServerStatus.up then pushUpdate (stageCrashed s id) else s
  | none => s

/-- Modelled from the spec: recoveryCompleted (spec sections 4.2 and 4.5),
allowed only on a CRASHED entry; publishes the REMOVE diff. -/
def recoveryCompleted (s : CSLState) (id : Nat × Nat) : CSLState :=
  match findEntry s id with
  | some e => if e.status = ServerStatus.crashed then pushUpdate (stageRemove s id) else s
  | none => s

/-- Modelled from the spec: assignReplicationGroup (spec section 4.2) —
set the replication id of each named UP backup and publish one update;
the staged diff re-announces each member, i.e. carries ADD-kind events,
so it contains no removals or crashes. -/
def assignReplicationGroup (s : CSLState) (rid : Nat)
    (members : List (Nat × Nat)) : CSLState :=
  let s := members.foldl
    (fun acc id =>
      let acc := setEntry acc id (fun e => { e with replicationId := rid })
      { acc with pendingUpdate := acc.pendingUpdate ++ [{ kind := SLEventKind.addEvent, serverId := id }] })
    s
  pushUpdate s

/-- Modelled from the spec: recomputation of minConfirmedVersion (spec
invariant 3): the minimum verifiedVersion over the live-updatable
entries, or currentVersion when there are none. -/
def recomputeMin (s : CSLState) : CSLState :=
  let vs := (s.servers.filter liveUpdatable).map (fun e => e.verifiedVersion)
  { s with minConfirmedVersion := vs.foldr min s.currentVersion }

/-- Modelled from the spec: pruneUpdates (spec section 4.3) — drop pairs
from the front of the deque while their version is at most
minConfirmedVersion. -/
def pruneUpdates (s : CSLState) : CSLState :=
  { s with updates := s.updates.dropWhile (fun p => p.version ≤ s.minConfirmedVersion) }

/-- Modelled from the spec: workSuccess (spec section 4.6) — commit phase
of the per-entry two-phase commit: verifiedVersion becomes
updateVersion, the in-flight unit is retired, then minConfirmedVersion
is recomputed and the deque pruned. -/
def workSuccess (s : CSLState) (id : Nat × Nat) : CSLState :=
  match findEntry s id with
  | some e =>
    if e.updating then
      pruneUpdates (recomputeMin
        (setEntry s id (fun x =>
          { x with verifiedVersion := x.updateVersion, updating := false })))
    else s
  | none => s

/-- Modelled from the spec: workFailed (spec section 4.6) — rollback
phase: updateVersion falls back to verifiedVersion and the in-flight
unit is retired. -/
def workFailed (s : CSLState) (id : Nat × Nat) : CSLState :=
  match findEntry s id with
  | some e =>
    if e.updating then
      setEntry s id (fun x =>
        { x with updateVersion := x.verifiedVersion, updating := false })
    else s
  | none => s

/-- The work unit handed to the updater
(CoordinatorServerList::UpdaterWorkUnit, header lines 807-825).  The
deque range addressed by the firstUpdate pointer and updateVersionTail
of the source is represented by the list of pairs of that range. -/
structure UpdaterWorkUnit where
  targetServer : Nat × Nat
  sendFullList : Bool
  updateList : List UpdatePair
  updateVersionTail : Nat
deriving DecidableEq

/-- Modelled from the spec: eligibility filter of the getWork scan (spec
section 4.6, work selection): status UP or CRASHED, accepts membership
updates, no update already in flight, not already current. -/
def eligibleForWork (cur : Nat) (e : CSLEntry) : Bool :=
  liveUpdatable e && !(e.verifiedVersion < e.updateVersion) && e.verifiedVersion ≠ cur

/-- Modelled from the spec: the batch of incremental pairs for a target
whose last verified version is v — the pairs of the deque after v, at
most MAX_UPDATES_PER_RPC of them (spec section 4.6, work selection). -/
def workBatch (s : CSLState) (v : Nat) : List UpdatePair :=
  (s.updates.filter (fun p => v < p.version)).take MAX_UPDATES_PER_RPC

/-- Modelled from the spec: the tail version of an incremental work unit —
the version of the last batched pair (v itself if the batch is empty). -/
def workTail (s : CSLState) (v : Nat) : Nat :=
  (((workBatch s v).getLast?).map (fun p => p.version)).getD v

/-- Modelled from the spec: getWork (spec section 4.6).  Picks an eligible
entry; an uninitialized target is sent the full snapshot at the latest
version, any other target a contiguous batch of the incrementals after
its verifiedVersion, at most MAX_UPDATES_PER_RPC of them; the entry's
updateVersion is speculatively committed to the tail of the unit. -/
def getWork (s : CSLState) : Option UpdaterWorkUnit × CSLState :=
  match s.servers.find? (eligibleForWork s.currentVersion) with
  | none => (none, s)
  | some e =>
    if e.verifiedVersion = UNINITIALIZED_VERSION then
      (some { targetServer := e.serverId, sendFullList := true,
              updateList := [], updateVersionTail := s.currentVersion },
       setEntry s e.serverId (fun x =>
         { x with updateVersion := s.currentVersion, updating := true }))
    else
      (some { targetServer := e.serverId, sendFullList := false,
              updateList := workBatch s e.verifiedVersion,
              updateVersionTail := workTail s e.verifiedVersion },
       setEntry s e.serverId (fun x =>
         { x with updateVersion := workTail s e.verifiedVersion, updating := true }))

/-- The operations of the server-list subsystem the claims quantify
over. -/
inductive CSLOp
  | enlist (replacesId : Option (Nat × Nat)) (newId : Nat × Nat)
      (locator : String) (hasMembership : Bool) (readSpeed : Nat)
  | crash (id : Nat × Nat)
  | recovered (id : Nat × Nat)
  | replicationGroup (rid : Nat) (members : List (Nat × Nat))
  | work
  | success (id : Nat × Nat)
  | failure (id : Nat × Nat)

/-- Apply one operation. -/
def applyOp (op : CSLOp) (s : CSLState) : CSLState :=
  match op with
  | CSLOp.enlist rid nid loc mem speed => enlistServer s rid nid loc mem speed
  | CSLOp.crash id => serverCrashed s id
  | CSLOp.recovered id => recoveryCompleted s id
  | CSLOp.replicationGroup rid members => assignReplicationGroup s rid members
  | CSLOp.work => (getWork s).2
  | CSLOp.success id => workSuccess s id
  | CSLOp.failure id => workFailed s id

/-- The states the server list can reach from construction. -/
inductive CSLReachable : CSLState → Prop
  | init : CSLReachable initialCSL
  | step (op : CSLOp) (s : CSLState) : CSLReachable s → CSLReachable (applyOp op s)

/-! ## Coordinator server list: the standing invariant

Spec section 8, P1, together with the in-flight characterization of the
header (lines 144-150) and the deque-shape facts (spec invariants 2-4)
needed to preserve them. -/

/-- Per-entry conditions relative to the current version cur and the
deque length n: the two-phase-commit inequality, the in-flight
characterization, and lower bounds stating that the versions of a
live-updatable, already-initialized entry have not been pruned out of
the deque. -/
def EntryOK (cur n : Nat) (e : CSLEntry) : Prop :=
  e.verifiedVersion ≤ e.updateVersion ∧
  e.updateVersion ≤ cur ∧
  (e.updating = false ↔ e.verifiedVersion = e.updateVersion) ∧
  (liveUpdatable e = true → e.verifiedVersion ≠ UNINITIALIZED_VERSION →
    cur - n ≤ e.verifiedVersion) ∧
  (liveUpdatable e = true → e.updateVersion ≠ UNINITIALIZED_VERSION →
    cur - n ≤ e.updateVersion)

instance (cur n : Nat) (e : CSLEntry) : Decidable (EntryOK cur n e) := by
  unfold EntryOK; infer_instance

/-- The server-list invariant: distinct server ids, every entry
version-consistent, and the updates deque is the contiguous version
range ending at currentVersion. -/
def CSLInv (s : CSLState) : Prop :=
  (s.servers.map (fun e => e.serverId)).Nodup ∧
  (∀ e ∈ s.servers, EntryOK s.currentVersion s.updates.length e) ∧
  s.updates.map (fun p => p.version) =
    List.range' (s.currentVersion + 1 - s.updates.length) s.updates.length ∧
  s.updates.length ≤ s.currentVersion ∧
  s.pendingUpdate = []

instance (s : CSLState) : Decidable (CSLInv s) := by
  unfold CSLInv; infer_instance

lemma foldr_min_le_init (l : List Nat) (c : Nat) : l.foldr min c ≤ c := by
  induction l with
  | nil => simp
  | cons x xs ih => exact le_trans (min_le_right _ _) ih

lemma foldr_min_le_mem (l : List Nat) (c : Nat) : ∀ x ∈ l, l.foldr min c ≤ x := by
  induction l with
  | nil => simp
  | cons y ys ih =>
    intro x hx
    rcases List.mem_cons.1 hx with h | h
    · subst h; exact min_le_left _ _
    · exact le_trans (min_le_right _ _) (ih x h)

lemma dropWhile_range' (p : Nat → Bool) :
    ∀ (n a : Nat), ∃ k, k ≤ n ∧
      List.dropWhile p (List.range' a n) = List.range' (a + k) (n - k) ∧
      (∀ j < k, p (a + j) = true) := by
  intro n
  induction n with
  | zero => intro a; exact ⟨0, by simp⟩
  | succ m ih =>
    intro a
    rw [List.range'_succ]
    by_cases hpa : p a = true
    · obtain ⟨k, hk, hdrop, hall⟩ := ih (a + 1)
      refine ⟨k + 1, by omega, ?_, ?_⟩
      · rw [List.dropWhile_cons_of_pos hpa, hdrop]
        congr 1 <;> omega
      · intro j hj
        rcases Nat.eq_zero_or_pos j with rfl | hpos
        · simpa using hpa
        · have := hall (j - 1) (by omega)
          have hj1 : a + 1 + (j - 1) = a + j := by omega
          rwa [hj1] at this
    · refine ⟨0, by omega, ?_, by omega⟩
      rw [List.dropWhile_cons_of_neg hpa]
      simp [List.range'_succ]

lemma filter_lt_range' (v a n : Nat) (ha : a ≤ v + 1) (hn : v + 1 ≤ a + n) :
    (List.range' a n).filter (fun x => v < x) = List.range' (v + 1) (a + n - (v + 1)) := by
  have hsplit := List.range'_append a (v + 1 - a) (n - (v + 1 - a)) 1
  rw [one_mul, show n - (v + 1 - a) + (v + 1 - a) = n by omega] at hsplit
  have ha2 : a + (v + 1 - a) = v + 1 := by omega
  have hn2 : n - (v + 1 - a) = a + n - (v + 1) := by omega
  rw [← hsplit, List.filter_append, ha2, hn2]
  have h1 : (List.range' a (v + 1 - a)).filter (fun x => v < x) = [] := by
    apply List.filter_eq_nil_iff.2
    intro x hx
    have := List.mem_range'_1.1 hx
    simp only [decide_eq_true_eq]
    omega
  have h2 : (List.range' (v + 1) (a + n - (v + 1))).filter (fun x => v < x) =
      List.range' (v + 1) (a + n - (v + 1)) := by
    apply List.filter_eq_self.2
    intro x hx
    have := List.mem_range'_1.1 hx
    simp only [decide_eq_true_eq]
    omega
  rw [h1, h2, List.nil_append]

lemma take_range' (k a n : Nat) :
    (List.range' a n).take k = List.range' a (min k n) := by
  rcases le_total k n with h | h
  · have hsplit := List.range'_append a k (n - k) 1
    rw [one_mul, show n - k + k = n by omega] at hsplit
    rw [← hsplit, List.take_append_of_le_length (by simp), List.take_of_length_le (by simp),
      Nat.min_eq_left h]
  · rw [List.take_of_length_le (by simp [h]), Nat.min_eq_right h]

lemma getLast?_range' (a n : Nat) (hn : 0 < n) :
    (List.range' a n).getLast? = some (a + n - 1) := by
  obtain ⟨m, rfl⟩ : ∃ m, n = m + 1 := ⟨n - 1, by omega⟩
  have hsplit := List.range'_append a m 1 1
  rw [one_mul] at hsplit
  rw [show m + 1 = 1 + m from by omega, ← hsplit]
  simp [List.range']
  omega

lemma map_version_filter (l : List UpdatePair) (v : Nat) :
    ((l.filter (fun p => v < p.version)).map (fun p => p.version)) =
      (l.map (fun p => p.version)).filter (fun x => v < x) := by
  induction l with
  | nil => simp
  | cons p ps ih =>
    by_cases h : v < p.version <;> simp [List.filter_cons, h, ih]

lemma map_version_dropWhile (l : List UpdatePair) (m : Nat) :
    ((l.dropWhile (fun p => p.version ≤ m)).map (fun p => p.version)) =
      (l.map (fun p => p.version)).dropWhile (fun x => x ≤ m) := by
  induction l with
  | nil => simp
  | cons p ps ih =>
    by_cases h : p.version ≤ m <;>
      simp [List.dropWhile_cons, h, ih]

lemma getLast?_map_version (l : List UpdatePair) :
    (l.getLast?.map (fun p => p.version)) = (l.map (fun p => p.version)).getLast? := by
  induction l with
  | nil => simp
  | cons p ps ih =>
    cases ps with
    | nil => simp
    | cons q qs => simpa [List.getLast?_cons_cons] using ih

lemma ids_setEntry (s : CSLState) (id : Nat × Nat) (f : CSLEntry → CSLEntry)
    (hf : ∀ e, (f e).serverId = e.serverId) :
    (setEntry s id f).servers.map (fun e => e.serverId) =
      s.servers.map (fun e => e.serverId) := by
  simp only [setEntry, List.map_map]
  apply List.map_congr_left
  intro e _
  by_cases h : e.serverId = id <;> simp [h, hf]

lemma mem_setEntry {s : CSLState} {id : Nat × Nat} {f : CSLEntry → CSLEntry} {x : CSLEntry}
    (hx : x ∈ (setEntry s id f).servers) :
    ∃ e ∈ s.servers, x = if e.serverId = id then f e else e := by
  obtain ⟨e, he, hxe⟩ := List.mem_map.1 hx
  exact ⟨e, he, hxe.symm⟩

lemma findEntry_mem {s : CSLState} {id : Nat × Nat} {e : CSLEntry}
    (h : findEntry s id = some e) : e ∈ s.servers ∧ e.serverId = id := by
  refine ⟨List.mem_of_find?_eq_some h, ?_⟩
  have := List.find?_some h
  simpa using this

lemma matched_is_found {s : CSLState}
    (hids : (s.servers.map (fun e => e.serverId)).Nodup)
    {e x : CSLEntry} (he : e ∈ s.servers) (hx : x ∈ s.servers)
    (h : x.serverId = e.serverId) : x = e :=
  List.inj_on_of_nodup_map hids hx he h

/-- Invariant after pushUpdate, given the pre-push facts with an
arbitrary staged diff. -/
lemma push_inv (t : CSLState)
    (hids : (t.servers.map (fun e => e.serverId)).Nodup)
    (hE : ∀ e ∈ t.servers, EntryOK t.currentVersion t.updates.length e)
    (hdeq : t.updates.map (fun p => p.version) =
      List.range' (t.currentVersion + 1 - t.updates.length) t.updates.length)
    (hlen : t.updates.length ≤ t.currentVersion) :
    CSLInv (pushUpdate t) := by
  unfold pushUpdate
  by_cases hemp : t.pendingUpdate.isEmpty
  · rw [if_pos hemp]
    exact ⟨hids, hE, hdeq, hlen, List.isEmpty_iff.1 hemp⟩
  · rw [if_neg hemp]
    set n := t.updates.length with hn
    refine ⟨hids, ?_, ?_, ?_, rfl⟩
    · intro e he
      obtain ⟨h1, h2, h3, h4, h5⟩ := hE e he
      refine ⟨h1, by simpa using Nat.le_succ_of_le h2, h3, ?_, ?_⟩
      · intro hl hv
        have := h4 hl hv
        simp only [List.length_append, List.length_cons, List.length_nil]
        omega
      · intro hl hv
        have := h5 hl hv
        simp only [List.length_append, List.length_cons, List.length_nil]
        omega
    · simp only [List.map_append, List.length_append, List.length_cons, List.length_nil,
        List.map_cons, List.map_nil, hdeq]
      have happ := List.range'_append (t.currentVersion + 1 - n) n 1 1
      rw [one_mul] at happ
      have h1 : List.range' (t.currentVersion + 1 - n + n) 1 = [t.currentVersion + 1] := by
        simp [List.range']
        omega
      rw [h1] at happ
      rw [show t.currentVersion + 1 + 1 - (n + 1) = t.currentVersion + 1 - n by omega]
      rw [show n + 1 = 1 + n from by omega, ← happ]
    · simp only [List.length_append, List.length_cons, List.length_nil]
      omega

/-- Invariant after a minConfirmedVersion recomputation followed by a
prune. -/
lemma recompute_prune_inv (t : CSLState) (h : CSLInv t) :
    CSLInv (pruneUpdates (recomputeMin t)) := by
  obtain ⟨hids, hE, hdeq, hlen, hpend⟩ := h
  set m := ((t.servers.filter liveUpdatable).map (fun e => e.verifiedVersion)).foldr
    min t.currentVersion with hm
  have hmle : ∀ e ∈ t.servers, liveUpdatable e = true → m ≤ e.verifiedVersion := by
    intro e he hl
    apply foldr_min_le_mem
    exact List.mem_map.2 ⟨e, List.mem_filter.2 ⟨he, hl⟩, rfl⟩
  set n := t.updates.length with hn
  set a := t.currentVersion + 1 - n with ha
  obtain ⟨k, hk, hdrop, hkall⟩ := dropWhile_range' (fun x => x ≤ m) n a
  have hmapdrop : ((t.updates.dropWhile (fun p => p.version ≤ m)).map (fun p => p.version)) =
      List.range' (a + k) (n - k) := by
    rw [map_version_dropWhile, hdeq, hdrop]
  have hlen2 : (t.updates.dropWhile (fun p => p.version ≤ m)).length = n - k := by
    have := congrArg List.length hmapdrop
    simpa using this
  have hfront : k ≥ 1 → t.currentVersion - (n - k) ≤ m := by
    intro hk1
    have := hkall (k - 1) (by omega)
    have hle : a + (k - 1) ≤ m := by simpa using this
    omega
  refine ⟨hids, ?_, ?_, ?_, hpend⟩
  · intro e he
    simp only [pruneUpdates, recomputeMin] at he ⊢
    obtain ⟨h1, h2, h3, h4, h5⟩ := hE e he
    rw [hlen2]
    refine ⟨h1, h2, h3, ?_, ?_⟩
    · intro hl hv
      rcases Nat.eq_zero_or_pos k with hk0 | hk1
      · subst hk0; simpa using h4 hl hv
      · exact le_trans (hfront hk1) (hmle e he hl)
    · intro hl hv
      rcases Nat.eq_zero_or_pos k with hk0 | hk1
      · subst hk0; simpa using h5 hl hv
      · exact le_trans (le_trans (hfront hk1) (hmle e he hl)) h1
  · simp only [pruneUpdates, recomputeMin]
    rw [hlen2, hmapdrop]
    congr 1
    omega
  · simp only [pruneUpdates, recomputeMin]
    rw [hlen2]
    omega

lemma liveUpdatable_status (e : CSLEntry) (st : ServerStatus) :
    liveUpdatable { e with status := st } =
      ((st = ServerStatus.up || st = ServerStatus.crashed) && e.hasMembership) := rfl

/-- Facts about the state staged by stageCrashed on a found UP entry. -/
lemma stageCrashed_parts (s : CSLState) (id : Nat × Nat) (e : CSLEntry)
    (hids : (s.servers.map (fun x => x.serverId)).Nodup)
    (hE : ∀ x ∈ s.servers, EntryOK s.currentVersion s.updates.length x)
    (hfind : findEntry s id = some e) (hup : e.status = ServerStatus.up) :
    (stageCrashed s id).servers.map (fun x => x.serverId) =
        s.servers.map (fun x => x.serverId) ∧
      (∀ x ∈ (stageCrashed s id).servers, EntryOK s.currentVersion s.updates.length x) ∧
      (stageCrashed s id).currentVersion = s.currentVersion ∧
      (stageCrashed s id).updates = s.updates := by
  obtain ⟨hmem, hid⟩ := findEntry_mem hfind
  refine ⟨?_, ?_, rfl, rfl⟩
  · exact ids_setEntry s id _ (fun x => rfl)
  · intro x hx
    obtain ⟨y, hy, rfl⟩ := mem_setEntry hx
    by_cases hm : y.serverId = id
    · have hye : y = e := matched_is_found hids hmem hy (by rw [hm, hid])
      subst hye
      simp only [hm, if_pos rfl]
      obtain ⟨h1, h2, h3, h4, h5⟩ := hE y hy
      refine ⟨h1, h2, h3, ?_, ?_⟩
      · intro hl hv
        apply h4 _ hv
        rw [liveUpdatable_status] at hl
        simp only [liveUpdatable, hup]
        simpa using hl
      · intro hl hv
        apply h5 _ hv
        rw [liveUpdatable_status] at hl
        simp only [liveUpdatable, hup]
        simpa using hl
    · simp only [hm, if_neg hm]
      exact hE y hy

/-- Facts about the state staged by stageRemove. -/
lemma stageRemove_parts (s : CSLState) (id : Nat × Nat)
    (hE : ∀ x ∈ s.servers, EntryOK s.currentVersion s.updates.length x) :
    (stageRemove s id).servers.map (fun x => x.serverId) =
        s.servers.map (fun x => x.serverId) ∧
      (∀ x ∈ (stageRemove s id).servers, EntryOK s.currentVersion s.updates.length x) ∧
      (stageRemove s id).currentVersion = s.currentVersion ∧
      (stageRemove s id).updates = s.updates := by
  refine ⟨ids_setEntry s id _ (fun x => rfl), ?_, rfl, rfl⟩
  intro x hx
  obtain ⟨y, hy, rfl⟩ := mem_setEntry hx
  by_cases hm : y.serverId = id
  · simp only [hm, if_pos rfl]
    obtain ⟨h1, h2, h3, h4, h5⟩ := hE y hy
    refine ⟨h1, h2, h3, ?_, ?_⟩ <;>
      · intro hl
        rw [liveUpdatable_status] at hl
        simp at hl
  · simp only [hm, if_neg hm]
    exact hE y hy

/-- Invariant after adding a fresh entry on top of a staged state and
publishing. -/
lemma stageAdd_push_inv (s t : CSLState) (nid : Nat × Nat) (loc : String)
    (mem : Bool) (speed : Nat)
    (hids : (s.servers.map (fun x => x.serverId)).Nodup)
    (hdeq : s.updates.map (fun p => p.version) =
      List.range' (s.currentVersion + 1 - s.updates.length) s.updates.length)
    (hlen : s.updates.length ≤ s.currentVersion)
    (hfresh : ∀ x ∈ s.servers, x.serverId ≠ nid)
    (hmap : t.servers.map (fun x => x.serverId) = s.servers.map (fun x => x.serverId))
    (hEt : ∀ x ∈ t.servers, EntryOK s.currentVersion s.updates.length x)
    (hcur : t.currentVersion = s.currentVersion)
    (hupd : t.updates = s.updates) :
    CSLInv (pushUpdate (stageAdd t nid loc mem speed)) := by
  apply push_inv
  · simp only [stageAdd, List.map_append, List.map_cons, List.map_nil]
    rw [show (newEntry nid loc mem speed).serverId = nid from rfl, hmap]
    rw [List.nodup_append]
    refine ⟨hids, List.nodup_singleton _, ?_⟩
    intro a ha hb
    have hbn : a = nid := by simpa using hb
    obtain ⟨x, hx, rfl⟩ := List.mem_map.1 ha
    exact hfresh x hx hbn
  · intro x hx
    simp only [stageAdd, List.mem_append, List.mem_singleton] at hx
    simp only [stageAdd, hcur, hupd]
    rcases hx with hx | rfl
    · exact hEt x hx
    · refine ⟨le_refl _, Nat.zero_le _, by simp [newEntry], ?_, ?_⟩ <;>
        · intro _ hv
          exact absurd rfl hv
  · simp only [stageAdd, hcur, hupd, hdeq]
  · simp only [stageAdd, hcur, hupd]
    exact hlen

lemma enlist_inv (s : CSLState) (rid : Option (Nat × Nat)) (nid : Nat × Nat)
    (loc : String) (mem : Bool) (speed : Nat) (h : CSLInv s) :
    CSLInv (enlistServer s rid nid loc mem speed) := by
  obtain ⟨hids, hE, hdeq, hlen, hpend⟩ := h
  unfold enlistServer
  by_cases hguard : (findEntry s nid).isSome
  · simp only [if_pos hguard]
    exact ⟨hids, hE, hdeq, hlen, hpend⟩
  · simp only [if_neg hguard]
    have hnone : findEntry s nid = none := by
      cases hcase : findEntry s nid with
      | none => rfl
      | some y => rw [hcase] at hguard; simp at hguard
    have hfresh : ∀ x ∈ s.servers, x.serverId ≠ nid := by
      intro x hx
      unfold findEntry at hnone
      have := List.find?_eq_none.1 hnone x hx
      simpa using this
    rcases rid with _ | r
    · exact stageAdd_push_inv s s nid loc mem speed hids hdeq hlen hfresh rfl hE rfl rfl
    · rcases hfind : findEntry s r with _ | e
      · simp only [hfind]
        exact stageAdd_push_inv s s nid loc mem speed hids hdeq hlen hfresh rfl hE rfl rfl
      · simp only [hfind]
        by_cases hup : e.status = ServerStatus.up
        · rw [if_pos hup]
          obtain ⟨hm, hEt, hc, hu⟩ := stageCrashed_parts s r e hids hE hfind hup
          exact stageAdd_push_inv s _ nid loc mem speed hids hdeq hlen hfresh hm hEt hc hu
        · rw [if_neg hup]
          exact stageAdd_push_inv s s nid loc mem speed hids hdeq hlen hfresh rfl hE rfl rfl

lemma serverCrashed_eq_none (s : CSLState) (id : Nat × Nat)
    (h : findEntry s id = none) : serverCrashed s id = s := by
  unfold serverCrashed; rw [h]

lemma serverCrashed_eq_some (s : CSLState) (id : Nat × Nat) (e : CSLEntry)
    (h : findEntry s id = some e) :
    serverCrashed s id =
      if e.status = ServerStatus.up then pushUpdate (stageCrashed s id) else s := by
  unfold serverCrashed; rw [h]

lemma recoveryCompleted_eq_none (s : CSLState) (id : Nat × Nat)
    (h : findEntry s id = none) : recoveryCompleted s id = s := by
  unfold recoveryCompleted; rw [h]

lemma recoveryCompleted_eq_some (s : CSLState) (id : Nat × Nat) (e : CSLEntry)
    (h : findEntry s id = some e) :
    recoveryCompleted s id =
      if e.status = ServerStatus.crashed then pushUpdate (stageRemove s id) else s := by
  unfold recoveryCompleted; rw [h]

lemma workSuccess_eq_none (s : CSLState) (id : Nat × Nat)
    (h : findEntry s id = none) : workSuccess s id = s := by
  unfold workSuccess; rw [h]

lemma workSuccess_eq_some (s : CSLState) (id : Nat × Nat) (e : CSLEntry)
    (h : findEntry s id = some e) :
    workSuccess s id =
      if e.updating then
        pruneUpdates (recomputeMin
          (setEntry s id (fun x =>
            { x with verifiedVersion := x.updateVersion, updating := false })))
      else s := by
  unfold workSuccess; rw [h]

lemma workFailed_eq_none (s : CSLState) (id : Nat × Nat)
    (h : findEntry s id = none) : workFailed s id = s := by
  unfold workFailed; rw [h]

lemma workFailed_eq_some (s : CSLState) (id : Nat × Nat) (e : CSLEntry)
    (h : findEntry s id = some e) :
    workFailed s id =
      if e.updating then
        setEntry s id (fun x =>
          { x with updateVersion := x.verifiedVersion, updating := false })
      else s := by
  unfold workFailed; rw [h]

lemma getWork_eq_none (s : CSLState)
    (h : s.servers.find? (eligibleForWork s.currentVersion) = none) :
    getWork s = (none, s) := by
  unfold getWork; rw [h]

lemma getWork_eq_some (s : CSLState) (e : CSLEntry)
    (h : s.servers.find? (eligibleForWork s.currentVersion) = some e) :
    getWork s =
      if e.verifiedVersion = UNINITIALIZED_VERSION then
        (some { targetServer := e.serverId, sendFullList := true,
                updateList := [], updateVersionTail := s.currentVersion },
         setEntry s e.serverId (fun x =>
           { x with updateVersion := s.currentVersion, updating := true }))
      else
        (some { targetServer := e.serverId, sendFullList := false,
                updateList := workBatch s e.verifiedVersion,
                updateVersionTail := workTail s e.verifiedVersion },
         setEntry s e.serverId (fun x =>
           { x with updateVersion := workTail s e.verifiedVersion, updating := true })) := by
  unfold getWork; rw [h]

lemma serverCrashed_inv (s : CSLState) (id : Nat × Nat) (h : CSLInv s) :
    CSLInv (serverCrashed s id) := by
  obtain ⟨hids, hE, hdeq, hlen, hpend⟩ := h
  rcases hfind : findEntry s id with _ | e
  · rw [serverCrashed_eq_none s id hfind]
    exact ⟨hids, hE, hdeq, hlen, hpend⟩
  · rw [serverCrashed_eq_some s id e hfind]
    by_cases hup : e.status = ServerStatus.up
    · rw [if_pos hup]
      obtain ⟨hm, hEt, hc, hu⟩ := stageCrashed_parts s id e hids hE hfind hup
      apply push_inv
      · rw [hm]; exact hids
      · rw [hc, hu]; exact hEt
      · rw [hc, hu]; exact hdeq
      · rw [hc, hu]; exact hlen
    · rw [if_neg hup]
      exact ⟨hids, hE, hdeq, hlen, hpend⟩

lemma recoveryCompleted_inv (s : CSLState) (id : Nat × Nat) (h : CSLInv s) :
    CSLInv (recoveryCompleted s id) := by
  obtain ⟨hids, hE, hdeq, hlen, hpend⟩ := h
  rcases hfind : findEntry s id with _ | e
  · rw [recoveryCompleted_eq_none s id hfind]
    exact ⟨hids, hE, hdeq, hlen, hpend⟩
  · rw [recoveryCompleted_eq_some s id e hfind]
    by_cases hcr : e.status = ServerStatus.crashed
    · rw [if_pos hcr]
      obtain ⟨hm, hEt, hc, hu⟩ := stageRemove_parts s id hE
      apply push_inv
      · rw [hm]; exact hids
      · rw [hc, hu]; exact hEt
      · rw [hc, hu]; exact hdeq
      · rw [hc, hu]; exact hlen
    · rw [if_neg hcr]
      exact ⟨hids, hE, hdeq, hlen, hpend⟩

lemma workFailed_inv (s : CSLState) (id : Nat × Nat) (h : CSLInv s) :
    CSLInv (workFailed s id) := by
  obtain ⟨hids, hE, hdeq, hlen, hpend⟩ := h
  rcases hfind : findEntry s id with _ | e
  · rw [workFailed_eq_none s id hfind]
    exact ⟨hids, hE, hdeq, hlen, hpend⟩
  · rw [workFailed_eq_some s id e hfind]
    by_cases hupd : e.updating
    · rw [if_pos hupd]
      refine ⟨?_, ?_, hdeq, hlen, hpend⟩
      · rw [ids_setEntry s id (fun x => { x with updateVersion := x.verifiedVersion, updating := false }) (fun x => rfl)]; exact hids
      · intro x hx
        obtain ⟨y, hy, rfl⟩ := mem_setEntry hx
        by_cases hm : y.serverId = id
        · simp only [hm, if_pos rfl]
          obtain ⟨h1, h2, h3, h4, h5⟩ := hE y hy
          exact ⟨le_refl _, le_trans h1 h2, by simp, h4, fun hl hv => h4 hl hv⟩
        · simp only [hm, if_neg hm]
          exact hE y hy
    · rw [if_neg hupd]
      exact ⟨hids, hE, hdeq, hlen, hpend⟩

lemma workSuccess_inv (s : CSLState) (id : Nat × Nat) (h : CSLInv s) :
    CSLInv (workSuccess s id) := by
  obtain ⟨hids, hE, hdeq, hlen, hpend⟩ := h
  rcases hfind : findEntry s id with _ | e
  · rw [workSuccess_eq_none s id hfind]
    exact ⟨hids, hE, hdeq, hlen, hpend⟩
  · rw [workSuccess_eq_some s id e hfind]
    by_cases hupd : e.updating
    · rw [if_pos hupd]
      apply recompute_prune_inv
      refine ⟨?_, ?_, hdeq, hlen, hpend⟩
      · rw [ids_setEntry s id (fun x => { x with verifiedVersion := x.updateVersion, updating := false }) (fun x => rfl)]; exact hids
      · intro x hx
        obtain ⟨y, hy, rfl⟩ := mem_setEntry hx
        by_cases hm : y.serverId = id
        · simp only [hm, if_pos rfl]
          obtain ⟨h1, h2, h3, h4, h5⟩ := hE y hy
          exact ⟨le_refl _, h2, by simp, fun hl hv => h5 hl hv, h5⟩
        · simp only [hm, if_neg hm]
          exact hE y hy
    · rw [if_neg hupd]
      exact ⟨hids, hE, hdeq, hlen, hpend⟩

/-- Facts about an incremental work batch under the invariant: its
versions are exactly the contiguous range after v of bounded length. -/
lemma workBatch_facts (s : CSLState) (v : Nat) (h : CSLInv s)
    (hvn : s.currentVersion - s.updates.length ≤ v)
    (hvc : v < s.currentVersion) :
    (workBatch s v).map (fun p => p.version) =
      List.range' (v + 1) (min MAX_UPDATES_PER_RPC (s.currentVersion - v)) ∧
    workTail s v = v + min MAX_UPDATES_PER_RPC (s.currentVersion - v) := by
  obtain ⟨hids, hE, hdeq, hlen, hpend⟩ := h
  have hmap : (workBatch s v).map (fun p => p.version) =
      List.range' (v + 1) (min MAX_UPDATES_PER_RPC (s.currentVersion - v)) := by
    unfold workBatch
    rw [List.map_take, map_version_filter, hdeq]
    rw [filter_lt_range' v (s.currentVersion + 1 - s.updates.length) s.updates.length
      (by omega) (by omega)]
    rw [take_range']
    congr 1
    omega
  refine ⟨hmap, ?_⟩
  unfold workTail
  rw [getLast?_map_version, hmap, getLast?_range' _ _ ?hpos]
  case hpos =>
    have : 1 ≤ min MAX_UPDATES_PER_RPC (s.currentVersion - v) := by
      unfold MAX_UPDATES_PER_RPC
      omega
    omega
  simp only [Option.getD_some]
  have : 1 ≤ min MAX_UPDATES_PER_RPC (s.currentVersion - v) := by
    unfold MAX_UPDATES_PER_RPC
    omega
  omega

lemma getWork_inv (s : CSLState) (h : CSLInv s) : CSLInv (getWork s).2 := by
  obtain ⟨hids, hE, hdeq, hlen, hpend⟩ := h
  rcases hfind : s.servers.find? (eligibleForWork s.currentVersion) with _ | e
  · rw [getWork_eq_none s hfind]
    exact ⟨hids, hE, hdeq, hlen, hpend⟩
  · rw [getWork_eq_some s e hfind]
    have hemem : e ∈ s.servers := List.mem_of_find?_eq_some hfind
    have helig : eligibleForWork s.currentVersion e = true := List.find?_some hfind
    obtain ⟨h1, h2, h3, h4, h5⟩ := hE e hemem
    simp only [eligibleForWork, Bool.and_eq_true, Bool.not_eq_true',
      decide_eq_false_iff_not, decide_eq_true_eq, not_lt, ne_eq] at helig
    obtain ⟨⟨hlive, hnogt⟩, hne⟩ := helig
    have hvu : e.verifiedVersion = e.updateVersion := le_antisymm h1 hnogt
    have hvc : e.verifiedVersion < s.currentVersion :=
      lt_of_le_of_ne (hvu ▸ h2) hne
    by_cases hv0 : e.verifiedVersion = UNINITIALIZED_VERSION
    · rw [if_pos hv0]
      refine ⟨?_, ?_, hdeq, hlen, hpend⟩
      · rw [ids_setEntry s e.serverId (fun x => { x with updateVersion := s.currentVersion, updating := true }) (fun x => rfl)]; exact hids
      · intro x hx
        obtain ⟨y, hy, rfl⟩ := mem_setEntry hx
        by_cases hm : y.serverId = e.serverId
        · have hye : y = e := matched_is_found hids hemem hy hm
          subst hye
          rw [if_pos hm]
          refine ⟨le_of_lt hvc, le_refl _, ?_, ?_, ?_⟩
          · exact iff_of_false (by simp) hne
          · intro _ hv
            exact absurd hv0 hv
          · intro _ _
            show s.currentVersion - s.updates.length ≤ s.currentVersion
            omega
        · rw [if_neg hm]
          exact hE y hy
    · rw [if_neg hv0]
      obtain ⟨hwb, hwt⟩ := workBatch_facts s e.verifiedVersion
        ⟨hids, hE, hdeq, hlen, hpend⟩ (h4 hlive hv0) hvc
      set m := min MAX_UPDATES_PER_RPC (s.currentVersion - e.verifiedVersion) with hm
      have hm1 : 1 ≤ m := by
        rw [hm]
        unfold MAX_UPDATES_PER_RPC
        omega
      have hmle : m ≤ s.currentVersion - e.verifiedVersion := by
        rw [hm]; omega
      refine ⟨?_, ?_, hdeq, hlen, hpend⟩
      · rw [ids_setEntry s e.serverId (fun x => { x with updateVersion := workTail s e.verifiedVersion, updating := true }) (fun x => rfl)]; exact hids
      · intro x hx
        obtain ⟨y, hy, rfl⟩ := mem_setEntry hx
        by_cases hmid : y.serverId = e.serverId
        · have hye : y = e := matched_is_found hids hemem hy hmid
          subst hye
          rw [if_pos hmid, hwt]
          have hv4 := h4 hlive hv0
          refine ⟨Nat.le_add_right _ _, ?_, ?_, ?_, ?_⟩
          · show y.verifiedVersion + m ≤ s.currentVersion
            omega
          · refine iff_of_false (by simp) ?_
            show ¬y.verifiedVersion = y.verifiedVersion + m
            omega
          · intro _ hv
            exact h4 hlive hv
          · intro _ _
            show s.currentVersion - s.updates.length ≤ y.verifiedVersion + m
            omega
        · rw [if_neg hmid]
          exact hE y hy

/-- The invariant holds at construction. -/
lemma initial_inv : CSLInv initialCSL := by
  refine ⟨by simp [initialCSL], by simp [initialCSL], by simp [initialCSL], by
    simp [initialCSL], rfl⟩

lemma assignReplicationGroup_inv (s : CSLState) (rid : Nat)
    (members : List (Nat × Nat)) (h : CSLInv s) :
    CSLInv (assignReplicationGroup s rid members) := by
  obtain ⟨hids, hE, hdeq, hlen, hpend⟩ := h
  unfold assignReplicationGroup
  have hfold : ∀ (ms : List (Nat × Nat)) (t : CSLState),
      t.servers.map (fun x => x.serverId) = s.servers.map (fun x => x.serverId) →
      (∀ x ∈ t.servers, EntryOK s.currentVersion s.updates.length x) →
      t.currentVersion = s.currentVersion →
      t.updates = s.updates →
      (let r := ms.foldl (fun acc idm =>
        let acc := setEntry acc idm (fun e => { e with replicationId := rid })
        { acc with pendingUpdate := acc.pendingUpdate ++
            [{ kind := SLEventKind.addEvent, serverId := idm }] }) t
       r.servers.map (fun x => x.serverId) = s.servers.map (fun x => x.serverId) ∧
       (∀ x ∈ r.servers, EntryOK s.currentVersion s.updates.length x) ∧
       r.currentVersion = s.currentVersion ∧
       r.updates = s.updates) := by
    intro ms
    induction ms with
    | nil => intro t h1 h2 h3 h4; exact ⟨h1, h2, h3, h4⟩
    | cons idm rest ih =>
      intro t h1 h2 h3 h4
      apply ih
      · rw [← h1]
        exact ids_setEntry t idm _ (fun x => rfl)
      · intro x hx
        obtain ⟨y, hy, rfl⟩ := mem_setEntry hx
        by_cases hm : y.serverId = idm
        · simp only [hm, if_pos rfl]
          obtain ⟨g1, g2, g3, g4, g5⟩ := h2 y hy
          exact ⟨g1, g2, g3, g4, g5⟩
        · simp only [hm, if_neg hm]
          exact h2 y hy
      · exact h3
      · exact h4
  obtain ⟨h1, h2, h3, h4⟩ := hfold members s rfl hE rfl rfl
  apply push_inv
  · rw [h1]; exact hids
  · rw [h3, h4]; exact h2
  · rw [h3, h4]; exact hdeq
  · rw [h3, h4]; exact hlen

/-- The invariant is preserved by every operation. -/
lemma applyOp_inv (op : CSLOp) (s : CSLState) (h : CSLInv s) :
    CSLInv (applyOp op s) := by
  cases op with
  | enlist rid nid loc mem speed => exact enlist_inv s rid nid loc mem speed h
  | crash id => exact serverCrashed_inv s id h
  | recovered id => exact recoveryCompleted_inv s id h
  | replicationGroup rid members => exact assignReplicationGroup_inv s rid members h
  | work => exact getWork_inv s h
  | success id => exact workSuccess_inv s id h
  | failure id => exact workFailed_inv s id h

/-- Every reachable state satisfies the invariant. -/
lemma reachable_inv (s : CSLState) (h : CSLReachable s) : CSLInv s := by
  induction h with
  | init => exact initial_inv
  | step op t _ ih => exact applyOp_inv op t ih

/-! ## Claim theorems about the server-list subsystem -/

/-- C1: for every entry of the coordinator server list, after every
operation (enlist, crash, recovery-completed, replication-group change,
getWork, workSuccess, workFailed — i.e. in every reachable state),
verifiedVersion ≤ updateVersion ≤ currentVersion; moreover
verifiedVersion = updateVersion exactly when no update RPC is in flight
for that server, and verifiedVersion < updateVersion exactly when one
is. -/
theorem c1_two_phase_version_invariant (s : CSLState) (hs : CSLReachable s)
    (e : CSLEntry) (he : e ∈ s.servers) :
    (e.verifiedVersion ≤ e.updateVersion ∧ e.updateVersion ≤ s.currentVersion) ∧
    (e.verifiedVersion = e.updateVersion ↔ e.updating = false) ∧
    (e.verifiedVersion < e.updateVersion ↔ e.updating = true) := by
  obtain ⟨_, hE, _, _, _⟩ := reachable_inv s hs
  obtain ⟨h1, h2, h3, _, _⟩ := hE e he
  refine ⟨⟨h1, h2⟩, h3.symm, ?_⟩
  constructor
  · intro hlt
    cases hupd : e.updating with
    | true => rfl
    | false => exact absurd (h3.1 hupd) (ne_of_lt hlt)
  · intro htrue
    refine lt_of_le_of_ne h1 ?_
    intro heq
    have hfalse := h3.2 heq
    rw [htrue] at hfalse
    cases hfalse

/-- The state reached by one enlistment from the empty coordinator list;
used to witness the C1 theorem at a concrete input. -/
def c1ws : CSLState :=
  applyOp (CSLOp.enlist none (1, 0) "tcp" true 100) initialCSL

/-- Witness for c1_two_phase_version_invariant at a concrete reachable
state and entry. -/
theorem c1_two_phase_version_invariant_witness :
    ((newEntry (1, 0) "tcp" true 100).verifiedVersion ≤
        (newEntry (1, 0) "tcp" true 100).updateVersion ∧
      (newEntry (1, 0) "tcp" true 100).updateVersion ≤ c1ws.currentVersion) ∧
    ((newEntry (1, 0) "tcp" true 100).verifiedVersion =
        (newEntry (1, 0) "tcp" true 100).updateVersion ↔
      (newEntry (1, 0) "tcp" true 100).updating = false) ∧
    ((newEntry (1, 0) "tcp" true 100).verifiedVersion <
        (newEntry (1, 0) "tcp" true 100).updateVersion ↔
      (newEntry (1, 0) "tcp" true 100).updating = true) :=
  c1_two_phase_version_invariant c1ws
    (CSLReachable.step (CSLOp.enlist none (1, 0) "tcp" true 100) initialCSL
      CSLReachable.init)
    (newEntry (1, 0) "tcp" true 100) (by decide)

/-- C2: for a server id with an in-flight work unit, workSuccess commits
(verifiedVersion becomes updateVersion) and workFailed rolls back
(updateVersion becomes verifiedVersion); each touches only those fields
of that entry and leaves every other entry unchanged, as the map-form of
the resulting entry list shows. -/
theorem c2_commit_rollback (s : CSLState) (id : Nat × Nat) (e : CSLEntry)
    (hfind : findEntry s id = some e) (hfl : e.updating = true) :
    (workSuccess s id).servers = s.servers.map (fun x =>
      if x.serverId = id then
        { x with verifiedVersion := x.updateVersion, updating := false } else x) ∧
    (workFailed s id).servers = s.servers.map (fun x =>
      if x.serverId = id then
        { x with updateVersion := x.verifiedVersion, updating := false } else x) := by
  rw [workSuccess_eq_some s id e hfind, workFailed_eq_some s id e hfind]
  rw [if_pos hfl, if_pos hfl]
  exact ⟨rfl, rfl⟩

/-- The entry of the c2 witness state: one server with an update in
flight. -/
def c2we : CSLEntry :=
  { serverId := (1, 0), status := ServerStatus.up,
    hasMembership := true, serviceLocator := "tcp", readSpeed := 100,
    replicationId := 0, verifiedVersion := 0, updateVersion := 1,
    updating := true }

/-- A one-entry state with an in-flight update, witnessing c2. -/
def c2ws : CSLState :=
  { servers := [c2we],
    currentVersion := 1, pendingUpdate := [],
    updates := [{ version := 1,
                  incremental := [{ kind := SLEventKind.addEvent, serverId := (1, 0) }],
                  full := [(1, 0)] }],
    minConfirmedVersion := 0 }

/-- Witness for c2_commit_rollback at a concrete state. -/
theorem c2_commit_rollback_witness :
    (workSuccess c2ws (1, 0)).servers = c2ws.servers.map (fun x =>
      if x.serverId = (1, 0) then
        { x with verifiedVersion := x.updateVersion, updating := false } else x) ∧
    (workFailed c2ws (1, 0)).servers = c2ws.servers.map (fun x =>
      if x.serverId = (1, 0) then
        { x with updateVersion := x.verifiedVersion, updating := false } else x) :=
  c2_commit_rollback c2ws (1, 0) c2we rfl rfl

/-- Removals and crashes never follow an addition: once an ADD event
occurs in an incremental, every later event is an ADD as well. -/
def orderedEvents (l : List SLEvent) : Prop :=
  List.Pairwise (fun a b =>
    a.kind = SLEventKind.addEvent → b.kind = SLEventKind.addEvent) l

instance (l : List SLEvent) : Decidable (orderedEvents l) := by
  unfold orderedEvents; infer_instance

lemma pushUpdate_servers (t : CSLState) : (pushUpdate t).servers = t.servers := by
  unfold pushUpdate
  split <;> rfl

lemma pairwise_true_of {α : Type} {R : α → α → Prop} (l : List α)
    (h : ∀ a b, R a b) : List.Pairwise R l := by
  induction l with
  | nil => exact List.Pairwise.nil
  | cons x xs ih => exact List.Pairwise.cons (fun y _ => h x y) ih

lemma find?_append_of_none {α : Type} (p : α → Bool) (l₁ l₂ : List α)
    (h : l₁.find? p = none) : (l₁ ++ l₂).find? p = l₂.find? p := by
  induction l₁ with
  | nil => simp
  | cons x xs ih =>
    by_cases hx : p x
    · rw [List.find?_cons_of_pos _ hx] at h
      cases h
    · rw [List.find?_cons_of_neg _ hx] at h
      rw [List.cons_append, List.find?_cons_of_neg _ hx]
      exact ih h

/-- Any pair freshly appended by a pushUpdate carries the staged diff. -/
lemma mem_push_new (t : CSLState) {p : UpdatePair}
    (hp : p ∈ (pushUpdate t).updates.drop t.updates.length) :
    p.incremental = t.pendingUpdate := by
  unfold pushUpdate at hp
  by_cases hemp : t.pendingUpdate.isEmpty
  · rw [if_pos hemp] at hp
    rw [List.drop_length] at hp
    cases hp
  · rw [if_neg hemp] at hp
    rw [List.drop_left] at hp
    rw [List.mem_singleton] at hp
    rw [hp]

lemma replication_fold_pending (rid : Nat) (ms : List (Nat × Nat)) :
    ∀ t : CSLState,
      (ms.foldl (fun acc idm =>
        let acc := setEntry acc idm (fun e => { e with replicationId := rid })
        { acc with pendingUpdate := acc.pendingUpdate ++
            [{ kind := SLEventKind.addEvent, serverId := idm }] }) t).pendingUpdate =
      t.pendingUpdate ++ ms.map (fun idm =>
        { kind := SLEventKind.addEvent, serverId := idm }) := by
  induction ms with
  | nil => intro t; simp
  | cons m rest ih =>
    intro t
    rw [List.foldl_cons, ih]
    simp [setEntry]

lemma replication_fold_updates (rid : Nat) (ms : List (Nat × Nat)) :
    ∀ t : CSLState,
      (ms.foldl (fun acc idm =>
        let acc := setEntry acc idm (fun e => { e with replicationId := rid })
        { acc with pendingUpdate := acc.pendingUpdate ++
            [{ kind := SLEventKind.addEvent, serverId := idm }] }) t).updates =
      t.updates := by
  induction ms with
  | nil => intro t; simp
  | cons m rest ih =>
    intro t
    rw [List.foldl_cons, ih]
    simp [setEntry]

lemma enlistServer_replace_eq (s : CSLState) (rid nid : Nat × Nat)
    (loc : String) (mem : Bool) (speed : Nat) (e : CSLEntry)
    (hnone : findEntry s nid = none) (hfind : findEntry s rid = some e)
    (hup : e.status = ServerStatus.up) :
    enlistServer s (some rid) nid loc mem speed =
      pushUpdate (stageAdd (stageCrashed s rid) nid loc mem speed) := by
  unfold enlistServer
  rw [hnone]
  simp [hfind, hup]

/-- C3: within every single published incremental message, all removal
and crash events appear before all addition events; in particular an
enlistment that replaces a still-UP server publishes one incremental
carrying the CRASHED event of the old id followed by the ADD event of
the new id, never in the reverse order. -/
theorem c3_removals_before_additions (s : CSLState) (h : CSLInv s) :
    (∀ op : CSLOp, ∀ p ∈ (applyOp op s).updates.drop s.updates.length,
      orderedEvents p.incremental) ∧
    (∀ (rid nid : Nat × Nat) (loc : String) (mem : Bool) (speed : Nat)
      (e : CSLEntry), findEntry s rid = some e → e.status = ServerStatus.up →
      findEntry s nid = none →
      ((applyOp (CSLOp.enlist (some rid) nid loc mem speed) s).updates.drop
        s.updates.length).map (fun p => p.incremental) =
        [[{ kind := SLEventKind.crashedEvent, serverId := rid },
          { kind := SLEventKind.addEvent, serverId := nid }]]) := by
  obtain ⟨hids, hE, hdeq, hlen, hpend⟩ := h
  constructor
  · intro op p hp
    cases op with
    | enlist rid nid loc mem speed =>
      simp only [applyOp] at hp
      unfold enlistServer at hp
      by_cases hguard : (findEntry s nid).isSome
      · rw [if_pos hguard, List.drop_length] at hp
        cases hp
      · rw [if_neg hguard] at hp
        rcases rid with _ | r
        · have hinc := mem_push_new (stageAdd s nid loc mem speed) hp
          rw [hinc]
          simp [stageAdd, stageCrashed, stageRemove, setEntry, hpend, orderedEvents, List.pairwise_cons]
        · rcases hfind : findEntry s r with _ | e
          · simp only [hfind] at hp
            have hinc := mem_push_new (stageAdd s nid loc mem speed) hp
            rw [hinc]
            simp [stageAdd, stageCrashed, stageRemove, setEntry, hpend, orderedEvents, List.pairwise_cons]
          · simp only [hfind] at hp
            by_cases hup : e.status = ServerStatus.up
            · rw [if_pos hup] at hp
              have hinc := mem_push_new (stageAdd (stageCrashed s r) nid loc mem speed) hp
              rw [hinc]
              simp [stageAdd, stageCrashed, stageRemove, setEntry, hpend, orderedEvents, List.pairwise_cons]
            · rw [if_neg hup] at hp
              have hinc := mem_push_new (stageAdd s nid loc mem speed) hp
              rw [hinc]
              simp [stageAdd, stageCrashed, stageRemove, setEntry, hpend, orderedEvents, List.pairwise_cons]
    | crash id =>
      simp only [applyOp] at hp
      rcases hfind : findEntry s id with _ | e
      · rw [serverCrashed_eq_none s id hfind, List.drop_length] at hp
        cases hp
      · rw [serverCrashed_eq_some s id e hfind] at hp
        by_cases hup : e.status = ServerStatus.up
        · rw [if_pos hup] at hp
          have hinc := mem_push_new (stageCrashed s id) hp
          rw [hinc]
          simp [stageAdd, stageCrashed, stageRemove, setEntry, hpend, orderedEvents, List.pairwise_cons]
        · rw [if_neg hup, List.drop_length] at hp
          cases hp
    | recovered id =>
      simp only [applyOp] at hp
      rcases hfind : findEntry s id with _ | e
      · rw [recoveryCompleted_eq_none s id hfind, List.drop_length] at hp
        cases hp
      · rw [recoveryCompleted_eq_some s id e hfind] at hp
        by_cases hcr : e.status = ServerStatus.crashed
        · rw [if_pos hcr] at hp
          have hinc := mem_push_new (stageRemove s id) hp
          rw [hinc]
          simp [stageAdd, stageCrashed, stageRemove, setEntry, hpend, orderedEvents, List.pairwise_cons]
        · rw [if_neg hcr, List.drop_length] at hp
          cases hp
    | replicationGroup rid members =>
      simp only [applyOp] at hp
      unfold assignReplicationGroup at hp
      have hupd := replication_fold_updates rid members s
      have hpnd := replication_fold_pending rid members s
      rw [← hupd] at hp
      have hinc := mem_push_new _ hp
      rw [hinc, hpnd, hpend, List.nil_append]
      unfold orderedEvents
      rw [List.pairwise_map]
      apply pairwise_true_of
      intro a b
      intro _
      rfl
    | work =>
      simp only [applyOp] at hp
      rcases hfind : s.servers.find? (eligibleForWork s.currentVersion) with _ | e
      · rw [getWork_eq_none s hfind] at hp
        rw [List.drop_length] at hp
        cases hp
      · rw [getWork_eq_some s e hfind] at hp
        by_cases hv0 : e.verifiedVersion = UNINITIALIZED_VERSION
        · rw [if_pos hv0] at hp
          simp only [setEntry] at hp
          rw [List.drop_length] at hp
          cases hp
        · rw [if_neg hv0] at hp
          simp only [setEntry] at hp
          rw [List.drop_length] at hp
          cases hp
    | success id =>
      simp only [applyOp] at hp
      rcases hfind : findEntry s id with _ | e
      · rw [workSuccess_eq_none s id hfind, List.drop_length] at hp
        cases hp
      · rw [workSuccess_eq_some s id e hfind] at hp
        by_cases hupd : e.updating
        · rw [if_pos hupd] at hp
          have hshort : ((pruneUpdates (recomputeMin
              (setEntry s id (fun x =>
                { x with verifiedVersion := x.updateVersion, updating := false })))).updates).length ≤
              s.updates.length := by
            simp only [pruneUpdates, recomputeMin, setEntry]
            exact (List.dropWhile_suffix _).length_le
          rw [List.drop_eq_nil_of_le hshort] at hp
          cases hp
        · rw [if_neg hupd, List.drop_length] at hp
          cases hp
    | failure id =>
      simp only [applyOp] at hp
      rcases hfind : findEntry s id with _ | e
      · rw [workFailed_eq_none s id hfind, List.drop_length] at hp
        cases hp
      · rw [workFailed_eq_some s id e hfind] at hp
        by_cases hupd : e.updating
        · rw [if_pos hupd] at hp
          simp only [setEntry] at hp
          rw [List.drop_length] at hp
          cases hp
        · rw [if_neg hupd, List.drop_length] at hp
          cases hp
  · intro rid nid loc mem speed e hfind hup hnone
    simp only [applyOp]
    rw [enlistServer_replace_eq s rid nid loc mem speed e hnone hfind hup]
    have hne : ¬(stageAdd (stageCrashed s rid) nid loc mem speed).pendingUpdate.isEmpty := by
      simp [stageAdd, stageCrashed]
    unfold pushUpdate
    rw [if_neg hne]
    simp only [stageAdd, stageCrashed, setEntry]
    rw [List.drop_left]
    simp [hpend]

/-- A state with one UP membership-accepting server, current at version 1;
witnesses the c3 theorem. -/
def c3ws : CSLState :=
  { servers := [{ serverId := (1, 0), status := ServerStatus.up,
                  hasMembership := true, serviceLocator := "tcp", readSpeed := 100,
                  replicationId := 0, verifiedVersion := 1, updateVersion := 1,
                  updating := false }],
    currentVersion := 1, pendingUpdate := [],
    updates := [{ version := 1,
                  incremental := [{ kind := SLEventKind.addEvent, serverId := (1, 0) }],
                  full := [(1, 0)] }],
    minConfirmedVersion := 1 }

/-- Witness for c3_removals_before_additions at a concrete state. -/
theorem c3_removals_before_additions_witness :
    (∀ op : CSLOp, ∀ p ∈ (applyOp op c3ws).updates.drop c3ws.updates.length,
      orderedEvents p.incremental) ∧
    (∀ (rid nid : Nat × Nat) (loc : String) (mem : Bool) (speed : Nat)
      (e : CSLEntry), findEntry c3ws rid = some e → e.status = ServerStatus.up →
      findEntry c3ws nid = none →
      ((applyOp (CSLOp.enlist (some rid) nid loc mem speed) c3ws).updates.drop
        c3ws.updates.length).map (fun p => p.incremental) =
        [[{ kind := SLEventKind.crashedEvent, serverId := rid },
          { kind := SLEventKind.addEvent, serverId := nid }]]) :=
  c3_removals_before_additions c3ws (by decide)

/-- C5: an incremental work unit produced by getWork for a target whose
verifiedVersion is not UNINITIALIZED_VERSION batches a non-empty
contiguous range of incremental updates starting immediately after the
target's verifiedVersion, containing at most MAX_UPDATES_PER_RPC = 100
pairs, with updateVersionTail the last included version. -/
theorem c5_work_unit_batching (s : CSLState) (h : CSLInv s)
    (wu : UpdaterWorkUnit) (s' : CSLState)
    (hgw : getWork s = (some wu, s')) (hincr : wu.sendFullList = false) :
    1 ≤ wu.updateList.length ∧
    wu.updateList.length ≤ MAX_UPDATES_PER_RPC ∧
    MAX_UPDATES_PER_RPC = 100 ∧
    (∃ e, s.servers.find? (eligibleForWork s.currentVersion) = some e ∧
      e.verifiedVersion ≠ UNINITIALIZED_VERSION ∧
      wu.updateList.map (fun p => p.version) =
        List.range' (e.verifiedVersion + 1) wu.updateList.length ∧
      wu.updateVersionTail = e.verifiedVersion + wu.updateList.length) := by
  obtain ⟨hids, hE, hdeq, hlen, hpend⟩ := h
  rcases hfind : s.servers.find? (eligibleForWork s.currentVersion) with _ | e
  · rw [getWork_eq_none s hfind] at hgw
    simp at hgw
  · rw [getWork_eq_some s e hfind] at hgw
    have hemem : e ∈ s.servers := List.mem_of_find?_eq_some hfind
    have helig : eligibleForWork s.currentVersion e = true := List.find?_some hfind
    obtain ⟨h1, h2, h3, h4, h5⟩ := hE e hemem
    simp only [eligibleForWork, Bool.and_eq_true, Bool.not_eq_true',
      decide_eq_false_iff_not, decide_eq_true_eq, not_lt, ne_eq] at helig
    obtain ⟨⟨hlive, hnogt⟩, hne⟩ := helig
    have hvu : e.verifiedVersion = e.updateVersion := le_antisymm h1 hnogt
    have hvc : e.verifiedVersion < s.currentVersion :=
      lt_of_le_of_ne (hvu ▸ h2) hne
    by_cases hv0 : e.verifiedVersion = UNINITIALIZED_VERSION
    · rw [if_pos hv0] at hgw
      rw [Prod.mk.injEq] at hgw
      obtain ⟨hwu, _⟩ := hgw
      have := Option.some.inj hwu
      rw [← this] at hincr
      cases hincr
    · rw [if_neg hv0] at hgw
      rw [Prod.mk.injEq] at hgw
      obtain ⟨hwu, _⟩ := hgw
      have hwueq := Option.some.inj hwu
      obtain ⟨hwb, hwt⟩ := workBatch_facts s e.verifiedVersion
        ⟨hids, hE, hdeq, hlen, hpend⟩ (h4 hlive hv0) hvc
      have hlenb : (workBatch s e.verifiedVersion).length =
          min MAX_UPDATES_PER_RPC (s.currentVersion - e.verifiedVersion) := by
        have := congrArg List.length hwb
        simpa using this
      have hm1 : 1 ≤ min MAX_UPDATES_PER_RPC (s.currentVersion - e.verifiedVersion) := by
        unfold MAX_UPDATES_PER_RPC
        omega
      rw [← hwueq]
      refine ⟨by simp only []; omega, by simp only []; omega, rfl,
        e, rfl, hv0, ?_, ?_⟩
      · show (workBatch s e.verifiedVersion).map (fun p => p.version) =
          List.range' (e.verifiedVersion + 1) (workBatch s e.verifiedVersion).length
        rw [hwb, hlenb]
      · show workTail s e.verifiedVersion =
          e.verifiedVersion + (workBatch s e.verifiedVersion).length
        rw [hwt, hlenb]

/-- A state with one UP server one version behind, witnessing c5. -/
def c5ws : CSLState :=
  { servers := [{ serverId := (1, 0), status := ServerStatus.up,
                  hasMembership := true, serviceLocator := "tcp", readSpeed := 100,
                  replicationId := 0, verifiedVersion := 1, updateVersion := 1,
                  updating := false }],
    currentVersion := 2, pendingUpdate := [],
    updates := [{ version := 2,
                  incremental := [{ kind := SLEventKind.crashedEvent, serverId := (2, 0) }],
                  full := [(1, 0)] }],
    minConfirmedVersion := 1 }

/-- The work unit getWork produces from c5ws. -/
def c5wu : UpdaterWorkUnit :=
  { targetServer := (1, 0), sendFullList := false,
    updateList := [{ version := 2,
                     incremental := [{ kind := SLEventKind.crashedEvent, serverId := (2, 0) }],
                     full := [(1, 0)] }],
    updateVersionTail := 2 }

/-- The state after getWork speculatively commits the unit of c5ws. -/
def c5ws2 : CSLState :=
  { servers := [{ serverId := (1, 0), status := ServerStatus.up,
                  hasMembership := true, serviceLocator := "tcp", readSpeed := 100,
                  replicationId := 0, verifiedVersion := 1, updateVersion := 2,
                  updating := true }],
    currentVersion := 2, pendingUpdate := [],
    updates := [{ version := 2,
                  incremental := [{ kind := SLEventKind.crashedEvent, serverId := (2, 0) }],
                  full := [(1, 0)] }],
    minConfirmedVersion := 1 }

/-- Witness for c5_work_unit_batching at a concrete state. -/
theorem c5_work_unit_batching_witness :
    1 ≤ c5wu.updateList.length ∧
    c5wu.updateList.length ≤ MAX_UPDATES_PER_RPC ∧
    MAX_UPDATES_PER_RPC = 100 ∧
    (∃ e, c5ws.servers.find? (eligibleForWork c5ws.currentVersion) = some e ∧
      e.verifiedVersion ≠ UNINITIALIZED_VERSION ∧
      c5wu.updateList.map (fun p => p.version) =
        List.range' (e.verifiedVersion + 1) c5wu.updateList.length ∧
      c5wu.updateVersionTail = e.verifiedVersion + c5wu.updateList.length) :=
  c5_work_unit_batching c5ws (by decide) c5wu c5ws2 (by decide) rfl

/-- C6: the entry newly added to the server list by an enlistment starts
with verifiedVersion = updateVersion = UNINITIALIZED_VERSION, and
UNINITIALIZED_VERSION is 0. -/
theorem c6_new_entries_uninitialized (s : CSLState) (rid : Option (Nat × Nat))
    (nid : Nat × Nat) (loc : String) (mem : Bool) (speed : Nat)
    (hfresh : findEntry s nid = none) :
    findEntry (enlistServer s rid nid loc mem speed) nid =
      some (newEntry nid loc mem speed) ∧
    (newEntry nid loc mem speed).verifiedVersion = UNINITIALIZED_VERSION ∧
    (newEntry nid loc mem speed).updateVersion = UNINITIALIZED_VERSION ∧
    UNINITIALIZED_VERSION = 0 := by
  refine ⟨?_, rfl, rfl, rfl⟩
  have hfreshall : ∀ x ∈ s.servers, x.serverId ≠ nid := by
    intro x hx
    unfold findEntry at hfresh
    have := List.find?_eq_none.1 hfresh x hx
    simpa using this
  have key : ∀ t : CSLState,
      t.servers.map (fun x => x.serverId) = s.servers.map (fun x => x.serverId) →
      findEntry (pushUpdate (stageAdd t nid loc mem speed)) nid =
        some (newEntry nid loc mem speed) := by
    intro t hmap
    unfold findEntry
    rw [pushUpdate_servers]
    show (t.servers ++ [newEntry nid loc mem speed]).find?
      (fun e => e.serverId = nid) = some (newEntry nid loc mem speed)
    have hnone2 : t.servers.find? (fun e => e.serverId = nid) = none := by
      rw [List.find?_eq_none]
      intro x hx
      have hxid : x.serverId ∈ t.servers.map (fun x => x.serverId) :=
        List.mem_map_of_mem _ hx
      rw [hmap] at hxid
      obtain ⟨y, hy, hyx⟩ := List.mem_map.1 hxid
      have := hfreshall y hy
      rw [hyx] at this
      simpa using this
    rw [find?_append_of_none _ _ _ hnone2]
    simp [newEntry]
  unfold enlistServer
  rw [hfresh]
  rw [if_neg (by simp)]
  rcases rid with _ | r
  · exact key s rfl
  · rcases hfind : findEntry s r with _ | e
    · simp only [hfind]
      exact key s rfl
    · simp only [hfind]
      by_cases hup : e.status = ServerStatus.up
      · rw [if_pos hup]
        refine key (stageCrashed s r) ?_
        exact ids_setEntry s r (fun x => { x with status := ServerStatus.crashed })
          (fun x => rfl)
      · rw [if_neg hup]
        exact key s rfl

/-- Witness for c6_new_entries_uninitialized at a concrete input. -/
theorem c6_new_entries_uninitialized_witness :
    findEntry (enlistServer c3ws none (2, 0) "tcp:2" true 50) (2, 0) =
      some (newEntry (2, 0) "tcp:2" true 50) ∧
    (newEntry (2, 0) "tcp:2" true 50).verifiedVersion = UNINITIALIZED_VERSION ∧
    (newEntry (2, 0) "tcp:2" true 50).updateVersion = UNINITIALIZED_VERSION ∧
    UNINITIALIZED_VERSION = 0 :=
  c6_new_entries_uninitialized c3ws none (2, 0) "tcp:2" true 50 rfl

/-- C7: when the coordinator main program is started without a
deadServerTimeout command-line option, the dead-server timeout handed to
the coordinator service is 250 milliseconds. -/
theorem c7_default_dead_server_timeout :
    coordinatorServiceDeadServerTimeout none = 250 ∧
    deadServerTimeoutDefault = 250 :=
  ⟨rfl, rfl⟩

/-! ## Table manager (src/TableManager.cc)

A shallow embedding of createTable, dropTable and splitTablet with their
LogCabin journal records, the named crash-injection points, and the
recovery replay entry points.  Maps become association lists, the
LogCabin log becomes the list of live (not invalidated) entries in id
order, and uint64 arithmetic is Nat reduced mod 2^64. -/

/-- The 64-bit modulus. -/
def U64 : Nat := 2 ^ 64

/-- The value ~0UL of TableManager.cc (MAX64). -/
def U64MAX : Nat := 2 ^ 64 - 1

/-- Tablet::Status. -/
inductive TabletStatus
  | normal
  | recovering
deriving DecidableEq

/-- One Tablet of the tablet map (class Tablet); ctime is the
Log::Position pair (segment id, segment offset). -/
structure Tablet where
  tableId : Nat
  startKeyHash : Nat
  endKeyHash : Nat
  serverId : Nat
  status : TabletStatus
  ctimeId : Nat
  ctimeOffset : Nat
deriving DecidableEq

/-- One ProtoBuf::TableInformation::TabletInfo record. -/
structure TabletInfo where
  startKeyHash : Nat
  endKeyHash : Nat
  masterId : Nat
  ctimeLogHeadId : Nat
  ctimeLogHeadOffset : Nat
deriving DecidableEq

/-- Whether a TableInformation record was written as the CreateTable or
the AliveTable entry type. -/
inductive TableRecType
  | createTableType
  | aliveTableType
deriving DecidableEq

/-- A LogCabin record appended by the table manager.  server_span of a
TableInformation proto always equals the length of its tablet_info
list in the source, so the list alone represents both. -/
inductive LogRecord
  | tableInfo (ty : TableRecType) (name : String) (tableId : Nat)
      (tablets : List TabletInfo)
  | dropTable (name : String)
  | largestTableId (tableId : Nat)
  | splitTablet (name : String) (splitKeyHash : Nat)
deriving DecidableEq

/-- The in-memory TableManager state: tables (std::map name -> id, as an
association list compared up to permutation), the tablet map vector,
nextTableId, tablesLogIds (table id -> LogCabin entry id of its current
TableInformation record) and logIdLargestTableId. -/
structure TMState where
  tables : List (String × Nat)
  map : List Tablet
  nextTableId : Nat
  tablesLogIds : List (Nat × Nat)
  logIdLargestTableId : Option Nat
deriving DecidableEq

/-- The table manager as constructed (TableManager::TableManager):
nextTableId = 1, everything else empty. -/
def initTM : TMState :=
  { tables := [], map := [], nextTableId := 1, tablesLogIds := [],
    logIdLargestTableId := none }

/-- The table manager together with the LogCabin journal: journal is the
list of live (never-invalidated) entries in ascending id order;
nextEntryId models LogCabin's id allocation. -/
structure Sys where
  tm : TMState
  journal : List (Nat × LogRecord)
  nextEntryId : Nat
deriving DecidableEq

/-- An empty system. -/
def initSys : Sys :=
  { tm := initTM, journal := [], nextEntryId := 0 }

/-- LogCabinHelper::appendProtoBuf with an invalidation set: the
invalidated entries leave the live journal atomically with the
append. -/
def appendRecord (s : Sys) (r : LogRecord) (invalidates : List Nat) : Sys × Nat :=
  let id := s.nextEntryId
  ({ s with
      journal := (s.journal.filter (fun en => decide (en.1 ∉ invalidates))) ++ [(id, r)],
      nextEntryId := id + 1 }, id)

/-- LogCabinHelper::invalidate alone. -/
def invalidateEntries (s : Sys) (invalidates : List Nat) : Sys :=
  { s with journal := s.journal.filter (fun en => decide (en.1 ∉ invalidates)) }

/-- First key hash of the i-th tablet (TableManager.cc lines 493-495):
i * (~0UL / serverSpan), incremented when i is not 0; uint64
arithmetic. -/
def tabletFirstKeyHash (serverSpan i : Nat) : Nat :=
  let f := (i * (U64MAX / serverSpan)) % U64
  if i ≠ 0 then (f + 1) % U64 else f

/-- Last key hash of the i-th tablet (TableManager.cc lines 496-498):
(i+1) * (~0UL / serverSpan), ~0UL for the last tablet; uint64
arithmetic. -/
def tabletLastKeyHash (serverSpan i : Nat) : Nat :=
  if i = serverSpan - 1 then U64MAX
  else ((i + 1) * (U64MAX / serverSpan)) % U64

/-- The tablet_info list CreateTable::execute builds (TableManager.cc
lines 492-532).  The round-robin master search over the coordinator
server list is abstracted by the choice function masters giving the
master picked for the i-th tablet; headOfLog is (0, 0) (line 523). -/
def makeTabletInfos (serverSpan : Nat) (masters : Nat → Nat) : List TabletInfo :=
  (List.range serverSpan).map (fun i =>
    { startKeyHash := tabletFirstKeyHash serverSpan i,
      endKeyHash := tabletLastKeyHash serverSpan i,
      masterId := masters i,
      ctimeLogHeadId := 0, ctimeLogHeadOffset := 0 })

/-- The tablets CreateTable::complete and recoverAliveTable build from a
tablet_info list (TableManager.cc lines 577-589 and 326-339).  Note
that both construct the Log::Position from ctime_log_head_id twice, so
the offset too is taken from ctime_log_head_id, exactly as in the
source. -/
def tabletsFromInfos (tableId : Nat) (infos : List TabletInfo) : List Tablet :=
  infos.map (fun info =>
    { tableId := tableId, startKeyHash := info.startKeyHash,
      endKeyHash := info.endKeyHash, serverId := info.masterId,
      status := TabletStatus.normal,
      ctimeId := info.ctimeLogHeadId, ctimeOffset := info.ctimeLogHeadId })

/-- The named crash-injection points of
RuntimeOptions::checkAndCrashCoordinator calls in TableManager.cc. -/
inductive CrashPoint
  | create1
  | create2
  | create3
  | create4
  | drop1
  | drop2
  | drop3
  | drop4
  | split1
  | split2
deriving DecidableEq

/-- Result of running one table-manager operation: normal completion,
termination at a crash point (carrying the state, of which the journal
is what survives), or one of the exceptional exits of the source. -/
inductive RunResult
  | completed (s : Sys)
  | crashed (p : CrashPoint) (s : Sys)
  | tableExists (s : Sys)
  | noSuchTable (s : Sys)
  | died (s : Sys)
deriving DecidableEq

/-- TableManager::CreateTable::complete (TableManager.cc lines 571-638).
cfg is the configured crash point of the test harness (none outside
tests and during replay); entryId is the id of the CreateTable record.
The takeTabletOwnership RPCs to masters have no table-manager state
effect and are not modelled. -/
def createTableComplete (cfg : Option CrashPoint) (name : String)
    (tableId : Nat) (infos : List TabletInfo) (entryId : Nat)
    (s : Sys) : RunResult :=
  let s := { s with tm := { s.tm with
      tables := assocSet name tableId s.tm.tables,
      tablesLogIds := assocSet tableId entryId s.tm.tablesLogIds } }
  let s := { s with tm := { s.tm with
      map := s.tm.map ++ tabletsFromInfos tableId infos } }
  if cfg = some CrashPoint.create3 then RunResult.crashed CrashPoint.create3 s
  else
    let pair := appendRecord s
      (LogRecord.tableInfo TableRecType.aliveTableType name tableId infos) [entryId]
    let s := { pair.1 with tm := { pair.1.tm with
        tablesLogIds := assocSet tableId pair.2 pair.1.tm.tablesLogIds } }
    if cfg = some CrashPoint.create4 then RunResult.crashed CrashPoint.create4 s
    else RunResult.completed s

/-- TableManager::CreateTable::execute (TableManager.cc lines 467-555),
reached from TableManager::createTable.  The returned table id is not
modelled; the crash points create_1 and create_2 are. -/
def createTableRun (cfg : Option CrashPoint) (name : String)
    (serverSpan : Nat) (masters : Nat → Nat) (s : Sys) : RunResult :=
  if cfg = some CrashPoint.create1 then RunResult.crashed CrashPoint.create1 s
  else if (assocFind name s.tm.tables).isSome then RunResult.tableExists s
  else
    let tableId := s.tm.nextTableId
    let s := { s with tm := { s.tm with nextTableId := tableId + 1 } }
    let span := if serverSpan = 0 then 1 else serverSpan
    let infos := makeTabletInfos span masters
    let inv : List Nat × Sys :=
      match s.tm.logIdLargestTableId with
      | some lid => ([lid],
          { s with tm := { s.tm with logIdLargestTableId := none } })
      | none => ([], s)
    let pair := appendRecord inv.2
      (LogRecord.tableInfo TableRecType.createTableType name tableId infos) inv.1
    let s := { pair.1 with tm := { pair.1.tm with
        tablesLogIds := assocSet tableId pair.2 pair.1.tm.tablesLogIds } }
    if cfg = some CrashPoint.create2 then RunResult.crashed CrashPoint.create2 s
    else createTableComplete cfg name tableId infos pair.2 s

/-- The removal loop of TableManager::removeTabletsForTable
(TableManager.cc lines 1137-1152): scan the vector from position i;
a matching tablet is recorded, overwritten by the back element which is
then popped, and the position is re-examined; otherwise the position
advances.  Returns (residual vector, removed tablets). -/
def removeTabletsLoop (tid : Nat) (v : List Tablet) (i : Nat)
    (removed : List Tablet) : List Tablet × List Tablet :=
  if h : i < v.length then
    let t := v.get ⟨i, h⟩
    if t.tableId = tid then
      removeTabletsLoop tid ((v.set i (v.getLast (by
        intro hemp
        rw [hemp] at h
        simp at h))).dropLast) i (removed ++ [t])
    else
      removeTabletsLoop tid v (i + 1) removed
  else
    (v, removed)
termination_by v.length - i
decreasing_by
  · simp only [List.length_dropLast, List.length_set]
    omega
  · omega

/-- TableManager::removeTabletsForTable (TableManager.cc
lines 1137-1152). -/
def removeTabletsForTable (v : List Tablet) (tid : Nat) :
    List Tablet × List Tablet :=
  removeTabletsLoop tid v 0 []

/-- TableManager::DropTable::complete (TableManager.cc lines 669-725).
The dropTabletOwnership RPCs have no table-manager state effect and are
not modelled.  Note the source appends the LargestTableId record
without updating the logIdLargestTableId member. -/
def dropTableComplete (cfg : Option CrashPoint) (name : String)
    (entryId : Nat) (s : Sys) : RunResult :=
  match assocFind name s.tm.tables with
  | none => RunResult.completed s
  | some tableId =>
    let s := { s with tm := { s.tm with tables := assocErase name s.tm.tables } }
    let rem := removeTabletsForTable s.tm.map tableId
    let s := { s with tm := { s.tm with map := rem.1 } }
    match assocFind tableId s.tm.tablesLogIds with
    | none => RunResult.noSuchTable s
    | some tableInfoLogId =>
      let invalidates := [tableInfoLogId, entryId]
      if cfg = some CrashPoint.drop3 then RunResult.crashed CrashPoint.drop3 s
      else
        let s :=
          if tableId = s.tm.nextTableId - 1 then
            (appendRecord s (LogRecord.largestTableId tableId) invalidates).1
          else invalidateEntries s invalidates
        if cfg = some CrashPoint.drop4 then RunResult.crashed CrashPoint.drop4 s
        else RunResult.completed s

/-- TableManager::DropTable::execute (TableManager.cc lines 640-667),
reached from TableManager::dropTable. -/
def dropTableRun (cfg : Option CrashPoint) (name : String) (s : Sys) :
    RunResult :=
  if (assocFind name s.tm.tables).isNone then RunResult.completed s
  else if cfg = some CrashPoint.drop1 then RunResult.crashed CrashPoint.drop1 s
  else
    let pair := appendRecord s (LogRecord.dropTable name) []
    if cfg = some CrashPoint.drop2 then RunResult.crashed CrashPoint.drop2 pair.1
    else dropTableComplete cfg name pair.2 pair.1

/-- splitKeyHash - 1 in uint64 arithmetic. -/
def u64sub1 (x : Nat) : Nat := (x + U64 - 1) % U64

/-- The containment test of TableManager::getTabletSplit
(TableManager.cc lines 1001-1004): same table, startKeyHash below
splitKeyHash - 1, splitKeyHash below endKeyHash. -/
def splitMatch (tableId split : Nat) (t : Tablet) : Bool :=
  t.tableId = tableId && t.startKeyHash < u64sub1 split && split < t.endKeyHash

/-- TableManager::splitExists (TableManager.cc lines 955-975): counts
tablets of the table whose startKeyHash is splitKeyHash, or else whose
endKeyHash is splitKeyHash - 1; the split exists when the count is
two. -/
def splitExists (map : List Tablet) (tableId split : Nat) : Bool :=
  (map.countP (fun t =>
    (t.tableId = tableId && t.startKeyHash = split) ||
    (t.tableId = tableId && t.endKeyHash = u64sub1 split))) = 2

/-- In-place modification of the first tablet satisfying the predicate,
as mutation through the reference returned by a first-match scan. -/
def modifyFirst (p : Tablet → Bool) (f : Tablet → Tablet) :
    List Tablet → List Tablet
  | [] => []
  | t :: ts => if p t then f t :: ts else t :: modifyFirst p f ts

/-- The TabletInfo serialized from a live tablet (TableManager.cc
lines 791-801): here the real ctime offset is used. -/
def tabletToInfo (t : Tablet) : TabletInfo :=
  { startKeyHash := t.startKeyHash, endKeyHash := t.endKeyHash,
    masterId := t.serverId, ctimeLogHeadId := t.ctimeId,
    ctimeLogHeadOffset := t.ctimeOffset }

/-- TableManager::SplitTablet::complete (TableManager.cc lines 753-807).
The splitMasterTablet RPC has no table-manager state effect and is not
modelled; getTabletSplit's DIE on a missing containing tablet is the
died result. -/
def splitTabletComplete (name : String)
    (split : Nat) (entryId : Nat) (s : Sys) : RunResult :=
  match assocFind name s.tm.tables with
  | none => RunResult.noSuchTable s
  | some tableId =>
    if splitExists s.tm.map tableId split then RunResult.completed s
    else
      match s.tm.map.find? (splitMatch tableId split) with
      | none => RunResult.died s
      | some original =>
        let newTablet := { original with startKeyHash := split }
        let map2 := (modifyFirst (splitMatch tableId split)
          (fun t => { t with endKeyHash := u64sub1 split }) s.tm.map) ++ [newTablet]
        let s := { s with tm := { s.tm with map := map2 } }
        match assocFind tableId s.tm.tablesLogIds with
        | none => RunResult.noSuchTable s
        | some oldId =>
          let infos := (map2.filter (fun t => t.tableId = tableId)).map tabletToInfo
          let pair := appendRecord s
            (LogRecord.tableInfo TableRecType.aliveTableType name tableId infos)
            [oldId, entryId]
          RunResult.completed pair.1

/-- TableManager::SplitTablet::execute (TableManager.cc lines 727-751),
reached from TableManager::splitTablet. -/
def splitTabletRun (cfg : Option CrashPoint) (name : String) (split : Nat)
    (s : Sys) : RunResult :=
  if cfg = some CrashPoint.split1 then RunResult.crashed CrashPoint.split1 s
  else
    let pair := appendRecord s (LogRecord.splitTablet name split) []
    if cfg = some CrashPoint.split2 then RunResult.crashed CrashPoint.split2 pair.1
    else splitTabletComplete name split pair.2 pair.1

/-- TableManager::recoverAliveTable (TableManager.cc lines 313-340):
rebuild the table, its log-id binding and its tablets from an
AliveTable record (like the complete functions it reads both ctime
components from ctime_log_head_id). -/
def recoverAliveTable (name : String) (tableId : Nat)
    (infos : List TabletInfo) (entryId : Nat) (s : Sys) : Sys :=
  { s with tm := { s.tm with
      nextTableId := tableId + 1,
      tables := assocSet name tableId s.tm.tables,
      tablesLogIds := assocSet tableId entryId s.tm.tablesLogIds,
      map := s.tm.map ++ tabletsFromInfos tableId infos } }

/-- TableManager::recoverLargestTableId (TableManager.cc lines 399-407). -/
def recoverLargestTableId (tableId : Nat) (entryId : Nat) (s : Sys) : Sys :=
  { s with tm := { s.tm with
      nextTableId := tableId + 1,
      logIdLargestTableId := some entryId } }

/-- Result of replaying the journal. -/
inductive ReplayResult
  | ok (s : Sys)
  | fail
deriving DecidableEq

/-- Modelled from the spec: the replay dispatcher (spec section 4.7) — on
coordinator startup each surviving record is dispatched by its tag to
the matching recover* handler; the dispatcher itself lives outside the
repository sources.  The handlers are the source functions:
recoverCreateTable (TableManager.cc lines 352-364) sets nextTableId and
re-enters CreateTable::complete; recoverDropTable (lines 376-384)
re-enters DropTable::complete; recoverSplitTablet (lines 419-428)
re-enters SplitTablet::complete; AliveTable and LargestTableId records
restore state directly.  An exception out of a handler aborts the
replay (fail). -/
def replayRecord (s : Sys) (en : Nat × LogRecord) : ReplayResult :=
  match en.2 with
  | LogRecord.tableInfo TableRecType.aliveTableType name tableId infos =>
    ReplayResult.ok (recoverAliveTable name tableId infos en.1 s)
  | LogRecord.tableInfo TableRecType.createTableType name tableId infos =>
    match createTableComplete none name tableId infos en.1
      { s with tm := { s.tm with nextTableId := tableId + 1 } } with
    | RunResult.completed s2 => ReplayResult.ok s2
    | _ => ReplayResult.fail
  | LogRecord.dropTable name =>
    match dropTableComplete none name en.1 s with
    | RunResult.completed s2 => ReplayResult.ok s2
    | _ => ReplayResult.fail
  | LogRecord.largestTableId tableId =>
    ReplayResult.ok (recoverLargestTableId tableId en.1 s)
  | LogRecord.splitTablet name split =>
    match splitTabletComplete name split en.1 s with
    | RunResult.completed s2 => ReplayResult.ok s2
    | _ => ReplayResult.fail

/-- Replay a list of records in order, aborting on failure. -/
def replayList : List (Nat × LogRecord) → Sys → ReplayResult
  | [], s => ReplayResult.ok s
  | en :: rest, s =>
    match replayRecord s en with
    | ReplayResult.ok s2 => replayList rest s2
    | ReplayResult.fail => ReplayResult.fail

/-- Replay a journal from the empty table-manager state; the journal
itself stays available (handlers append follow-up records to it), and
fresh ids start above every surviving id. -/
def replayJournal (j : List (Nat × LogRecord)) : ReplayResult :=
  replayList j
    { tm := initTM, journal := j,
      nextEntryId := (j.map (fun en => en.1)).foldr max 0 + 1 }

/-- The three journalled table-manager operations the crash-recovery
claim quantifies over. -/
inductive TMOp
  | create (name : String) (serverSpan : Nat) (masters : Nat → Nat)
  | drop (name : String)
  | split (name : String) (splitKeyHash : Nat)

/-- Run one operation under a configured crash point. -/
def runTMOp (op : TMOp) (cfg : Option CrashPoint) (s : Sys) : RunResult :=
  match op with
  | TMOp.create name span masters => createTableRun cfg name span masters s
  | TMOp.drop name => dropTableRun cfg name s
  | TMOp.split name split => splitTabletRun cfg name split s

/-! ## Key-hash range arithmetic of createTable -/

lemma U64MAX_lt_U64 : U64MAX < U64 := by
  unfold U64 U64MAX
  omega

lemma span_le_U64MAX {span : Nat} (h2 : span < 2 ^ 32) : span ≤ U64MAX := by
  unfold U64MAX
  have : (2 : Nat) ^ 32 ≤ 2 ^ 64 - 1 := by norm_num
  omega

lemma q_pos {span : Nat} (h1 : 1 ≤ span) (h2 : span < 2 ^ 32) :
    1 ≤ U64MAX / span :=
  (Nat.one_le_div_iff (by omega)).2 (span_le_U64MAX h2)

lemma mul_q_le {span j : Nat} (hj : j ≤ span) :
    j * (U64MAX / span) ≤ U64MAX :=
  le_trans (Nat.mul_le_mul_right _ hj)
    (by rw [Nat.mul_comm]; exact Nat.div_mul_le_self U64MAX span)

/-- The first key hash of tablet i, with the uint64 reduction removed:
i * ((2^64-1) / serverSpan), plus one when i is not 0. -/
lemma tabletFirstKeyHash_eq {span i : Nat} (h1 : 1 ≤ span) (h2 : span < 2 ^ 32)
    (hi : i < span) :
    tabletFirstKeyHash span i =
      i * (U64MAX / span) + (if i = 0 then 0 else 1) := by
  unfold tabletFirstKeyHash
  have hle : i * (U64MAX / span) ≤ U64MAX := mul_q_le (le_of_lt hi)
  have hlt : i * (U64MAX / span) < U64 := lt_of_le_of_lt hle U64MAX_lt_U64
  by_cases h0 : i = 0
  · simp [h0]
  · have hq := q_pos h1 h2
    have hplus : i * (U64MAX / span) + 1 ≤ U64MAX := by
      have h1le : i * (U64MAX / span) + 1 ≤ (i + 1) * (U64MAX / span) := by
        rw [Nat.add_one_mul]
        omega
      exact le_trans h1le (mul_q_le hi)
    rw [if_neg h0]
    show (if i ≠ 0 then (i * (U64MAX / span) % U64 + 1) % U64
      else i * (U64MAX / span) % U64) = i * (U64MAX / span) + 1
    rw [if_pos h0, Nat.mod_eq_of_lt hlt,
      Nat.mod_eq_of_lt (lt_of_le_of_lt hplus U64MAX_lt_U64)]

/-- The last key hash of tablet i, with the uint64 reduction removed:
(i+1) * ((2^64-1) / serverSpan), with 2^64-1 itself for the last
tablet. -/
lemma tabletLastKeyHash_eq {span i : Nat} (hi : i < span) :
    tabletLastKeyHash span i =
      (if i = span - 1 then U64MAX else (i + 1) * (U64MAX / span)) := by
  unfold tabletLastKeyHash
  by_cases hlast : i = span - 1
  · rw [if_pos hlast, if_pos hlast]
  · rw [if_neg hlast, if_neg hlast,
      Nat.mod_eq_of_lt (lt_of_le_of_lt (mul_q_le (by omega)) U64MAX_lt_U64)]

lemma tabletStart_le_end {span i : Nat} (h1 : 1 ≤ span) (h2 : span < 2 ^ 32)
    (hi : i < span) :
    tabletFirstKeyHash span i ≤ tabletLastKeyHash span i := by
  rw [tabletFirstKeyHash_eq h1 h2 hi, tabletLastKeyHash_eq hi]
  have hq := q_pos h1 h2
  by_cases hlast : i = span - 1
  · rw [if_pos hlast]
    by_cases h0 : i = 0
    · simp [h0]
    · rw [if_neg h0]
      have h1le : i * (U64MAX / span) + 1 ≤ (i + 1) * (U64MAX / span) := by
        rw [Nat.add_one_mul]; omega
      exact le_trans h1le (mul_q_le hi)
  · rw [if_neg hlast]
    by_cases h0 : i = 0
    · subst h0
      simp
    · rw [if_neg h0, Nat.add_one_mul]
      omega

lemma tablet_disjoint {span i j : Nat} (h1 : 1 ≤ span) (h2 : span < 2 ^ 32)
    (hij : i < j) (hj : j < span) :
    tabletLastKeyHash span i < tabletFirstKeyHash span j := by
  have hi : i < span := lt_trans hij hj
  rw [tabletFirstKeyHash_eq h1 h2 hj, tabletLastKeyHash_eq hi]
  have hinotlast : ¬i = span - 1 := by omega
  have hjnot0 : ¬j = 0 := by omega
  rw [if_neg hinotlast, if_neg hjnot0]
  have : (i + 1) * (U64MAX / span) ≤ j * (U64MAX / span) :=
    Nat.mul_le_mul_right _ (by omega)
  omega

lemma tablet_cover {span : Nat} (h1 : 1 ≤ span) (h2 : span < 2 ^ 32)
    (h : Nat) (hh : h < U64) :
    ∃ i, i < span ∧ tabletFirstKeyHash span i ≤ h ∧
      h ≤ tabletLastKeyHash span i := by
  have hq := q_pos h1 h2
  have hhmax : h ≤ U64MAX := by
    unfold U64 at hh
    unfold U64MAX
    omega
  by_cases hsmall : h ≤ U64MAX / span
  · refine ⟨0, by omega, ?_, ?_⟩
    · rw [tabletFirstKeyHash_eq h1 h2 (by omega)]
      simp
    · rw [tabletLastKeyHash_eq (by omega)]
      by_cases hlast : (0 : Nat) = span - 1
      · rw [if_pos hlast]; exact hhmax
      · rw [if_neg hlast]
        simpa using hsmall
  · have hh1 : 1 ≤ h := by omega
    set d := (h - 1) / (U64MAX / span) with hd
    have hdge : 1 ≤ d := by
      rw [hd]
      apply (Nat.one_le_div_iff (by omega)).2
      omega
    have hdmul : d * (U64MAX / span) ≤ h - 1 := by
      rw [hd]
      exact Nat.div_mul_le_self _ _
    by_cases hcap : span - 1 ≤ d
    · refine ⟨span - 1, by omega, ?_, ?_⟩
      · rw [tabletFirstKeyHash_eq h1 h2 (by omega)]
        by_cases h0 : span - 1 = 0
        · simp [h0]
        · rw [if_neg h0]
          have : (span - 1) * (U64MAX / span) ≤ d * (U64MAX / span) :=
            Nat.mul_le_mul_right _ hcap
          omega
      · rw [tabletLastKeyHash_eq (by omega), if_pos rfl]
        exact hhmax
    · refine ⟨d, by omega, ?_, ?_⟩
      · rw [tabletFirstKeyHash_eq h1 h2 (by omega), if_neg (by omega)]
        omega
      · rw [tabletLastKeyHash_eq (by omega), if_neg (by omega)]
        have hmod := Nat.div_add_mod (h - 1) (U64MAX / span)
        have hmlt : (h - 1) % (U64MAX / span) < U64MAX / span :=
          Nat.mod_lt _ (by omega)
        rw [← hd, Nat.mul_comm] at hmod
        rw [Nat.add_one_mul]
        omega

/-- C8: for serverSpan at least 1 (and in uint32 range), the serverSpan
tablets created by createTable have pairwise-disjoint contiguous
key-hash ranges whose union is the whole 64-bit hash space: tablet i
spans i * ((2^64-1)/serverSpan) (plus 1 when i is not 0) up to
(i+1) * ((2^64-1)/serverSpan), the last tablet's endKeyHash being
2^64-1. -/
theorem c8_tablet_key_ranges (span : Nat) (masters : Nat → Nat)
    (h1 : 1 ≤ span) (h2 : span < 2 ^ 32) :
    ((makeTabletInfos span masters).map (fun t => (t.startKeyHash, t.endKeyHash)) =
      (List.range span).map (fun i =>
        (tabletFirstKeyHash span i, tabletLastKeyHash span i))) ∧
    (∀ i, i < span →
      tabletFirstKeyHash span i =
        i * (U64MAX / span) + (if i = 0 then 0 else 1) ∧
      tabletLastKeyHash span i =
        (if i = span - 1 then U64MAX else (i + 1) * (U64MAX / span))) ∧
    tabletLastKeyHash span (span - 1) = U64MAX ∧
    (∀ i, i < span → tabletFirstKeyHash span i ≤ tabletLastKeyHash span i) ∧
    (∀ i j, i < j → j < span →
      tabletLastKeyHash span i < tabletFirstKeyHash span j) ∧
    (∀ h, h < U64 → ∃ i, i < span ∧ tabletFirstKeyHash span i ≤ h ∧
      h ≤ tabletLastKeyHash span i) := by
  refine ⟨?_, fun i hi => ⟨tabletFirstKeyHash_eq h1 h2 hi, tabletLastKeyHash_eq hi⟩,
    ?_, fun i hi => tabletStart_le_end h1 h2 hi,
    fun i j hij hj => tablet_disjoint h1 h2 hij hj,
    fun h hh => tablet_cover h1 h2 h hh⟩
  · simp [makeTabletInfos, List.map_map]
  · rw [tabletLastKeyHash_eq (by omega), if_pos rfl]

/-- Witness for c8_tablet_key_ranges at serverSpan 3. -/
theorem c8_tablet_key_ranges_witness :
    ((makeTabletInfos 3 (fun _ => 1)).map (fun t => (t.startKeyHash, t.endKeyHash)) =
      (List.range 3).map (fun i =>
        (tabletFirstKeyHash 3 i, tabletLastKeyHash 3 i))) ∧
    (∀ i, i < 3 →
      tabletFirstKeyHash 3 i =
        i * (U64MAX / 3) + (if i = 0 then 0 else 1) ∧
      tabletLastKeyHash 3 i =
        (if i = 3 - 1 then U64MAX else (i + 1) * (U64MAX / 3))) ∧
    tabletLastKeyHash 3 (3 - 1) = U64MAX ∧
    (∀ i, i < 3 → tabletFirstKeyHash 3 i ≤ tabletLastKeyHash 3 i) ∧
    (∀ i j, i < j → j < 3 →
      tabletLastKeyHash 3 i < tabletFirstKeyHash 3 j) ∧
    (∀ h, h < U64 → ∃ i, i < 3 ∧ tabletFirstKeyHash 3 i ≤ h ∧
      h ≤ tabletLastKeyHash 3 i) :=
  c8_tablet_key_ranges 3 (fun _ => 1) (by norm_num) (by norm_num)

/-- C9: createTable with serverSpan 0 behaves exactly as with
serverSpan 1 (TableManager.cc lines 484-485 clamp), and a serverSpan of
1 yields a single tablet covering the full key-hash range
0 .. 2^64-1. -/
theorem c9_zero_span_as_one (cfg : Option CrashPoint) (name : String)
    (masters : Nat → Nat) (s : Sys) :
    createTableRun cfg name 0 masters s = createTableRun cfg name 1 masters s ∧
    makeTabletInfos 1 masters =
      [{ startKeyHash := 0, endKeyHash := U64MAX, masterId := masters 0,
         ctimeLogHeadId := 0, ctimeLogHeadOffset := 0 }] := by
  constructor
  · rfl
  · rfl

/-- Witness for c9_zero_span_as_one at a concrete input. -/
theorem c9_zero_span_as_one_witness :
    createTableRun none "t" 0 (fun _ => 1) initSys =
      createTableRun none "t" 1 (fun _ => 1) initSys ∧
    makeTabletInfos 1 (fun _ => 1) =
      [{ startKeyHash := 0, endKeyHash := U64MAX, masterId := 1,
         ctimeLogHeadId := 0, ctimeLogHeadOffset := 0 }] :=
  c9_zero_span_as_one none "t" (fun _ => 1) initSys

/-- C10: dropTable on a name not present in the tables map returns
normally with the system unchanged: nothing is appended to or
invalidated in the journal, and the tables and tablet maps are left as
they were. -/
theorem c10_drop_missing_table (cfg : Option CrashPoint) (name : String)
    (s : Sys) (habsent : assocFind name s.tm.tables = none) :
    dropTableRun cfg name s = RunResult.completed s := by
  unfold dropTableRun
  rw [habsent]
  rfl

/-- Witness for c10_drop_missing_table at a concrete input. -/
theorem c10_drop_missing_table_witness :
    dropTableRun none "t" initSys = RunResult.completed initSys :=
  c10_drop_missing_table none "t" initSys rfl

/-! ## Crash recovery of the table manager

The crash-recovery claim compares the table manager rebuilt by journal
replay with the uninterrupted execution.  States are compared up to
permutation of the tables association list and of the tablet-map
vector: the maps' iteration order is not semantically meaningful (the
source std::map orders by key, and order differences in the tablet
vector are unobservable through its lookups). -/

/-- The projection of an AliveTable journal entry. -/
structure AliveRec where
  id : Nat
  name : String
  tid : Nat
  infos : List TabletInfo
deriving DecidableEq

/-- Recognize an AliveTable journal entry. -/
def aliveOf : Nat × LogRecord → Option AliveRec
  | (id, LogRecord.tableInfo TableRecType.aliveTableType n t infos) =>
    some { id := id, name := n, tid := t, infos := infos }
  | _ => none

/-- The AliveTable records of a journal, in order. -/
def aliveRecs (j : List (Nat × LogRecord)) : List AliveRec :=
  j.filterMap aliveOf

/-- Recognize a LargestTableId journal entry. -/
def isLargestRec : LogRecord → Bool
  | LogRecord.largestTableId _ => true
  | _ => false

/-- A quiescent journal entry: AliveTable or LargestTableId — the only
record kinds live between completed operations. -/
def quietRec (en : Nat × LogRecord) : Bool :=
  (aliveOf en).isSome || isLargestRec en.2

/-- Equality of table-manager states up to order of the two maps. -/
def tmEquiv (t1 t2 : TMState) : Prop :=
  t1.tables.Perm t2.tables ∧ t1.map.Perm t2.map

instance (t1 t2 : TMState) : Decidable (tmEquiv t1 t2) := by
  unfold tmEquiv; infer_instance

/-- The journal/state correspondence of a quiescent system (spec
invariant 5 specialized to the table manager): the live journal holds
one AliveTable record per table (plus LargestTableId records), with
distinct names, table ids and entry ids, and the in-memory maps are
exactly what those records describe; tablesLogIds points at each
table's live record, and logIdLargestTableId never names one. -/
def JInv (s : Sys) : Prop :=
  (∀ en ∈ s.journal, quietRec en = true) ∧
  (s.journal.map (fun en => en.1)).Chain' (· < ·) ∧
  (s.journal.map (fun en => en.1)).Nodup ∧
  (∀ en ∈ s.journal, en.1 < s.nextEntryId) ∧
  ((aliveRecs s.journal).map (fun r => r.name)).Nodup ∧
  ((aliveRecs s.journal).map (fun r => r.tid)).Nodup ∧
  s.tm.tables.Perm ((aliveRecs s.journal).map (fun r => (r.name, r.tid))) ∧
  s.tm.map.Perm ((aliveRecs s.journal).map
    (fun r => tabletsFromInfos r.tid r.infos)).flatten ∧
  (∀ r ∈ aliveRecs s.journal,
    assocFind r.tid s.tm.tablesLogIds = some r.id) ∧
  (∀ lid, s.tm.logIdLargestTableId = some lid →
    ∀ r ∈ aliveRecs s.journal, r.id ≠ lid) ∧
  ((aliveRecs s.journal).map (fun r => r.id)).Nodup ∧
  (∀ r ∈ aliveRecs s.journal, r.id < s.nextEntryId) ∧
  (∀ r ∈ aliveRecs s.journal, r.tid < s.tm.nextTableId)

instance (s : Sys) : Decidable (JInv s) := by
  unfold JInv; infer_instance

/-! ### Association-list lemmas -/

lemma assocFind_none_iff {α β : Type} [DecidableEq α] (k : α) (l : List (α × β)) :
    assocFind k l = none ↔ ∀ p ∈ l, p.1 ≠ k := by
  induction l with
  | nil => simp [assocFind]
  | cons q qs ih =>
    by_cases hq : q.1 = k
    · simp only [assocFind, hq, if_pos rfl]
      constructor
      · intro h; cases h
      · intro h
        exact absurd hq (h q (List.mem_cons_self _ _))
    · rw [show (q :: qs) = (q.1, q.2) :: qs by rfl]
      simp only [assocFind, if_neg hq]
      rw [ih]
      constructor
      · intro h p hp
        rcases List.mem_cons.1 hp with rfl | hp2
        · exact hq
        · exact h p hp2
      · intro h p hp
        exact h p (List.mem_cons_of_mem _ hp)

lemma assocSet_append {α β : Type} [DecidableEq α] (k : α) (v : β)
    (l : List (α × β)) (h : assocFind k l = none) :
    assocSet k v l = l ++ [(k, v)] := by
  induction l with
  | nil => rfl
  | cons q qs ih =>
    rw [show (q :: qs) = (q.1, q.2) :: qs by rfl] at h ⊢
    simp only [assocFind] at h
    by_cases hq : q.1 = k
    · rw [if_pos hq] at h; cases h
    · rw [if_neg hq] at h
      simp only [assocSet, if_neg hq, List.cons_append, ih h]

lemma assocFind_append {α β : Type} [DecidableEq α] (k : α)
    (l1 l2 : List (α × β)) (h : assocFind k l1 = none) :
    assocFind k (l1 ++ l2) = assocFind k l2 := by
  induction l1 with
  | nil => simp
  | cons q qs ih =>
    rw [show (q :: qs) = (q.1, q.2) :: qs by rfl] at h ⊢
    simp only [assocFind] at h
    by_cases hq : q.1 = k
    · rw [if_pos hq] at h; cases h
    · rw [if_neg hq] at h
      rw [List.cons_append]
      show assocFind k ((q.1, q.2) :: (qs ++ l2)) = assocFind k l2
      simp only [assocFind, if_neg hq]
      exact ih h

lemma assocFind_assocSet_self {α β : Type} [DecidableEq α] (k : α) (v : β)
    (l : List (α × β)) : assocFind k (assocSet k v l) = some v := by
  induction l with
  | nil => simp [assocSet, assocFind]
  | cons q qs ih =>
    rw [show (q :: qs) = (q.1, q.2) :: qs by rfl]
    by_cases hq : q.1 = k
    · simp [assocSet, assocFind, hq]
    · simp only [assocSet, if_neg hq, assocFind, if_neg hq]
      exact ih

lemma assocFind_assocSet_ne {α β : Type} [DecidableEq α] {k k2 : α} (v : β)
    (l : List (α × β)) (h : k ≠ k2) :
    assocFind k (assocSet k2 v l) = assocFind k l := by
  induction l with
  | nil =>
    simp only [assocSet, assocFind]
    rw [if_neg (fun hc => h hc.symm)]
  | cons q qs ih =>
    rw [show (q :: qs) = (q.1, q.2) :: qs by rfl]
    by_cases hq : q.1 = k2
    · simp only [assocSet, if_pos hq, assocFind]
      rw [if_neg (fun hc => h hc.symm),
        if_neg (fun hc => h ((hq.symm.trans hc).symm))]
    · simp only [assocSet, if_neg hq, assocFind]
      by_cases hk : q.1 = k
      · rw [if_pos hk, if_pos hk]
      · rw [if_neg hk, if_neg hk]
        exact ih

lemma assocFind_mem {α β : Type} [DecidableEq α] {k : α} {v : β}
    {l : List (α × β)} (h : assocFind k l = some v) : (k, v) ∈ l := by
  induction l with
  | nil => cases h
  | cons q qs ih =>
    rw [show (q :: qs) = (q.1, q.2) :: qs by rfl] at h ⊢
    simp only [assocFind] at h
    by_cases hq : q.1 = k
    · rw [if_pos hq] at h
      rw [← hq, ← Option.some.inj h]
      exact List.mem_cons_self _ _
    · rw [if_neg hq] at h
      exact List.mem_cons_of_mem _ (ih h)

/-- Lookups agree on key-nodup permutations. -/
lemma assocFind_perm {α β : Type} [DecidableEq α] {l1 l2 : List (α × β)}
    (hp : l1.Perm l2) (hnd : (l1.map (fun p => p.1)).Nodup) (k : α) :
    assocFind k l1 = assocFind k l2 := by
  induction hp with
  | nil => rfl
  | cons q hp2 ih =>
    rw [show ∀ t, (q :: t) = (q.1, q.2) :: t by intro t; rfl]
    simp only [assocFind]
    by_cases hq : q.1 = k
    · rw [if_pos hq, if_pos hq]
    · rw [if_neg hq, if_neg hq]
      exact ih (by simpa using (List.nodup_cons.1 (by simpa using hnd)).2)
  | swap a b t =>
    rw [show ∀ u, (a :: u) = (a.1, a.2) :: u from fun u => rfl,
      show ∀ u, (b :: u) = (b.1, b.2) :: u from fun u => rfl]
    simp only [assocFind]
    have hba : b.1 ≠ a.1 := by
      simp only [List.map_cons, List.nodup_cons, List.mem_cons] at hnd
      intro hc
      exact hnd.1 (Or.inl hc)
    by_cases hb : b.1 = k
    · have hna : ¬a.1 = k := fun hc => hba (hb.trans hc.symm)
      simp [hb, hna]
    · by_cases ha : a.1 = k
      · simp [hb, ha]
      · simp [hb, ha]
  | trans h12 h23 ih12 ih23 =>
    rename_i l1 l2 l3
    refine (ih12 hnd).trans (ih23 ?_)
    have : (l1.map (fun p => p.1)).Perm (l2.map (fun p => p.1)) := h12.map _
    exact this.nodup_iff.1 hnd

/-- With nodup keys erase is filter. -/
lemma assocErase_eq_filter {α β : Type} [DecidableEq α] (k : α)
    (l : List (α × β)) (hnd : (l.map (fun p => p.1)).Nodup) :
    assocErase k l = l.filter (fun p => decide (p.1 ≠ k)) := by
  induction l with
  | nil => rfl
  | cons q qs ih =>
    simp only [List.map_cons, List.nodup_cons] at hnd
    rw [show (q :: qs) = (q.1, q.2) :: qs by rfl]
    by_cases hq : q.1 = k
    · simp only [assocErase, if_pos hq, List.filter_cons]
      rw [if_neg (by simp [hq])]
      have : qs.filter (fun p => decide (p.1 ≠ k)) = qs := by
        apply List.filter_eq_self.2
        intro p hp
        simp only [decide_eq_true_eq]
        intro hc
        exact hnd.1 (by rw [hq, ← hc]; exact List.mem_map_of_mem _ hp)
      rw [this]
    · simp only [assocErase, if_neg hq, List.filter_cons]
      rw [if_pos (by simp [hq]), ih hnd.2]

/-! ### Replay of a quiescent journal -/

lemma aliveOf_eq_some {en : Nat × LogRecord} {r : AliveRec}
    (h : aliveOf en = some r) :
    en = (r.id, LogRecord.tableInfo TableRecType.aliveTableType r.name r.tid r.infos) := by
  obtain ⟨id, rec⟩ := en
  cases rec with
  | tableInfo ty n t infos =>
    cases ty with
    | createTableType => cases h
    | aliveTableType =>
      simp only [aliveOf] at h
      cases Option.some.inj h
      rfl
  | dropTable n => cases h
  | largestTableId t => cases h
  | splitTablet n k => cases h

lemma aliveRecs_cons_some {en : Nat × LogRecord} {r : AliveRec}
    (h : aliveOf en = some r) (rest : List (Nat × LogRecord)) :
    aliveRecs (en :: rest) = r :: aliveRecs rest := by
  simp [aliveRecs, List.filterMap_cons, h]

lemma aliveRecs_cons_none {en : Nat × LogRecord}
    (h : aliveOf en = none) (rest : List (Nat × LogRecord)) :
    aliveRecs (en :: rest) = aliveRecs rest := by
  simp [aliveRecs, List.filterMap_cons, h]

lemma aliveRecs_append (a b : List (Nat × LogRecord)) :
    aliveRecs (a ++ b) = aliveRecs a ++ aliveRecs b := by
  simp [aliveRecs, List.filterMap_append]

lemma aliveOf_id {en : Nat × LogRecord} {r : AliveRec}
    (h : aliveOf en = some r) : r.id = en.1 := by
  rw [aliveOf_eq_some h]

/-- aliveRecs commutes with removing invalidated ids. -/
lemma aliveRecs_filter_ids (inv : List Nat) (j : List (Nat × LogRecord)) :
    aliveRecs (j.filter (fun en => decide (en.1 ∉ inv))) =
      (aliveRecs j).filter (fun r => decide (r.id ∉ inv)) := by
  induction j with
  | nil => rfl
  | cons en rest ih =>
    rcases halive : aliveOf en with _ | r
    · rw [List.filter_cons]
      by_cases hid : en.1 ∈ inv
      · rw [if_neg (by simp [hid])]
        rw [aliveRecs_cons_none halive, ih]
      · rw [if_pos (by simp [hid])]
        rw [aliveRecs_cons_none halive, aliveRecs_cons_none halive, ih]
    · rw [List.filter_cons, aliveRecs_cons_some halive]
      have hrid : r.id = en.1 := aliveOf_id halive
      by_cases hid : en.1 ∈ inv
      · rw [if_neg (by simp [hid])]
        rw [List.filter_cons, if_neg (by simp [hrid, hid]), ih]
      · rw [if_pos (by simp [hid])]
        rw [aliveRecs_cons_some halive, List.filter_cons,
          if_pos (by simp [hrid, hid]), ih]

lemma replayList_append (a b : List (Nat × LogRecord)) (s : Sys) :
    replayList (a ++ b) s =
      match replayList a s with
      | ReplayResult.ok s2 => replayList b s2
      | ReplayResult.fail => ReplayResult.fail := by
  induction a generalizing s with
  | nil => rfl
  | cons en rest ih =>
    rw [List.cons_append]
    show (match replayRecord s en with
      | ReplayResult.ok s2 => replayList (rest ++ b) s2
      | ReplayResult.fail => ReplayResult.fail) =
      (match (match replayRecord s en with
        | ReplayResult.ok s2 => replayList rest s2
        | ReplayResult.fail => ReplayResult.fail) with
      | ReplayResult.ok s2 => replayList b s2
      | ReplayResult.fail => ReplayResult.fail)
    rcases replayRecord s en with s2 | _
    · simp only []
      exact ih s2
    · rfl

/-- Replay of a quiescent record list: it succeeds and appends exactly
the tables and tablets described by its AliveTable records, binding
each table id to its record id. -/
lemma replayQuiet (j : List (Nat × LogRecord)) :
    ∀ s0 : Sys,
    (∀ en ∈ j, quietRec en = true) →
    ((aliveRecs j).map (fun r => r.name)).Nodup →
    ((aliveRecs j).map (fun r => r.tid)).Nodup →
    (∀ r ∈ aliveRecs j, assocFind r.name s0.tm.tables = none) →
    ∃ s1, replayList j s0 = ReplayResult.ok s1 ∧
      s1.tm.tables = s0.tm.tables ++ (aliveRecs j).map (fun r => (r.name, r.tid)) ∧
      s1.tm.map = s0.tm.map ++
        ((aliveRecs j).map (fun r => tabletsFromInfos r.tid r.infos)).flatten ∧
      (∀ k, k ∉ (aliveRecs j).map (fun r => r.tid) →
        assocFind k s1.tm.tablesLogIds = assocFind k s0.tm.tablesLogIds) ∧
      (∀ r ∈ aliveRecs j, assocFind r.tid s1.tm.tablesLogIds = some r.id) := by
  induction j with
  | nil =>
    intro s0 _ _ _ _
    refine ⟨s0, rfl, by simp [aliveRecs], by simp [aliveRecs], ?_, ?_⟩
    · intro k _; rfl
    · intro r hr; cases hr
  | cons en rest ih =>
    intro s0 hquiet hnames htids hfresh
    have hquietRest : ∀ e ∈ rest, quietRec e = true :=
      fun e he => hquiet e (List.mem_cons_of_mem _ he)
    rcases halive : aliveOf en with _ | r
    · -- a LargestTableId record
      have hq := hquiet en (List.mem_cons_self _ _)
      rw [quietRec, halive] at hq
      simp only [Option.isSome_none, Bool.false_or] at hq
      obtain ⟨id, rec⟩ := en
      cases rec with
      | tableInfo ty n t infos =>
        cases ty with
        | createTableType => cases hq
        | aliveTableType => cases halive
      | dropTable n => cases hq
      | splitTablet n k => cases hq
      | largestTableId t =>
        rw [aliveRecs_cons_none halive] at hnames htids hfresh
        obtain ⟨s1, hrep, h1, h2, h3, h4⟩ :=
          ih (recoverLargestTableId t id s0) hquietRest hnames htids hfresh
        refine ⟨s1, ?_, ?_, ?_, ?_, ?_⟩
        · show (match replayRecord s0 (id, LogRecord.largestTableId t) with
            | ReplayResult.ok s2 => replayList rest s2
            | ReplayResult.fail => ReplayResult.fail) = ReplayResult.ok s1
          rw [show replayRecord s0 (id, LogRecord.largestTableId t) =
            ReplayResult.ok (recoverLargestTableId t id s0) from rfl]
          exact hrep
        · rw [aliveRecs_cons_none halive]
          exact h1
        · rw [aliveRecs_cons_none halive]
          exact h2
        · rw [aliveRecs_cons_none halive]
          exact h3
        · rw [aliveRecs_cons_none halive]
          exact h4
    · -- an AliveTable record
      have hen := aliveOf_eq_some halive
      rw [aliveRecs_cons_some halive] at hnames htids hfresh
      simp only [List.map_cons, List.nodup_cons] at hnames htids
      have hfreshr : assocFind r.name s0.tm.tables = none :=
        hfresh r (List.mem_cons_self _ _)
      have hset : assocSet r.name r.tid s0.tm.tables =
          s0.tm.tables ++ [(r.name, r.tid)] := assocSet_append _ _ _ hfreshr
      set s0b : Sys := recoverAliveTable r.name r.tid r.infos r.id s0 with hs0b
      have hfresh2 : ∀ r2 ∈ aliveRecs rest, assocFind r2.name s0b.tm.tables = none := by
        intro r2 hr2
        show assocFind r2.name (assocSet r.name r.tid s0.tm.tables) = none
        rw [hset, assocFind_append _ _ _ (hfresh r2 (List.mem_cons_of_mem _ hr2))]
        show (if r.name = r2.name then some r.tid else none) = none
        rw [if_neg ?hne]
        case hne =>
          intro hc
          exact hnames.1 (by rw [hc]; exact List.mem_map_of_mem _ hr2)
      obtain ⟨s1, hrep, h1, h2, h3, h4⟩ := ih s0b hquietRest hnames.2 htids.2 hfresh2
      refine ⟨s1, ?_, ?_, ?_, ?_, ?_⟩
      · rw [hen]
        show (match replayRecord s0
            (r.id, LogRecord.tableInfo TableRecType.aliveTableType r.name r.tid r.infos) with
          | ReplayResult.ok s2 => replayList rest s2
          | ReplayResult.fail => ReplayResult.fail) = ReplayResult.ok s1
        rw [show replayRecord s0
            (r.id, LogRecord.tableInfo TableRecType.aliveTableType r.name r.tid r.infos) =
          ReplayResult.ok s0b from rfl]
        exact hrep
      · rw [aliveRecs_cons_some halive, h1]
        show (assocSet r.name r.tid s0.tm.tables) ++ _ = _
        rw [hset, List.append_assoc]
        rfl
      · rw [aliveRecs_cons_some halive, h2]
        show (s0.tm.map ++ tabletsFromInfos r.tid r.infos) ++ _ = _
        rw [List.append_assoc]
        rfl
      · intro k hk
        rw [aliveRecs_cons_some halive] at hk
        simp only [List.map_cons, List.mem_cons, not_or] at hk
        rw [h3 k hk.2]
        show assocFind k (assocSet r.tid r.id s0.tm.tablesLogIds) = _
        rw [assocFind_assocSet_ne _ _ hk.1]
      · intro r2 hr2
        rw [aliveRecs_cons_some halive] at hr2
        rcases List.mem_cons.1 hr2 with rfl | hr2b
        · rw [h3 r2.tid htids.1]
          show assocFind r2.tid (assocSet r2.tid r2.id s0.tm.tablesLogIds) = _
          rw [assocFind_assocSet_self]
        · exact h4 r2 hr2b

/-! ### List toolkit for the crash-recovery equivalences -/

/-- The residual vector of the swap-with-back removal loop is, up to
order, the untouched prefix together with the non-matching part of the
rest. -/
lemma removeTabletsLoop_perm (tid : Nat) :
    ∀ n v i removed, v.length - i ≤ n →
    ((removeTabletsLoop tid v i removed).1).Perm
      (v.take i ++ (v.drop i).filter (fun t => decide (t.tableId ≠ tid))) := by
  intro n
  induction n with
  | zero =>
    intro v i removed hle
    have hni : ¬ i < v.length := by omega
    unfold removeTabletsLoop
    rw [dif_neg hni, List.take_of_length_le (by omega),
      List.drop_eq_nil_of_le (by omega)]
    simp
  | succ n ih =>
    intro v i removed hle
    by_cases hi : i < v.length
    · have hne : v ≠ [] := by
        intro hemp
        rw [hemp] at hi
        simp at hi
      unfold removeTabletsLoop
      rw [dif_pos hi]
      simp only []
      by_cases hmatch : (v.get ⟨i, hi⟩).tableId = tid
      · rw [if_pos hmatch]
        have hmatch2 : v[i].tableId = tid := hmatch
        have hsetlen : (v.set i (v.getLast hne)).length = v.length := by
          simp
        have hblen : ((v.set i (v.getLast hne)).dropLast).length = v.length - 1 := by
          simp
        have hrec := ih ((v.set i (v.getLast hne)).dropLast) i (removed ++ [v.get ⟨i, hi⟩])
          (by omega)
        refine hrec.trans ?_
        have hset : v.set i (v.getLast hne) =
            v.take i ++ v.getLast hne :: v.drop (i + 1) := by
          rw [List.set_eq_take_append_cons_drop, if_pos hi]
        have htklen : (v.take i).length = i := by
          rw [List.length_take]
          omega
        have hv2 : (v.set i (v.getLast hne)).dropLast =
            v.take i ++ (v.getLast hne :: v.drop (i + 1)).take (v.length - 1 - i) := by
          rw [List.dropLast_eq_take, hsetlen, hset, List.take_append_eq_append_take,
            List.take_of_length_le (by omega), htklen]
        by_cases hlast : i = v.length - 1
        · -- removing the final element: the tail vanishes
          have hv2e : (v.set i (v.getLast hne)).dropLast = v.take i := by
            rw [hv2]
            rw [show v.length - 1 - i = 0 by omega]
            simp
          rw [hv2e, List.take_of_length_le (by rw [htklen]),
            List.drop_eq_nil_of_le (by rw [htklen])]
          rw [List.drop_eq_getElem_cons hi,
            show v.drop (i + 1) = [] from List.drop_eq_nil_of_le (by omega)]
          rw [List.filter_cons, if_neg (by simp [hmatch2])]
        · -- the back element replaces the removed one
          have hdne : v.drop (i + 1) ≠ [] := by
            intro hemp
            have := congrArg List.length hemp
            simp at this
            omega
          have hdlen : (v.drop (i + 1)).length = v.length - (i + 1) := by simp
          have hLD : v.getLast hne = (v.drop (i + 1)).getLast hdne := by
            have h1 : v.getLast? = some (v.getLast hne) := List.getLast?_eq_getLast v hne
            have h2 : (v.drop (i + 1)).getLast? = some ((v.drop (i + 1)).getLast hdne) :=
              List.getLast?_eq_getLast _ hdne
            have h3 : v.getLast? = (v.drop (i + 1)).getLast? := by
              conv_lhs => rw [show v = v.take (i + 1) ++ v.drop (i + 1) from
                (List.take_append_drop _ _).symm]
              exact List.getLast?_append_of_ne_nil _ hdne
            rw [h1, h2] at h3
            exact Option.some.inj h3
          have hv2b : (v.set i (v.getLast hne)).dropLast =
              v.take i ++ v.getLast hne :: (v.drop (i + 1)).dropLast := by
            rw [hv2]
            congr 1
            rw [List.take_cons (by omega), List.dropLast_eq_take, hdlen]
            congr 2
            omega
          rw [hv2b, List.take_append_eq_append_take,
            List.take_of_length_le (le_of_eq htklen), htklen, Nat.sub_self,
            List.take_zero, List.append_nil,
            List.drop_append_eq_append_drop,
            List.drop_eq_nil_of_le (le_of_eq htklen), htklen, Nat.sub_self,
            List.drop_zero, List.nil_append]
          refine List.Perm.append_left _ ?_
          have hstep1 : ((v.getLast hne :: (v.drop (i + 1)).dropLast).filter
              (fun t => decide (t.tableId ≠ tid))).Perm
              (((v.drop (i + 1)).dropLast ++ [v.getLast hne]).filter
              (fun t => decide (t.tableId ≠ tid))) :=
            ((List.perm_append_singleton _ _).filter _).symm
          refine hstep1.trans (List.Perm.of_eq ?_)
          rw [show ((v.drop (i + 1)).dropLast ++ [v.getLast hne]) = v.drop (i + 1) by
            rw [hLD]
            exact List.dropLast_append_getLast hdne]
          rw [List.drop_eq_getElem_cons hi, List.filter_cons,
            if_neg (by simp [hmatch2])]
      · rw [if_neg hmatch]
        have hmatch2 : ¬v[i].tableId = tid := hmatch
        have hrec := ih v (i + 1) removed (by omega)
        refine hrec.trans (List.Perm.of_eq ?_)
        rw [show v.take (i + 1) = v.take i ++ [v[i]] from by
          rw [← List.concat_eq_append]
          exact (List.take_concat_get v i hi).symm]
        rw [List.append_assoc, List.singleton_append,
          List.drop_eq_getElem_cons hi, List.filter_cons, if_pos (by simp [hmatch2])]
    · unfold removeTabletsLoop
      rw [dif_neg hi, List.take_of_length_le (by omega),
        List.drop_eq_nil_of_le (by omega)]
      simp

/-- removeTabletsForTable keeps, up to order, exactly the tablets of
other tables. -/
lemma removeTabletsForTable_perm (v : List Tablet) (tid : Nat) :
    ((removeTabletsForTable v tid).1).Perm
      (v.filter (fun t => decide (t.tableId ≠ tid))) := by
  have h := removeTabletsLoop_perm tid v.length v 0 [] (by omega)
  simpa using h

/-- With a unique match, the in-place modification is, up to order, the
modified element in front of the rest. -/
lemma modifyFirst_spec (p : Tablet → Bool) (f : Tablet → Tablet) :
    ∀ (l : List Tablet) (t0 : Tablet), l.countP p = 1 → l.find? p = some t0 →
    (modifyFirst p f l).Perm (f t0 :: l.erase t0) := by
  intro l
  induction l with
  | nil => intro t0 _ hf; cases hf
  | cons t ts ih =>
    intro t0 hc hf
    by_cases hp : p t = true
    · rw [List.find?_cons_of_pos _ hp] at hf
      cases Option.some.inj hf
      rw [show modifyFirst p f (t :: ts) = f t :: ts by simp [modifyFirst, hp],
        List.erase_cons_head]
    · rw [List.find?_cons_of_neg _ hp] at hf
      have hct : ts.countP p = 1 := by
        rw [List.countP_cons, if_neg hp] at hc
        simpa using hc
      have hpt0 : p t0 = true := List.find?_some hf
      have hne : t ≠ t0 := by
        intro hc2
        rw [hc2] at hp
        exact hp hpt0
      rw [show modifyFirst p f (t :: ts) = t :: modifyFirst p f ts by
          simp [modifyFirst, hp],
        List.erase_cons_tail]
      · exact ((ih t0 hct hf).cons t).trans (List.Perm.swap _ _ _)
      · simp [hne]

/-- A predicate matched exactly once is matched only by the element
find? returns. -/
lemma countP_one_unique {l : List Tablet} {p : Tablet → Bool} {t0 : Tablet}
    (hc : l.countP p = 1) (hf : l.find? p = some t0) :
    ∀ x ∈ l, p x = true → x = t0 := by
  intro x hx hpx
  rw [List.countP_eq_length_filter] at hc
  obtain ⟨a, ha⟩ := List.length_eq_one.1 hc
  have hxa : x = a := by
    have : x ∈ l.filter p := List.mem_filter.2 ⟨hx, hpx⟩
    rw [ha] at this
    simpa using this
  have ht0a : t0 = a := by
    have : t0 ∈ l.filter p :=
      List.mem_filter.2 ⟨List.mem_of_find?_eq_some hf, List.find?_some hf⟩
    rw [ha] at this
    simpa using this
  rw [hxa, ht0a]

/-- find? of a once-matched predicate is stable under permutation. -/
lemma find?_perm_of_countP_one {l1 l2 : List Tablet} {p : Tablet → Bool}
    {t0 : Tablet} (hperm : l1.Perm l2) (hc : l1.countP p = 1)
    (hf : l1.find? p = some t0) : l2.find? p = some t0 := by
  have hsome : (l2.find? p).isSome := by
    refine List.find?_isSome.2 ⟨t0, ?_, List.find?_some hf⟩
    exact hperm.mem_iff.1 (List.mem_of_find?_eq_some hf)
  obtain ⟨t1, ht1⟩ := Option.isSome_iff_exists.1 hsome
  rw [ht1]
  have : t1 = t0 := countP_one_unique hc hf _
    (hperm.mem_iff.2 (List.mem_of_find?_eq_some ht1)) (List.find?_some ht1)
  rw [this]

/-- Filtering a flattened map by a tablet predicate that is constant on
each generated block filters the generating records. -/
lemma flatten_filter_eq {α : Type} (l : List α) (f : α → List Tablet)
    (pb : Tablet → Bool) (q : α → Bool)
    (h : ∀ x ∈ l, ∀ y ∈ f x, pb y = q x) :
    ((l.map f).flatten).filter pb = ((l.filter q).map f).flatten := by
  induction l with
  | nil => rfl
  | cons a as ih =>
    have hqs := fun x hx => h x (List.mem_cons_of_mem _ hx)
    simp only [List.map_cons, List.flatten_cons, List.filter_append, ih hqs,
      List.filter_cons]
    by_cases hq : q a = true
    · rw [if_pos hq, List.filter_eq_self.2 (fun y hy => by rw [h a (List.mem_cons_self _ _) y hy, hq]),
        List.map_cons, List.flatten_cons]
    · rw [if_neg hq, List.filter_eq_nil_iff.2 (fun y hy => by
        rw [h a (List.mem_cons_self _ _) y hy]
        simpa using hq), List.nil_append]

/-! ### Replay of an invariant journal -/

/-- The tables map of an invariant state has distinct keys. -/
lemma JInv_tables_keys_nodup {s : Sys} (h : JInv s) :
    (s.tm.tables.map (fun p => p.1)).Nodup := by
  obtain ⟨_, _, _, _, hn, _, hT, _⟩ := h
  have hp := hT.map (fun p : String × Nat => p.1)
  rw [List.map_map] at hp
  exact hp.nodup_iff.2 (by simpa [Function.comp] using hn)

/-- Table lookup through the journal's AliveTable pairs. -/
lemma assocFind_eq_pairs {s : Sys} (h : JInv s) (name : String) :
    assocFind name s.tm.tables =
      assocFind name ((aliveRecs s.journal).map (fun r => (r.name, r.tid))) := by
  have hnd := JInv_tables_keys_nodup h
  obtain ⟨_, _, _, _, _, _, hT, _⟩ := h
  exact assocFind_perm hT hnd name

/-- A found table is described by an AliveTable record. -/
lemma pairs_find_exists {s : Sys} (h : JInv s) {name : String} {tid : Nat}
    (hfind : assocFind name s.tm.tables = some tid) :
    ∃ r ∈ aliveRecs s.journal, r.name = name ∧ r.tid = tid := by
  rw [assocFind_eq_pairs h name] at hfind
  obtain ⟨r, hr, heq⟩ := List.mem_map.1 (assocFind_mem hfind)
  exact ⟨r, hr, congrArg Prod.fst heq, congrArg Prod.snd heq⟩

/-- A fresh table name is claimed by no AliveTable record. -/
lemma fresh_name_not_alive {s : Sys} (h : JInv s) {name : String}
    (hfresh : assocFind name s.tm.tables = none) :
    name ∉ (aliveRecs s.journal).map (fun r => r.name) := by
  rw [assocFind_eq_pairs h name, assocFind_none_iff] at hfresh
  intro hmem
  obtain ⟨r, hr, hrn⟩ := List.mem_map.1 hmem
  exact hfresh (r.name, r.tid) (List.mem_map_of_mem _ hr) (by simpa using hrn)

/-- splitExists is insensitive to tablet-map order. -/
lemma splitExists_perm {m1 m2 : List Tablet} (hp : m1.Perm m2)
    (tid split : Nat) :
    splitExists m1 tid split = splitExists m2 tid split := by
  unfold splitExists
  rw [hp.countP_eq]

/-- Replaying the journal of a quiescent invariant system rebuilds its
table-manager state up to map order. -/
lemma replayJInv (s : Sys) (h : JInv s) :
    ∃ sr, replayJournal s.journal = ReplayResult.ok sr ∧ tmEquiv sr.tm s.tm := by
  obtain ⟨hq, _, _, _, hn, ht, hT, hM, _⟩ := h
  obtain ⟨s1, hrep, h1, h2, _, _⟩ :=
    replayQuiet s.journal
      { tm := initTM, journal := s.journal,
        nextEntryId := ((s.journal.map (fun en => en.1)).foldr max 0) + 1 }
      hq hn ht (fun r _ => rfl)
  refine ⟨s1, hrep, ?_, ?_⟩
  · rw [show s1.tm.tables =
      (aliveRecs s.journal).map (fun r => (r.name, r.tid)) from h1]
    exact hT.symm
  · rw [show s1.tm.map = ((aliveRecs s.journal).map
      (fun r => tabletsFromInfos r.tid r.infos)).flatten from h2]
    exact hM.symm

/-! ### Evaluation lemmas for the complete functions -/

/-- CreateTable::complete without crash injection always completes,
installing the table and its tablets. -/
lemma createTableComplete_none (name : String) (tid : Nat)
    (infos : List TabletInfo) (e : Nat) (s : Sys) :
    ∃ s2, createTableComplete none name tid infos e s = RunResult.completed s2 ∧
      s2.tm.tables = assocSet name tid s.tm.tables ∧
      s2.tm.map = s.tm.map ++ tabletsFromInfos tid infos :=
  ⟨_, rfl, rfl, rfl⟩

/-- CreateTable::complete can only stop at its own crash points. -/
lemma createTableComplete_no_crash {p : CrashPoint}
    (hp3 : p ≠ CrashPoint.create3) (hp4 : p ≠ CrashPoint.create4)
    (name : String) (tid : Nat) (infos : List TabletInfo) (e : Nat) (s : Sys)
    (q : CrashPoint) (sc : Sys) :
    createTableComplete (some p) name tid infos e s ≠ RunResult.crashed q sc := by
  intro h
  unfold createTableComplete at h
  repeat' split at h
  all_goals simp_all

/-- DropTable::complete without crash injection on a present table
completes, erasing the table and its tablets. -/
lemma dropTableComplete_found (name : String) (e : Nat) (s : Sys)
    (tid rid : Nat) (hfind : assocFind name s.tm.tables = some tid)
    (hlog : assocFind tid s.tm.tablesLogIds = some rid) :
    ∃ s2, dropTableComplete none name e s = RunResult.completed s2 ∧
      s2.tm.tables = assocErase name s.tm.tables ∧
      s2.tm.map = (removeTabletsForTable s.tm.map tid).1 := by
  unfold dropTableComplete
  rw [hfind]
  simp only [hlog]
  by_cases hlast : tid = s.tm.nextTableId - 1
  · rw [if_pos hlast]
    exact ⟨_, rfl, rfl, rfl⟩
  · rw [if_neg hlast]
    exact ⟨_, rfl, rfl, rfl⟩

/-- DropTable::complete can only stop at its own crash points. -/
lemma dropTableComplete_no_crash {p : CrashPoint}
    (hp3 : p ≠ CrashPoint.drop3) (hp4 : p ≠ CrashPoint.drop4)
    (name : String) (e : Nat) (s : Sys) (q : CrashPoint) (sc : Sys) :
    dropTableComplete (some p) name e s ≠ RunResult.crashed q sc := by
  intro h
  unfold dropTableComplete at h
  rcases h1 : assocFind name s.tm.tables with _ | tid
  · rw [h1] at h
    exact RunResult.noConfusion h
  · rw [h1] at h
    simp only [] at h
    rcases h2 : assocFind tid s.tm.tablesLogIds with _ | rid
    · rw [h2] at h
      exact RunResult.noConfusion h
    · rw [h2] at h
      simp only [] at h
      rw [if_neg (by simp [hp3] : ¬(some p = some CrashPoint.drop3))] at h
      rw [if_neg (by simp [hp4] : ¬(some p = some CrashPoint.drop4))] at h
      exact RunResult.noConfusion h

/-- SplitTablet::complete on an already-recorded split completes with
the state unchanged. -/
lemma splitTabletComplete_exists {name : String} {split e : Nat} {s : Sys}
    {tid : Nat} (hfind : assocFind name s.tm.tables = some tid)
    (hex : splitExists s.tm.map tid split = true) :
    splitTabletComplete name split e s = RunResult.completed s := by
  unfold splitTabletComplete
  rw [hfind]
  simp only [hex, if_true]

/-- SplitTablet::complete on a fresh unique split completes, splitting
the found tablet. -/
lemma splitTabletComplete_split {name : String} {split e : Nat} {s : Sys}
    {tid : Nat} {t0 : Tablet} {oldId : Nat}
    (hfind : assocFind name s.tm.tables = some tid)
    (hex : splitExists s.tm.map tid split = false)
    (hfo : s.tm.map.find? (splitMatch tid split) = some t0)
    (hlog : assocFind tid s.tm.tablesLogIds = some oldId) :
    ∃ s2, splitTabletComplete name split e s = RunResult.completed s2 ∧
      s2.tm.tables = s.tm.tables ∧
      s2.tm.map = (modifyFirst (splitMatch tid split)
        (fun t => { t with endKeyHash := u64sub1 split }) s.tm.map)
        ++ [{ t0 with startKeyHash := split }] := by
  unfold splitTabletComplete
  rw [hfind]
  simp only [hex, Bool.false_eq_true, if_false, hfo, hlog]
  exact ⟨_, rfl, rfl, rfl⟩

/-- SplitTablet::complete never reports a crash point. -/
lemma splitTabletComplete_ne_crashed (name : String) (split e : Nat) (s : Sys)
    (q : CrashPoint) (sc : Sys) :
    splitTabletComplete name split e s ≠ RunResult.crashed q sc := by
  intro h
  unfold splitTabletComplete at h
  rcases h1 : assocFind name s.tm.tables with _ | tid
  · rw [h1] at h
    exact RunResult.noConfusion h
  · rw [h1] at h
    simp only [] at h
    by_cases hex : splitExists s.tm.map tid split = true
    · rw [if_pos hex] at h
      exact RunResult.noConfusion h
    · rw [if_neg hex] at h
      rcases h2 : s.tm.map.find? (splitMatch tid split) with _ | t0
      · rw [h2] at h
        exact RunResult.noConfusion h
      · rw [h2] at h
        simp only [] at h
        rcases h3 : assocFind tid s.tm.tablesLogIds with _ | oldId
        · rw [h3] at h
          exact RunResult.noConfusion h
        · rw [h3] at h
          exact RunResult.noConfusion h

/-- createTable without crash injection on a fresh name completes,
installing the table under the next table id. -/
lemma createTableRun_none (name : String) (span : Nat) (masters : Nat → Nat)
    (s : Sys) (hfresh : assocFind name s.tm.tables = none) :
    ∃ sf, createTableRun none name span masters s = RunResult.completed sf ∧
      sf.tm.tables = assocSet name s.tm.nextTableId s.tm.tables ∧
      sf.tm.map = s.tm.map ++ tabletsFromInfos s.tm.nextTableId
        (makeTabletInfos (if span = 0 then 1 else span) masters) := by
  rcases hL : s.tm.logIdLargestTableId with _ | lid
  all_goals
    unfold createTableRun
    rw [if_neg (by simp : ¬((none : Option CrashPoint) = some CrashPoint.create1))]
    rw [show (assocFind name s.tm.tables).isSome = false from by rw [hfresh]; rfl]
    simp only [Bool.false_eq_true, if_false, hL]
    exact ⟨_, rfl, rfl, rfl⟩

/-- dropTable without crash injection on a present table completes,
erasing the table and its tablets. -/
lemma dropTableRun_none (name : String) (s : Sys) (tid rid : Nat)
    (hfind : assocFind name s.tm.tables = some tid)
    (hlog : assocFind tid s.tm.tablesLogIds = some rid) :
    ∃ sf, dropTableRun none name s = RunResult.completed sf ∧
      sf.tm.tables = assocErase name s.tm.tables ∧
      sf.tm.map = (removeTabletsForTable s.tm.map tid).1 := by
  unfold dropTableRun
  rw [show (assocFind name s.tm.tables).isNone = false from by rw [hfind]; rfl]
  simp only [Bool.false_eq_true, if_false]
  rw [if_neg (by simp : ¬((none : Option CrashPoint) = some CrashPoint.drop1))]
  rw [if_neg (by simp : ¬((none : Option CrashPoint) = some CrashPoint.drop2))]
  obtain ⟨s2, heq, h1, h2⟩ := dropTableComplete_found name
    (appendRecord s (LogRecord.dropTable name) []).2
    (appendRecord s (LogRecord.dropTable name) []).1 tid rid hfind hlog
  exact ⟨s2, heq, h1, h2⟩

/-- splitTablet without crash injection on an already-recorded split
completes with the table maps unchanged. -/
lemma splitTabletRun_none_exists (name : String) (split : Nat) (s : Sys)
    (tid : Nat) (hfind : assocFind name s.tm.tables = some tid)
    (hex : splitExists s.tm.map tid split = true) :
    ∃ sf, splitTabletRun none name split s = RunResult.completed sf ∧
      sf.tm.tables = s.tm.tables ∧ sf.tm.map = s.tm.map := by
  unfold splitTabletRun
  rw [if_neg (by simp : ¬((none : Option CrashPoint) = some CrashPoint.split1))]
  rw [if_neg (by simp : ¬((none : Option CrashPoint) = some CrashPoint.split2))]
  exact ⟨_, @splitTabletComplete_exists name split
    (appendRecord s (LogRecord.splitTablet name split) []).2
    (appendRecord s (LogRecord.splitTablet name split) []).1 tid hfind hex,
    rfl, rfl⟩

/-- splitTablet without crash injection on a fresh uniquely-located
split completes, splitting the found tablet in place. -/
lemma splitTabletRun_none_split (name : String) (split : Nat) (s : Sys)
    (tid oldId : Nat) (t0 : Tablet)
    (hfind : assocFind name s.tm.tables = some tid)
    (hex : splitExists s.tm.map tid split = false)
    (hfo : s.tm.map.find? (splitMatch tid split) = some t0)
    (hlog : assocFind tid s.tm.tablesLogIds = some oldId) :
    ∃ sf, splitTabletRun none name split s = RunResult.completed sf ∧
      sf.tm.tables = s.tm.tables ∧
      sf.tm.map = (modifyFirst (splitMatch tid split)
        (fun t => { t with endKeyHash := u64sub1 split }) s.tm.map)
        ++ [{ t0 with startKeyHash := split }] := by
  unfold splitTabletRun
  rw [if_neg (by simp : ¬((none : Option CrashPoint) = some CrashPoint.split1))]
  rw [if_neg (by simp : ¬((none : Option CrashPoint) = some CrashPoint.split2))]
  obtain ⟨s2, heq, h1, h2⟩ := @splitTabletComplete_split name split
    (appendRecord s (LogRecord.splitTablet name split) []).2
    (appendRecord s (LogRecord.splitTablet name split) []).1 tid t0 oldId
    hfind hex hfo hlog
  exact ⟨s2, heq, h1, h2⟩

/-! ### Crash-point replay cores -/

/-- The starting system of a journal replay. -/
def replayInit (full : List (Nat × LogRecord)) : Sys :=
  { tm := initTM, journal := full,
    nextEntryId := ((full.map (fun en => en.1)).foldr max 0) + 1 }

/-- replayQuiet specialized to the empty starting table manager of a
journal replay. -/
lemma replayQuietJournal (J full : List (Nat × LogRecord))
    (hq : ∀ en ∈ J, quietRec en = true)
    (hn : ((aliveRecs J).map (fun r => r.name)).Nodup)
    (ht : ((aliveRecs J).map (fun r => r.tid)).Nodup) :
    ∃ s1, replayList J (replayInit full) = ReplayResult.ok s1 ∧
      s1.tm.tables = (aliveRecs J).map (fun r => (r.name, r.tid)) ∧
      s1.tm.map = ((aliveRecs J).map (fun r => tabletsFromInfos r.tid r.infos)).flatten ∧
      (∀ r ∈ aliveRecs J, assocFind r.tid s1.tm.tablesLogIds = some r.id) := by
  obtain ⟨s1, hrep, h1, h2, _, h4⟩ := replayQuiet J (replayInit full)
    hq hn ht (fun r _ => rfl)
  refine ⟨s1, hrep, ?_, ?_, h4⟩
  · rw [h1]
    rfl
  · rw [h2]
    rfl

/-- Replaying a quiet journal followed by a CreateTable record performs
the table creation on the rebuilt state. -/
lemma create_replay_core (s : Sys) (h : JInv s) (name : String)
    (infos : List TabletInfo) (e1 : Nat) (J2 : List (Nat × LogRecord))
    (hfresh : assocFind name s.tm.tables = none)
    (hq2 : ∀ en ∈ J2, quietRec en = true)
    (ha2 : aliveRecs J2 = aliveRecs s.journal) :
    ∃ sr, replayJournal (J2 ++ [(e1, LogRecord.tableInfo
        TableRecType.createTableType name s.tm.nextTableId infos)])
      = ReplayResult.ok sr ∧
      sr.tm.tables.Perm (assocSet name s.tm.nextTableId s.tm.tables) ∧
      sr.tm.map.Perm (s.tm.map ++ tabletsFromInfos s.tm.nextTableId infos) := by
  have hn : ((aliveRecs J2).map (fun r => r.name)).Nodup := by
    rw [ha2]
    exact h.2.2.2.2.1
  have ht : ((aliveRecs J2).map (fun r => r.tid)).Nodup := by
    rw [ha2]
    exact h.2.2.2.2.2.1
  have hT : s.tm.tables.Perm
      ((aliveRecs s.journal).map (fun r => (r.name, r.tid))) :=
    h.2.2.2.2.2.2.1
  have hM : s.tm.map.Perm ((aliveRecs s.journal).map
      (fun r => tabletsFromInfos r.tid r.infos)).flatten :=
    h.2.2.2.2.2.2.2.1
  obtain ⟨s1, hrep, h1, h2, _⟩ := replayQuietJournal J2
    (J2 ++ [(e1, LogRecord.tableInfo
      TableRecType.createTableType name s.tm.nextTableId infos)]) hq2 hn ht
  rw [ha2] at h1 h2
  obtain ⟨s2, hc, hc1, hc2⟩ := createTableComplete_none name s.tm.nextTableId
    infos e1 { s1 with tm := { s1.tm with nextTableId := s.tm.nextTableId + 1 } }
  have hrr : replayRecord s1 (e1, LogRecord.tableInfo
      TableRecType.createTableType name s.tm.nextTableId infos)
      = ReplayResult.ok s2 := by
    show (match createTableComplete none name s.tm.nextTableId infos e1
        { s1 with tm := { s1.tm with nextTableId := s.tm.nextTableId + 1 } } with
      | RunResult.completed s3 => ReplayResult.ok s3
      | RunResult.crashed _ s3 => ReplayResult.fail
      | RunResult.tableExists s3 => ReplayResult.fail
      | RunResult.noSuchTable s3 => ReplayResult.fail
      | RunResult.died s3 => ReplayResult.fail) = ReplayResult.ok s2
    rw [hc]
  have hfreshP : assocFind name s1.tm.tables = none := by
    rw [h1, ← assocFind_eq_pairs h name]
    exact hfresh
  refine ⟨s2, ?_, ?_, ?_⟩
  · show replayList (J2 ++ [(e1, LogRecord.tableInfo
        TableRecType.createTableType name s.tm.nextTableId infos)])
      (replayInit (J2 ++ [(e1, LogRecord.tableInfo
        TableRecType.createTableType name s.tm.nextTableId infos)]))
      = ReplayResult.ok s2
    rw [replayList_append, hrep]
    show replayList [(e1, LogRecord.tableInfo
        TableRecType.createTableType name s.tm.nextTableId infos)] s1
      = ReplayResult.ok s2
    show (match replayRecord s1 (e1, LogRecord.tableInfo
        TableRecType.createTableType name s.tm.nextTableId infos) with
      | ReplayResult.ok s3 => replayList [] s3
      | ReplayResult.fail => ReplayResult.fail) = ReplayResult.ok s2
    rw [hrr]
    rfl
  · rw [show s2.tm.tables = assocSet name s.tm.nextTableId s1.tm.tables from hc1,
      assocSet_append _ _ _ hfreshP, assocSet_append _ _ _ hfresh, h1]
    exact hT.symm.append_right _
  · rw [show s2.tm.map = s1.tm.map ++
        tabletsFromInfos s.tm.nextTableId infos from hc2, h2]
    exact hM.symm.append_right _

/-- Filtering an invariant journal by ids no AliveTable record carries
keeps it quiet and keeps every AliveTable record. -/
lemma invariant_filter_facts {s : Sys} (h : JInv s) (inv : List Nat)
    (hinv : ∀ r ∈ aliveRecs s.journal, r.id ∉ inv) :
    (∀ en ∈ s.journal.filter (fun en => decide (en.1 ∉ inv)), quietRec en = true) ∧
    aliveRecs (s.journal.filter (fun en => decide (en.1 ∉ inv))) = aliveRecs s.journal := by
  refine ⟨fun en he => h.1 en (List.mem_of_mem_filter he), ?_⟩
  rw [aliveRecs_filter_ids]
  apply List.filter_eq_self.2
  intro r hr
  simpa using hinv r hr

/-- Replaying a quiet journal followed by the AliveTable record of a
fresh table rebuilds the state with that table installed. -/
lemma create_replay_alive_core (s : Sys) (h : JInv s) (name : String)
    (infos : List TabletInfo) (e2 : Nat) (J2 : List (Nat × LogRecord))
    (hfresh : assocFind name s.tm.tables = none)
    (hq2 : ∀ en ∈ J2, quietRec en = true)
    (ha2 : aliveRecs J2 = aliveRecs s.journal) :
    ∃ sr, replayJournal (J2 ++ [(e2, LogRecord.tableInfo
        TableRecType.aliveTableType name s.tm.nextTableId infos)])
      = ReplayResult.ok sr ∧
      sr.tm.tables.Perm (assocSet name s.tm.nextTableId s.tm.tables) ∧
      sr.tm.map.Perm (s.tm.map ++ tabletsFromInfos s.tm.nextTableId infos) := by
  have hT : s.tm.tables.Perm
      ((aliveRecs s.journal).map (fun r => (r.name, r.tid))) :=
    h.2.2.2.2.2.2.1
  have hM : s.tm.map.Perm ((aliveRecs s.journal).map
      (fun r => tabletsFromInfos r.tid r.infos)).flatten :=
    h.2.2.2.2.2.2.2.1
  have htidlt : ∀ r ∈ aliveRecs s.journal, r.tid < s.tm.nextTableId :=
    h.2.2.2.2.2.2.2.2.2.2.2.2
  have hwhole : aliveRecs (J2 ++ [(e2, LogRecord.tableInfo
      TableRecType.aliveTableType name s.tm.nextTableId infos)]) =
      aliveRecs s.journal ++
        [{ id := e2, name := name, tid := s.tm.nextTableId, infos := infos }] := by
    rw [aliveRecs_append, ha2]
    rfl
  have hq : ∀ en ∈ J2 ++ [(e2, LogRecord.tableInfo
      TableRecType.aliveTableType name s.tm.nextTableId infos)], quietRec en = true := by
    intro en he
    rcases List.mem_append.1 he with he2 | htl
    · exact hq2 en he2
    · rcases List.mem_singleton.1 htl with rfl
      rfl
  have hnot := fresh_name_not_alive h hfresh
  have hn : ((aliveRecs (J2 ++ [(e2, LogRecord.tableInfo
      TableRecType.aliveTableType name s.tm.nextTableId infos)])).map
        (fun r => r.name)).Nodup := by
    rw [hwhole, List.map_append]
    rw [List.nodup_append]
    refine ⟨h.2.2.2.2.1, List.nodup_singleton _, ?_⟩
    intro a ha hb
    rcases List.mem_singleton.1 hb with rfl
    exact hnot ha
  have ht : ((aliveRecs (J2 ++ [(e2, LogRecord.tableInfo
      TableRecType.aliveTableType name s.tm.nextTableId infos)])).map
        (fun r => r.tid)).Nodup := by
    rw [hwhole, List.map_append]
    rw [List.nodup_append]
    refine ⟨h.2.2.2.2.2.1, List.nodup_singleton _, ?_⟩
    intro a ha hb
    rcases List.mem_singleton.1 hb with rfl
    obtain ⟨r, hr, hrt⟩ := List.mem_map.1 ha
    have hlt := htidlt r hr
    simp only [] at hrt
    omega
  obtain ⟨s1, hrep, h1, h2, _⟩ := replayQuietJournal
    (J2 ++ [(e2, LogRecord.tableInfo
      TableRecType.aliveTableType name s.tm.nextTableId infos)])
    (J2 ++ [(e2, LogRecord.tableInfo
      TableRecType.aliveTableType name s.tm.nextTableId infos)]) hq hn ht
  refine ⟨s1, hrep, ?_, ?_⟩
  · rw [h1, hwhole, List.map_append, assocSet_append _ _ _ hfresh]
    exact hT.symm.append_right _
  · rw [h2, hwhole, List.map_append, List.flatten_append,
      show (([{ id := e2, name := name, tid := s.tm.nextTableId, infos := infos }] : List AliveRec).map (fun r => tabletsFromInfos r.tid r.infos)).flatten = tabletsFromInfos s.tm.nextTableId infos by simp]
    exact hM.symm.append_right _

/-- Every tablet built from a record's infos carries its table id. -/
lemma tabletsFromInfos_tableId {tid : Nat} {infos : List TabletInfo} {t : Tablet}
    (ht : t ∈ tabletsFromInfos tid infos) : t.tableId = tid := by
  obtain ⟨info, _, rfl⟩ := List.mem_map.1 ht
  rfl

/-- Replaying a quiet journal followed by a DropTable record performs
the drop on the rebuilt state. -/
lemma drop_replay_core (s : Sys) (h : JInv s) (name : String) (tid e1 : Nat)
    (hfind : assocFind name s.tm.tables = some tid) :
    ∃ sr, replayJournal (s.journal ++ [(e1, LogRecord.dropTable name)])
      = ReplayResult.ok sr ∧
      sr.tm.tables.Perm (assocErase name s.tm.tables) ∧
      sr.tm.map.Perm ((removeTabletsForTable s.tm.map tid).1) := by
  have hn : ((aliveRecs s.journal).map (fun r => r.name)).Nodup := h.2.2.2.2.1
  have ht2 : ((aliveRecs s.journal).map (fun r => r.tid)).Nodup := h.2.2.2.2.2.1
  have hT : s.tm.tables.Perm
      ((aliveRecs s.journal).map (fun r => (r.name, r.tid))) :=
    h.2.2.2.2.2.2.1
  have hM : s.tm.map.Perm ((aliveRecs s.journal).map
      (fun r => tabletsFromInfos r.tid r.infos)).flatten :=
    h.2.2.2.2.2.2.2.1
  obtain ⟨s1, hrep, h1, h2, h4⟩ := replayQuietJournal s.journal
    (s.journal ++ [(e1, LogRecord.dropTable name)]) h.1 hn ht2
  have hfind1 : assocFind name s1.tm.tables = some tid := by
    rw [h1, ← assocFind_eq_pairs h name]
    exact hfind
  obtain ⟨r, hr, hrn, hrt⟩ := pairs_find_exists h hfind
  have hlog1 : assocFind tid s1.tm.tablesLogIds = some r.id := by
    rw [← hrt]
    exact h4 r hr
  obtain ⟨s2, hc, hc1, hc2⟩ := dropTableComplete_found name e1 s1 tid r.id
    hfind1 hlog1
  have hrr : replayRecord s1 (e1, LogRecord.dropTable name)
      = ReplayResult.ok s2 := by
    unfold replayRecord
    simp only []
    rw [hc]
  have hkeys1 : (s1.tm.tables.map (fun p => p.1)).Nodup := by
    rw [h1, List.map_map]
    simpa [Function.comp] using hn
  have hts : s1.tm.tables.Perm s.tm.tables := by
    rw [h1]
    exact hT.symm
  have hms : s1.tm.map.Perm s.tm.map := by
    rw [h2]
    exact hM.symm
  refine ⟨s2, ?_, ?_, ?_⟩
  · show replayList (s.journal ++ [(e1, LogRecord.dropTable name)])
      (replayInit (s.journal ++ [(e1, LogRecord.dropTable name)]))
      = ReplayResult.ok s2
    rw [replayList_append, hrep]
    show (match replayRecord s1 (e1, LogRecord.dropTable name) with
      | ReplayResult.ok s3 => replayList [] s3
      | ReplayResult.fail => ReplayResult.fail) = ReplayResult.ok s2
    rw [hrr]
    rfl
  · rw [hc1, assocErase_eq_filter _ _ hkeys1,
      assocErase_eq_filter _ _ (JInv_tables_keys_nodup h)]
    exact hts.filter _
  · rw [hc2]
    exact (removeTabletsForTable_perm _ _).trans
      ((hms.filter _).trans (removeTabletsForTable_perm _ _).symm)

/-- Replaying the journal left by a drop that already invalidated its
table's AliveTable record rebuilds the post-drop state. -/
lemma drop_replay_post_core (s : Sys) (h : JInv s) (name : String)
    (tid rid e1 : Nat) (tail : List (Nat × LogRecord))
    (hrex : ∃ r ∈ aliveRecs s.journal, r.name = name ∧ r.tid = tid ∧ r.id = rid)
    (he1 : s.nextEntryId ≤ e1)
    (hqt : ∀ en ∈ tail, quietRec en = true)
    (hat : aliveRecs tail = []) :
    ∃ sr, replayJournal ((s.journal.filter
        (fun en => decide (en.1 ∉ ([rid, e1] : List Nat)))) ++ tail)
      = ReplayResult.ok sr ∧
      sr.tm.tables.Perm (assocErase name s.tm.tables) ∧
      sr.tm.map.Perm ((removeTabletsForTable s.tm.map tid).1) := by
  obtain ⟨r, hr, hrn, hrt, hri⟩ := hrex
  have hn : ((aliveRecs s.journal).map (fun r => r.name)).Nodup := h.2.2.2.2.1
  have ht2 : ((aliveRecs s.journal).map (fun r => r.tid)).Nodup := h.2.2.2.2.2.1
  have hT : s.tm.tables.Perm
      ((aliveRecs s.journal).map (fun r => (r.name, r.tid))) :=
    h.2.2.2.2.2.2.1
  have hM : s.tm.map.Perm ((aliveRecs s.journal).map
      (fun r => tabletsFromInfos r.tid r.infos)).flatten :=
    h.2.2.2.2.2.2.2.1
  have hidnd : ((aliveRecs s.journal).map (fun r => r.id)).Nodup :=
    h.2.2.2.2.2.2.2.2.2.2.1
  have hidlt : ∀ r2 ∈ aliveRecs s.journal, r2.id < s.nextEntryId :=
    h.2.2.2.2.2.2.2.2.2.2.2.1
  have hname_point : ∀ r2 ∈ aliveRecs s.journal, (r2.id = rid ↔ r2.name = name) := by
    intro r2 hr2
    constructor
    · intro hid
      rw [show r2 = r from List.inj_on_of_nodup_map hidnd hr2 hr (by rw [hid, hri])]
      exact hrn
    · intro hnm
      rw [show r2 = r from List.inj_on_of_nodup_map hn hr2 hr (by rw [hnm, hrn])]
      exact hri
  have htid_point : ∀ r2 ∈ aliveRecs s.journal, (r2.id = rid ↔ r2.tid = tid) := by
    intro r2 hr2
    constructor
    · intro hid
      rw [show r2 = r from List.inj_on_of_nodup_map hidnd hr2 hr (by rw [hid, hri])]
      exact hrt
    · intro htd
      rw [show r2 = r from List.inj_on_of_nodup_map ht2 hr2 hr (by rw [htd, hrt])]
      exact hri
  have hfA : (aliveRecs s.journal).filter
      (fun r2 => decide (r2.id ∉ ([rid, e1] : List Nat))) =
      (aliveRecs s.journal).filter (fun r2 => decide (r2.name ≠ name)) := by
    apply List.filter_congr
    intro r2 hr2
    rw [decide_eq_decide]
    have hlt := hidlt r2 hr2
    have hiff := hname_point r2 hr2
    simp only [List.mem_cons, List.not_mem_nil]
    constructor
    · intro hno hnm
      exact hno (Or.inl (hiff.2 hnm))
    · intro hnm hc
      rcases hc with hc | hc | hc
      · exact hnm (hiff.1 hc)
      · omega
      · exact hc
  have hfA2 : (aliveRecs s.journal).filter
      (fun r2 => decide (r2.id ∉ ([rid, e1] : List Nat))) =
      (aliveRecs s.journal).filter (fun r2 => decide (r2.tid ≠ tid)) := by
    apply List.filter_congr
    intro r2 hr2
    rw [decide_eq_decide]
    have hlt := hidlt r2 hr2
    have hiff := htid_point r2 hr2
    simp only [List.mem_cons, List.not_mem_nil]
    constructor
    · intro hno htd
      exact hno (Or.inl (hiff.2 htd))
    · intro htd hc
      rcases hc with hc | hc | hc
      · exact htd (hiff.1 hc)
      · omega
      · exact hc
  have haJ : aliveRecs ((s.journal.filter
        (fun en => decide (en.1 ∉ ([rid, e1] : List Nat)))) ++ tail) =
      (aliveRecs s.journal).filter (fun r2 => decide (r2.name ≠ name)) := by
    rw [aliveRecs_append, hat, List.append_nil, aliveRecs_filter_ids, hfA]
  have hq : ∀ en ∈ (s.journal.filter
      (fun en => decide (en.1 ∉ ([rid, e1] : List Nat)))) ++ tail,
      quietRec en = true := by
    intro en he
    rcases List.mem_append.1 he with he2 | htl
    · exact h.1 en (List.mem_of_mem_filter he2)
    · exact hqt en htl
  have hnJ : ((aliveRecs ((s.journal.filter
      (fun en => decide (en.1 ∉ ([rid, e1] : List Nat)))) ++ tail)).map
        (fun r => r.name)).Nodup := by
    rw [haJ]
    exact hn.sublist ((List.filter_sublist _).map _)
  have htJ : ((aliveRecs ((s.journal.filter
      (fun en => decide (en.1 ∉ ([rid, e1] : List Nat)))) ++ tail)).map
        (fun r => r.tid)).Nodup := by
    rw [haJ]
    exact ht2.sublist ((List.filter_sublist _).map _)
  obtain ⟨s1, hrep, h1, h2, _⟩ := replayQuietJournal _ _ hq hnJ htJ
  rw [haJ] at h1 h2
  refine ⟨s1, hrep, ?_, ?_⟩
  · rw [h1, assocErase_eq_filter _ _ (JInv_tables_keys_nodup h)]
    rw [show ((aliveRecs s.journal).filter
        (fun r2 => decide (r2.name ≠ name))).map (fun r => (r.name, r.tid)) =
      (((aliveRecs s.journal).map (fun r => (r.name, r.tid))).filter
        (fun p => decide (p.1 ≠ name))) from by
      rw [List.filter_map]
      exact congrArg _ (List.filter_congr (fun r2 _ => rfl)).symm]
    exact (hT.symm.filter _)
  · rw [h2, ← hfA, hfA2]
    have hflat : (((aliveRecs s.journal).map
        (fun r => tabletsFromInfos r.tid r.infos)).flatten).filter
        (fun t => decide (t.tableId ≠ tid)) =
        (((aliveRecs s.journal).filter (fun r2 => decide (r2.tid ≠ tid))).map
          (fun r => tabletsFromInfos r.tid r.infos)).flatten := by
      apply flatten_filter_eq
      intro x hx y hy
      rw [tabletsFromInfos_tableId hy]
    rw [← hflat]
    exact (hM.symm.filter _).trans (removeTabletsForTable_perm _ _).symm

/-- Replaying a quiet journal followed by a SplitTablet record performs
the split on the rebuilt state, matching the uninterrupted run. -/
lemma split_replay_core (s : Sys) (h : JInv s) (name : String)
    (split e1 : Nat) (tid : Nat)
    (hfind : assocFind name s.tm.tables = some tid)
    (hcase : splitExists s.tm.map tid split = true ∨
      s.tm.map.countP (splitMatch tid split) = 1) :
    ∃ sr, replayJournal (s.journal ++ [(e1, LogRecord.splitTablet name split)])
      = ReplayResult.ok sr ∧
      ∃ sf, splitTabletRun none name split s = RunResult.completed sf ∧
        tmEquiv sr.tm sf.tm := by
  have hn : ((aliveRecs s.journal).map (fun r => r.name)).Nodup := h.2.2.2.2.1
  have ht2 : ((aliveRecs s.journal).map (fun r => r.tid)).Nodup := h.2.2.2.2.2.1
  have hT : s.tm.tables.Perm
      ((aliveRecs s.journal).map (fun r => (r.name, r.tid))) :=
    h.2.2.2.2.2.2.1
  have hM : s.tm.map.Perm ((aliveRecs s.journal).map
      (fun r => tabletsFromInfos r.tid r.infos)).flatten :=
    h.2.2.2.2.2.2.2.1
  have h9 : ∀ r ∈ aliveRecs s.journal,
      assocFind r.tid s.tm.tablesLogIds = some r.id :=
    h.2.2.2.2.2.2.2.2.1
  obtain ⟨s1, hrep, h1, h2, h4⟩ := replayQuietJournal s.journal
    (s.journal ++ [(e1, LogRecord.splitTablet name split)]) h.1 hn ht2
  obtain ⟨r, hr, hrn, hrt⟩ := pairs_find_exists h hfind
  have hlog1 : assocFind tid s1.tm.tablesLogIds = some r.id := by
    rw [← hrt]
    exact h4 r hr
  have hlogS : assocFind tid s.tm.tablesLogIds = some r.id := by
    rw [← hrt]
    exact h9 r hr
  have hfind1 : assocFind name s1.tm.tables = some tid := by
    rw [h1, ← assocFind_eq_pairs h name]
    exact hfind
  have hts : s1.tm.tables.Perm s.tm.tables := by
    rw [h1]
    exact hT.symm
  have hms : s1.tm.map.Perm s.tm.map := by
    rw [h2]
    exact hM.symm
  by_cases hex : splitExists s.tm.map tid split = true
  · have hex1 : splitExists s1.tm.map tid split = true := by
      rw [splitExists_perm hms]
      exact hex
    have hc := @splitTabletComplete_exists name split e1 s1 tid hfind1 hex1
    have hrr : replayRecord s1 (e1, LogRecord.splitTablet name split)
        = ReplayResult.ok s1 := by
      unfold replayRecord
      simp only []
      rw [hc]
    obtain ⟨sf, hsf, hsf1, hsf2⟩ := splitTabletRun_none_exists name split s tid
      hfind hex
    refine ⟨s1, ?_, sf, hsf, ?_, ?_⟩
    · show replayList (s.journal ++ [(e1, LogRecord.splitTablet name split)])
        (replayInit (s.journal ++ [(e1, LogRecord.splitTablet name split)]))
        = ReplayResult.ok s1
      rw [replayList_append, hrep]
      show (match replayRecord s1 (e1, LogRecord.splitTablet name split) with
        | ReplayResult.ok s3 => replayList [] s3
        | ReplayResult.fail => ReplayResult.fail) = ReplayResult.ok s1
      rw [hrr]
      rfl
    · rw [hsf1]
      exact hts
    · rw [hsf2]
      exact hms
  · have hcnt : s.tm.map.countP (splitMatch tid split) = 1 := by
      rcases hcase with hcase | hcnt
      · exact absurd hcase hex
      · exact hcnt
    have hex0 : splitExists s.tm.map tid split = false := by
      simpa using hex
    have hex1 : splitExists s1.tm.map tid split = false := by
      rw [splitExists_perm hms]
      exact hex0
    have hsomeM : (s.tm.map.find? (splitMatch tid split)).isSome :=
      List.find?_isSome.2 (List.countP_pos_iff.1 (by omega))
    obtain ⟨t0, ht0⟩ := Option.isSome_iff_exists.1 hsomeM
    have hcnt1 : s1.tm.map.countP (splitMatch tid split) = 1 := by
      rw [hms.countP_eq]
      exact hcnt
    have ht0b : s1.tm.map.find? (splitMatch tid split) = some t0 :=
      find?_perm_of_countP_one hms.symm hcnt ht0
    obtain ⟨s2, hc, hc1, hc2⟩ := @splitTabletComplete_split name split e1 s1
      tid t0 r.id hfind1 hex1 ht0b hlog1
    have hrr : replayRecord s1 (e1, LogRecord.splitTablet name split)
        = ReplayResult.ok s2 := by
      unfold replayRecord
      simp only []
      rw [hc]
    obtain ⟨sf, hsf, hsf1, hsf2⟩ := splitTabletRun_none_split name split s tid
      r.id t0 hfind hex0 ht0 hlogS
    refine ⟨s2, ?_, sf, hsf, ?_, ?_⟩
    · show replayList (s.journal ++ [(e1, LogRecord.splitTablet name split)])
        (replayInit (s.journal ++ [(e1, LogRecord.splitTablet name split)]))
        = ReplayResult.ok s2
      rw [replayList_append, hrep]
      show (match replayRecord s1 (e1, LogRecord.splitTablet name split) with
        | ReplayResult.ok s3 => replayList [] s3
        | ReplayResult.fail => ReplayResult.fail) = ReplayResult.ok s2
      rw [hrr]
      rfl
    · rw [hc1, hsf1]
      exact hts
    · rw [hc2, hsf2]
      refine ((modifyFirst_spec (splitMatch tid split)
          (fun t => { t with endKeyHash := u64sub1 split }) s1.tm.map t0
          hcnt1 ht0b).append_right _).trans ?_
      refine (List.Perm.append_right _ ((hms.erase t0).cons _)).trans ?_
      exact (modifyFirst_spec (splitMatch tid split)
        (fun t => { t with endKeyHash := u64sub1 split }) s.tm.map t0
        hcnt ht0).symm.append_right _

/-- The crash points that precede the operation's first journal
append: create_1, drop_1 and split_1. -/
def preAppendPoints : List CrashPoint :=
  [CrashPoint.create1, CrashPoint.drop1, CrashPoint.split1]

/-- Replay equivalence for a crashed create whose journal holds the
CreateTable record. -/
lemma create_assemble_create (s : Sys) (hinv : JInv s) (name : String)
    (span : Nat) (masters : Nat → Nat) (sc : Sys) (e1 : Nat)
    (J2 : List (Nat × LogRecord))
    (hfresh : assocFind name s.tm.tables = none)
    (hq2 : ∀ en ∈ J2, quietRec en = true)
    (ha2 : aliveRecs J2 = aliveRecs s.journal)
    (hscJ : sc.journal = J2 ++ [(e1, LogRecord.tableInfo
      TableRecType.createTableType name s.tm.nextTableId
      (makeTabletInfos (if span = 0 then 1 else span) masters))]) :
    ∃ sr, replayJournal sc.journal = ReplayResult.ok sr ∧
      ∃ sf, createTableRun none name span masters s = RunResult.completed sf ∧
        tmEquiv sr.tm sf.tm := by
  obtain ⟨sr, hrep, hPt, hPm⟩ := create_replay_core s hinv name
    (makeTabletInfos (if span = 0 then 1 else span) masters) e1 J2
    hfresh hq2 ha2
  obtain ⟨sf, hsf, hsf1, hsf2⟩ := createTableRun_none name span masters s hfresh
  refine ⟨sr, ?_, sf, hsf, ?_, ?_⟩
  · rw [hscJ]
    exact hrep
  · rw [hsf1]
    exact hPt
  · rw [hsf2]
    exact hPm

/-- Replay equivalence for a crashed create whose journal already holds
the AliveTable record. -/
lemma create_assemble_alive (s : Sys) (hinv : JInv s) (name : String)
    (span : Nat) (masters : Nat → Nat) (sc : Sys) (e2 : Nat)
    (J2 : List (Nat × LogRecord))
    (hfresh : assocFind name s.tm.tables = none)
    (hq2 : ∀ en ∈ J2, quietRec en = true)
    (ha2 : aliveRecs J2 = aliveRecs s.journal)
    (hscJ : sc.journal = J2 ++ [(e2, LogRecord.tableInfo
      TableRecType.aliveTableType name s.tm.nextTableId
      (makeTabletInfos (if span = 0 then 1 else span) masters))]) :
    ∃ sr, replayJournal sc.journal = ReplayResult.ok sr ∧
      ∃ sf, createTableRun none name span masters s = RunResult.completed sf ∧
        tmEquiv sr.tm sf.tm := by
  obtain ⟨sr, hrep, hPt, hPm⟩ := create_replay_alive_core s hinv name
    (makeTabletInfos (if span = 0 then 1 else span) masters) e2 J2
    hfresh hq2 ha2
  obtain ⟨sf, hsf, hsf1, hsf2⟩ := createTableRun_none name span masters s hfresh
  refine ⟨sr, ?_, sf, hsf, ?_, ?_⟩
  · rw [hscJ]
    exact hrep
  · rw [hsf1]
    exact hPt
  · rw [hsf2]
    exact hPm

/-- Crash-point analysis of createTable: replay of the crashed journal
matches the pre-state at create_1 and the uninterrupted final state at
create_2, create_3 and create_4. -/
lemma c4_create_case (name : String) (span : Nat) (masters : Nat → Nat)
    (p : CrashPoint) (s sc : Sys) (hinv : JInv s)
    (hfresh : assocFind name s.tm.tables = none)
    (hrun : createTableRun (some p) name span masters s = RunResult.crashed p sc) :
    ∃ sr, replayJournal sc.journal = ReplayResult.ok sr ∧
      (p ∈ preAppendPoints → tmEquiv sr.tm s.tm) ∧
      (p ∉ preAppendPoints → ∃ sf,
        createTableRun none name span masters s = RunResult.completed sf ∧
        tmEquiv sr.tm sf.tm) := by
  by_cases hp1 : p = CrashPoint.create1
  · subst hp1
    have hsc : sc = s := by
      unfold createTableRun at hrun
      rw [if_pos rfl] at hrun
      exact ((RunResult.crashed.inj hrun).2).symm
    obtain ⟨sr, hrep, heq⟩ := replayJInv s hinv
    refine ⟨sr, ?_, fun _ => heq,
      fun hmem => absurd (by decide : CrashPoint.create1 ∈ preAppendPoints) hmem⟩
    rw [hsc]
    exact hrep
  · unfold createTableRun at hrun
    rw [if_neg (show ¬(some p = some CrashPoint.create1) by simp [hp1])] at hrun
    rw [show (assocFind name s.tm.tables).isSome = false from
      by rw [hfresh]; rfl] at hrun
    simp only [Bool.false_eq_true, if_false] at hrun
    rcases hL : s.tm.logIdLargestTableId with _ | lid
    · rw [hL] at hrun
      simp only [appendRecord] at hrun
      have hinv0 : ∀ r ∈ aliveRecs s.journal, r.id ∉ ([] : List Nat) :=
        fun r _ => List.not_mem_nil _
      obtain ⟨hq2, ha2⟩ := invariant_filter_facts hinv [] hinv0
      by_cases hp2 : p = CrashPoint.create2
      · subst hp2
        rw [if_pos rfl] at hrun
        have hsc := ((RunResult.crashed.inj hrun).2).symm
        have hscJ : sc.journal = (s.journal.filter
            (fun en => decide (en.1 ∉ ([] : List Nat)))) ++
          [(s.nextEntryId, LogRecord.tableInfo TableRecType.createTableType name
            s.tm.nextTableId (makeTabletInfos (if span = 0 then 1 else span) masters))] := by
          rw [hsc]
        obtain ⟨sr, hrep, hpost⟩ := create_assemble_create s hinv name span masters
          sc s.nextEntryId _ hfresh hq2 ha2 hscJ
        exact ⟨sr, hrep, fun hmem => absurd hmem (by decide), fun _ => hpost⟩
      · rw [if_neg (show ¬(some p = some CrashPoint.create2) by simp [hp2])] at hrun
        by_cases hp3 : p = CrashPoint.create3
        · subst hp3
          unfold createTableComplete at hrun
          simp only [appendRecord, eq_self_iff_true, if_true] at hrun
          have hsc := ((RunResult.crashed.inj hrun).2).symm
          have hscJ : sc.journal = (s.journal.filter
              (fun en => decide (en.1 ∉ ([] : List Nat)))) ++
            [(s.nextEntryId, LogRecord.tableInfo TableRecType.createTableType name
            s.tm.nextTableId (makeTabletInfos (if span = 0 then 1 else span) masters))] := by
            rw [hsc]
          obtain ⟨sr, hrep, hpost⟩ := create_assemble_create s hinv name span masters
            sc s.nextEntryId _ hfresh hq2 ha2 hscJ
          exact ⟨sr, hrep, fun hmem => absurd hmem (by decide), fun _ => hpost⟩
        · by_cases hp4 : p = CrashPoint.create4
          · subst hp4
            unfold createTableComplete at hrun
            rw [if_neg (show ¬(some CrashPoint.create4 = some CrashPoint.create3)
              by simp)] at hrun
            simp only [appendRecord, eq_self_iff_true, if_true] at hrun
            have hsc := ((RunResult.crashed.inj hrun).2).symm
            have hfilt : ((s.journal.filter (fun en => decide (en.1 ∉ ([] : List Nat)))) ++
                [(s.nextEntryId, LogRecord.tableInfo TableRecType.createTableType name
            s.tm.nextTableId (makeTabletInfos (if span = 0 then 1 else span) masters))]).filter
                (fun en => decide (en.1 ∉ ([s.nextEntryId] : List Nat))) =
                s.journal.filter (fun en => decide (en.1 ∉ ([] : List Nat))) := by
              rw [List.filter_append]
              rw [show ([(s.nextEntryId, LogRecord.tableInfo TableRecType.createTableType name
            s.tm.nextTableId (makeTabletInfos (if span = 0 then 1 else span) masters))].filter
                  (fun en => decide (en.1 ∉ ([s.nextEntryId] : List Nat)))) = []
                from by simp]
              rw [List.append_nil]
              conv_lhs => rw [List.filter_comm]
              have hself : List.filter
                  (fun en => decide (en.1 ∉ ([s.nextEntryId] : List Nat)))
                  s.journal = s.journal :=
                List.filter_eq_self.2 (fun en he => by
                  have hen := hinv.2.2.2.1 en he
                  simp only [List.mem_cons, List.not_mem_nil, or_false,
                    decide_eq_true_eq]
                  omega)
              rw [hself]
            have hscJ : sc.journal = (s.journal.filter
                (fun en => decide (en.1 ∉ ([] : List Nat)))) ++
              [(s.nextEntryId + 1, LogRecord.tableInfo TableRecType.aliveTableType name
            s.tm.nextTableId (makeTabletInfos (if span = 0 then 1 else span) masters))] := by
              rw [hsc]
              show ((s.journal.filter (fun en => decide (en.1 ∉ ([] : List Nat)))) ++
                [(s.nextEntryId, LogRecord.tableInfo TableRecType.createTableType name
            s.tm.nextTableId (makeTabletInfos (if span = 0 then 1 else span) masters))]).filter
                (fun en => decide (en.1 ∉ ([s.nextEntryId] : List Nat))) ++
                [(s.nextEntryId + 1, LogRecord.tableInfo TableRecType.aliveTableType name
            s.tm.nextTableId (makeTabletInfos (if span = 0 then 1 else span) masters))] = _
              rw [hfilt]
            obtain ⟨sr, hrep, hpost⟩ := create_assemble_alive s hinv name span
              masters sc (s.nextEntryId + 1) _ hfresh hq2 ha2 hscJ
            exact ⟨sr, hrep, fun hmem => absurd hmem (by decide), fun _ => hpost⟩
          · exact absurd hrun (createTableComplete_no_crash hp3 hp4 _ _ _ _ _ _ _)
    · rw [hL] at hrun
      simp only [appendRecord] at hrun
      have h10 : ∀ lid2, s.tm.logIdLargestTableId = some lid2 →
          ∀ r ∈ aliveRecs s.journal, r.id ≠ lid2 :=
        hinv.2.2.2.2.2.2.2.2.2.1
      have hinv0 : ∀ r ∈ aliveRecs s.journal, r.id ∉ ([lid] : List Nat) := by
        intro r hr
        simp only [List.mem_cons, List.not_mem_nil]
        intro hc
        rcases hc with hc | hc
        · exact h10 lid hL r hr hc
        · exact hc
      obtain ⟨hq2, ha2⟩ := invariant_filter_facts hinv [lid] hinv0
      by_cases hp2 : p = CrashPoint.create2
      · subst hp2
        rw [if_pos rfl] at hrun
        have hsc := ((RunResult.crashed.inj hrun).2).symm
        have hscJ : sc.journal = (s.journal.filter
            (fun en => decide (en.1 ∉ ([lid] : List Nat)))) ++
          [(s.nextEntryId, LogRecord.tableInfo TableRecType.createTableType name
            s.tm.nextTableId (makeTabletInfos (if span = 0 then 1 else span) masters))] := by
          rw [hsc]
        obtain ⟨sr, hrep, hpost⟩ := create_assemble_create s hinv name span masters
          sc s.nextEntryId _ hfresh hq2 ha2 hscJ
        exact ⟨sr, hrep, fun hmem => absurd hmem (by decide), fun _ => hpost⟩
      · rw [if_neg (show ¬(some p = some CrashPoint.create2) by simp [hp2])] at hrun
        by_cases hp3 : p = CrashPoint.create3
        · subst hp3
          unfold createTableComplete at hrun
          simp only [appendRecord, eq_self_iff_true, if_true] at hrun
          have hsc := ((RunResult.crashed.inj hrun).2).symm
          have hscJ : sc.journal = (s.journal.filter
              (fun en => decide (en.1 ∉ ([lid] : List Nat)))) ++
            [(s.nextEntryId, LogRecord.tableInfo TableRecType.createTableType name
            s.tm.nextTableId (makeTabletInfos (if span = 0 then 1 else span) masters))] := by
            rw [hsc]
          obtain ⟨sr, hrep, hpost⟩ := create_assemble_create s hinv name span masters
            sc s.nextEntryId _ hfresh hq2 ha2 hscJ
          exact ⟨sr, hrep, fun hmem => absurd hmem (by decide), fun _ => hpost⟩
        · by_cases hp4 : p = CrashPoint.create4
          · subst hp4
            unfold createTableComplete at hrun
            rw [if_neg (show ¬(some CrashPoint.create4 = some CrashPoint.create3)
              by simp)] at hrun
            simp only [appendRecord, eq_self_iff_true, if_true] at hrun
            have hsc := ((RunResult.crashed.inj hrun).2).symm
            have hfilt : ((s.journal.filter (fun en => decide (en.1 ∉ ([lid] : List Nat)))) ++
                [(s.nextEntryId, LogRecord.tableInfo TableRecType.createTableType name
            s.tm.nextTableId (makeTabletInfos (if span = 0 then 1 else span) masters))]).filter
                (fun en => decide (en.1 ∉ ([s.nextEntryId] : List Nat))) =
                s.journal.filter (fun en => decide (en.1 ∉ ([lid] : List Nat))) := by
              rw [List.filter_append]
              rw [show ([(s.nextEntryId, LogRecord.tableInfo TableRecType.createTableType name
            s.tm.nextTableId (makeTabletInfos (if span = 0 then 1 else span) masters))].filter
                  (fun en => decide (en.1 ∉ ([s.nextEntryId] : List Nat)))) = []
                from by simp]
              rw [List.append_nil]
              conv_lhs => rw [List.filter_comm]
              have hself : List.filter
                  (fun en => decide (en.1 ∉ ([s.nextEntryId] : List Nat)))
                  s.journal = s.journal :=
                List.filter_eq_self.2 (fun en he => by
                  have hen := hinv.2.2.2.1 en he
                  simp only [List.mem_cons, List.not_mem_nil, or_false,
                    decide_eq_true_eq]
                  omega)
              rw [hself]
            have hscJ : sc.journal = (s.journal.filter
                (fun en => decide (en.1 ∉ ([lid] : List Nat)))) ++
              [(s.nextEntryId + 1, LogRecord.tableInfo TableRecType.aliveTableType name
            s.tm.nextTableId (makeTabletInfos (if span = 0 then 1 else span) masters))] := by
              rw [hsc]
              show ((s.journal.filter (fun en => decide (en.1 ∉ ([lid] : List Nat)))) ++
                [(s.nextEntryId, LogRecord.tableInfo TableRecType.createTableType name
            s.tm.nextTableId (makeTabletInfos (if span = 0 then 1 else span) masters))]).filter
                (fun en => decide (en.1 ∉ ([s.nextEntryId] : List Nat))) ++
                [(s.nextEntryId + 1, LogRecord.tableInfo TableRecType.aliveTableType name
            s.tm.nextTableId (makeTabletInfos (if span = 0 then 1 else span) masters))] = _
              rw [hfilt]
            obtain ⟨sr, hrep, hpost⟩ := create_assemble_alive s hinv name span
              masters sc (s.nextEntryId + 1) _ hfresh hq2 ha2 hscJ
            exact ⟨sr, hrep, fun hmem => absurd hmem (by decide), fun _ => hpost⟩
          · exact absurd hrun (createTableComplete_no_crash hp3 hp4 _ _ _ _ _ _ _)

/-- Crash-point analysis of dropTable: replay of the crashed journal
matches the pre-state at drop_1 and the uninterrupted final state at
drop_2, drop_3 and drop_4. -/
lemma c4_drop_case (name : String) (p : CrashPoint) (s sc : Sys)
    (hinv : JInv s)
    (hrun : dropTableRun (some p) name s = RunResult.crashed p sc) :
    ∃ sr, replayJournal sc.journal = ReplayResult.ok sr ∧
      (p ∈ preAppendPoints → tmEquiv sr.tm s.tm) ∧
      (p ∉ preAppendPoints → ∃ sf,
        dropTableRun none name s = RunResult.completed sf ∧
        tmEquiv sr.tm sf.tm) := by
  rcases hfind : assocFind name s.tm.tables with _ | tid
  · unfold dropTableRun at hrun
    rw [show (assocFind name s.tm.tables).isNone = true from
      by rw [hfind]; rfl] at hrun
    rw [if_pos rfl] at hrun
    exact absurd hrun (fun hc => RunResult.noConfusion hc)
  · obtain ⟨r, hr, hrn, hrt⟩ := pairs_find_exists hinv hfind
    have hlogS : assocFind tid s.tm.tablesLogIds = some r.id := by
      rw [← hrt]
      exact hinv.2.2.2.2.2.2.2.2.1 r hr
    have hself : s.journal.filter
        (fun en => decide (en.1 ∉ ([] : List Nat))) = s.journal :=
      List.filter_eq_self.2 (fun en _ => by simp)
    unfold dropTableRun at hrun
    rw [show (assocFind name s.tm.tables).isNone = false from
      by rw [hfind]; rfl] at hrun
    simp only [Bool.false_eq_true, if_false] at hrun
    by_cases hp1 : p = CrashPoint.drop1
    · subst hp1
      rw [if_pos rfl] at hrun
      have hsc := ((RunResult.crashed.inj hrun).2).symm
      obtain ⟨sr, hrep, heq⟩ := replayJInv s hinv
      refine ⟨sr, ?_, fun _ => heq,
        fun hmem => absurd (by decide : CrashPoint.drop1 ∈ preAppendPoints) hmem⟩
      rw [hsc]
      exact hrep
    · rw [if_neg (show ¬(some p = some CrashPoint.drop1) by simp [hp1])] at hrun
      simp only [appendRecord] at hrun
      by_cases hp2 : p = CrashPoint.drop2
      · subst hp2
        rw [if_pos rfl] at hrun
        have hsc := ((RunResult.crashed.inj hrun).2).symm
        have hscJ : sc.journal =
            s.journal ++ [(s.nextEntryId, LogRecord.dropTable name)] := by
          rw [hsc]
          show (s.journal.filter (fun en => decide (en.1 ∉ ([] : List Nat)))) ++
            [(s.nextEntryId, LogRecord.dropTable name)] = _
          rw [hself]
        obtain ⟨sr, hrep, hPt, hPm⟩ := drop_replay_core s hinv name tid
          s.nextEntryId hfind
        obtain ⟨sf, hsf, hsf1, hsf2⟩ := dropTableRun_none name s tid r.id
          hfind hlogS
        refine ⟨sr, ?_, fun hmem => absurd hmem (by decide),
          fun _ => ⟨sf, hsf, ?_, ?_⟩⟩
        · rw [hscJ]
          exact hrep
        · rw [hsf1]
          exact hPt
        · rw [hsf2]
          exact hPm
      · rw [if_neg (show ¬(some p = some CrashPoint.drop2) by simp [hp2])] at hrun
        by_cases hp3 : p = CrashPoint.drop3
        · subst hp3
          unfold dropTableComplete at hrun
          simp only [hfind] at hrun
          simp only [hlogS] at hrun
          simp only [if_true] at hrun
          have hsc := ((RunResult.crashed.inj hrun).2).symm
          have hscJ : sc.journal =
              s.journal ++ [(s.nextEntryId, LogRecord.dropTable name)] := by
            rw [hsc]
            show (s.journal.filter (fun en => decide (en.1 ∉ ([] : List Nat)))) ++
              [(s.nextEntryId, LogRecord.dropTable name)] = _
            rw [hself]
          obtain ⟨sr, hrep, hPt, hPm⟩ := drop_replay_core s hinv name tid
            s.nextEntryId hfind
          obtain ⟨sf, hsf, hsf1, hsf2⟩ := dropTableRun_none name s tid r.id
            hfind hlogS
          refine ⟨sr, ?_, fun hmem => absurd hmem (by decide),
            fun _ => ⟨sf, hsf, ?_, ?_⟩⟩
          · rw [hscJ]
            exact hrep
          · rw [hsf1]
            exact hPt
          · rw [hsf2]
            exact hPm
        · by_cases hp4 : p = CrashPoint.drop4
          · subst hp4
            unfold dropTableComplete at hrun
            simp only [hfind] at hrun
            simp only [hlogS] at hrun
            rw [if_neg (show ¬(some CrashPoint.drop4 = some CrashPoint.drop3)
              by simp)] at hrun
            simp only [appendRecord, invalidateEntries, eq_self_iff_true,
              if_true] at hrun
            have hsc := ((RunResult.crashed.inj hrun).2).symm
            have hfiltJ : ((s.journal.filter
                (fun en => decide (en.1 ∉ ([] : List Nat)))) ++
                [(s.nextEntryId, LogRecord.dropTable name)]).filter
                (fun en => decide (en.1 ∉ ([r.id, s.nextEntryId] : List Nat))) =
                s.journal.filter
                  (fun en => decide (en.1 ∉ ([r.id, s.nextEntryId] : List Nat))) := by
              rw [hself, List.filter_append]
              rw [show ([(s.nextEntryId, LogRecord.dropTable name)].filter
                  (fun en => decide (en.1 ∉ ([r.id, s.nextEntryId] : List Nat)))) = []
                from by simp]
              rw [List.append_nil]
            have hrex : ∃ r2 ∈ aliveRecs s.journal,
                r2.name = name ∧ r2.tid = tid ∧ r2.id = r.id :=
              ⟨r, hr, hrn, hrt, rfl⟩
            by_cases hlast : tid = s.tm.nextTableId - 1
            · rw [if_pos hlast] at hsc
              have hscJ : sc.journal = (s.journal.filter
                  (fun en => decide (en.1 ∉ ([r.id, s.nextEntryId] : List Nat)))) ++
                [(s.nextEntryId + 1, LogRecord.largestTableId tid)] := by
                rw [hsc]
                show ((s.journal.filter
                  (fun en => decide (en.1 ∉ ([] : List Nat)))) ++
                  [(s.nextEntryId, LogRecord.dropTable name)]).filter
                  (fun en => decide (en.1 ∉ ([r.id, s.nextEntryId] : List Nat))) ++
                  [(s.nextEntryId + 1, LogRecord.largestTableId tid)] = _
                rw [hfiltJ]
              obtain ⟨sr, hrep, hPt, hPm⟩ := drop_replay_post_core s hinv name
                tid r.id s.nextEntryId
                [(s.nextEntryId + 1, LogRecord.largestTableId tid)] hrex
                (le_refl _) (fun en he => by
                  rcases List.mem_singleton.1 he with rfl
                  rfl) rfl
              obtain ⟨sf, hsf, hsf1, hsf2⟩ := dropTableRun_none name s tid r.id
                hfind hlogS
              refine ⟨sr, ?_, fun hmem => absurd hmem (by decide),
                fun _ => ⟨sf, hsf, ?_, ?_⟩⟩
              · rw [hscJ]
                exact hrep
              · rw [hsf1]
                exact hPt
              · rw [hsf2]
                exact hPm
            · rw [if_neg hlast] at hsc
              have hscJ : sc.journal = (s.journal.filter
                  (fun en => decide (en.1 ∉ ([r.id, s.nextEntryId] : List Nat)))) ++
                ([] : List (Nat × LogRecord)) := by
                rw [List.append_nil, hsc]
                show ((s.journal.filter
                  (fun en => decide (en.1 ∉ ([] : List Nat)))) ++
                  [(s.nextEntryId, LogRecord.dropTable name)]).filter
                  (fun en => decide (en.1 ∉ ([r.id, s.nextEntryId] : List Nat))) = _
                rw [hfiltJ]
              obtain ⟨sr, hrep, hPt, hPm⟩ := drop_replay_post_core s hinv name
                tid r.id s.nextEntryId ([] : List (Nat × LogRecord)) hrex
                (le_refl _) (fun en he => absurd he (List.not_mem_nil _)) rfl
              obtain ⟨sf, hsf, hsf1, hsf2⟩ := dropTableRun_none name s tid r.id
                hfind hlogS
              refine ⟨sr, ?_, fun hmem => absurd hmem (by decide),
                fun _ => ⟨sf, hsf, ?_, ?_⟩⟩
              · rw [hscJ]
                exact hrep
              · rw [hsf1]
                exact hPt
              · rw [hsf2]
                exact hPm
          · exact absurd hrun (dropTableComplete_no_crash hp3 hp4 _ _ _ _ _)

/-- Crash-point analysis of splitTablet: replay of the crashed journal
matches the pre-state at split_1 and the uninterrupted final state at
split_2. -/
lemma c4_split_case (name : String) (split : Nat) (p : CrashPoint) (s sc : Sys)
    (hinv : JInv s)
    (hpre : ∃ tid, assocFind name s.tm.tables = some tid ∧
      (splitExists s.tm.map tid split = true ∨
        s.tm.map.countP (splitMatch tid split) = 1))
    (hrun : splitTabletRun (some p) name split s = RunResult.crashed p sc) :
    ∃ sr, replayJournal sc.journal = ReplayResult.ok sr ∧
      (p ∈ preAppendPoints → tmEquiv sr.tm s.tm) ∧
      (p ∉ preAppendPoints → ∃ sf,
        splitTabletRun none name split s = RunResult.completed sf ∧
        tmEquiv sr.tm sf.tm) := by
  obtain ⟨tid, hfind, hcase⟩ := hpre
  have hself : s.journal.filter
      (fun en => decide (en.1 ∉ ([] : List Nat))) = s.journal :=
    List.filter_eq_self.2 (fun en _ => by simp)
  by_cases hp1 : p = CrashPoint.split1
  · subst hp1
    have hsc : sc = s := by
      unfold splitTabletRun at hrun
      rw [if_pos rfl] at hrun
      exact ((RunResult.crashed.inj hrun).2).symm
    obtain ⟨sr, hrep, heq⟩ := replayJInv s hinv
    refine ⟨sr, ?_, fun _ => heq,
      fun hmem => absurd (by decide : CrashPoint.split1 ∈ preAppendPoints) hmem⟩
    rw [hsc]
    exact hrep
  · unfold splitTabletRun at hrun
    rw [if_neg (show ¬(some p = some CrashPoint.split1) by simp [hp1])] at hrun
    simp only [appendRecord] at hrun
    by_cases hp2 : p = CrashPoint.split2
    · subst hp2
      rw [if_pos rfl] at hrun
      have hsc := ((RunResult.crashed.inj hrun).2).symm
      have hscJ : sc.journal =
          s.journal ++ [(s.nextEntryId, LogRecord.splitTablet name split)] := by
        rw [hsc]
        show (s.journal.filter (fun en => decide (en.1 ∉ ([] : List Nat)))) ++
          [(s.nextEntryId, LogRecord.splitTablet name split)] = _
        rw [hself]
      obtain ⟨sr, hrep, sf, hsf, heqv⟩ := split_replay_core s hinv name split
        s.nextEntryId tid hfind hcase
      refine ⟨sr, ?_, fun hmem => absurd hmem (by decide),
        fun _ => ⟨sf, hsf, heqv⟩⟩
      rw [hscJ]
      exact hrep
    · rw [if_neg (show ¬(some p = some CrashPoint.split2) by simp [hp2])] at hrun
      exact absurd hrun (splitTabletComplete_ne_crashed _ _ _ _ _ _)

/-- Precondition of each operation in the crash-recovery claim: a
create needs a fresh name; a drop has none; a split needs its table
present and either an already-recorded split or a unique containing
tablet (a non-unique match makes the scan order observable). -/
def opPre : TMOp → Sys → Prop
  | TMOp.create name _ _, s => assocFind name s.tm.tables = none
  | TMOp.drop _, _ => True
  | TMOp.split name split, s => ∃ tid, assocFind name s.tm.tables = some tid ∧
      (splitExists s.tm.map tid split = true ∨
        s.tm.map.countP (splitMatch tid split) = 1)

/-- The state carried by any run result. -/
def rrState : RunResult → Sys
  | RunResult.completed s => s
  | RunResult.crashed _ s => s
  | RunResult.tableExists s => s
  | RunResult.noSuchTable s => s
  | RunResult.died s => s

/-- The state of a successful replay, with a default for failure. -/
def repState (d : Sys) : ReplayResult → Sys
  | ReplayResult.ok s => s
  | ReplayResult.fail => d

/-- Completion test on a run result. -/
def isCompleted : RunResult → Bool
  | RunResult.completed _ => true
  | _ => false

/-- The concrete operation of the crash-recovery counterexample. -/
def c4op : TMOp := TMOp.create "t" 1 (fun _ => 1)

/-- C4 (counterexample to the claim as stated): terminating createTable
exactly at crash point create_1 leaves a journal whose replay yields
the pre-operation table-manager state, not the same final state as the
uninterrupted execution, which holds the new table. -/
theorem c4_crash_replay_counterexample :
    runTMOp c4op (some CrashPoint.create1) initSys
      = RunResult.crashed CrashPoint.create1 initSys ∧
    isCompleted (runTMOp c4op none initSys) = true ∧
    replayJournal initSys.journal
      = ReplayResult.ok (repState initSys (replayJournal initSys.journal)) ∧
    ¬ tmEquiv (repState initSys (replayJournal initSys.journal)).tm
      (rrState (runTMOp c4op none initSys)).tm :=
  ⟨rfl, rfl, rfl, by decide⟩

/-- C4 (amended): for an operation run on a quiescent invariant state
satisfying its precondition, termination at any crash point after the
operation's first journal append (create_2..create_4, drop_2..drop_4,
split_2) leaves a journal whose replay reaches, up to order of the two
table maps, the final state of the uninterrupted execution; at the
points before the first append (create_1, drop_1, split_1) the replay
reproduces the pre-operation state instead. -/
theorem c4_crash_replay_equivalence (op : TMOp) (p : CrashPoint) (s sc : Sys)
    (hinv : JInv s) (hpre : opPre op s)
    (hrun : runTMOp op (some p) s = RunResult.crashed p sc) :
    ∃ sr, replayJournal sc.journal = ReplayResult.ok sr ∧
      (p ∈ preAppendPoints → tmEquiv sr.tm s.tm) ∧
      (p ∉ preAppendPoints → ∃ sf,
        runTMOp op none s = RunResult.completed sf ∧ tmEquiv sr.tm sf.tm) := by
  cases op with
  | create name span masters =>
    exact c4_create_case name span masters p s sc hinv hpre hrun
  | drop name =>
    exact c4_drop_case name p s sc hinv hrun
  | split name split =>
    exact c4_split_case name split p s sc hinv hpre hrun

/-- The concrete operation of the crash-recovery witness. -/
def c4wop : TMOp := TMOp.create "u" 1 (fun _ => 0)

/-- Witness for c4_crash_replay_equivalence at a concrete input. -/
theorem c4_crash_replay_equivalence_witness :
    JInv initSys ∧ opPre c4wop initSys ∧
    runTMOp c4wop (some CrashPoint.create1) initSys
      = RunResult.crashed CrashPoint.create1 initSys ∧
    (∃ sr, replayJournal initSys.journal = ReplayResult.ok sr ∧
      (CrashPoint.create1 ∈ preAppendPoints → tmEquiv sr.tm initSys.tm) ∧
      (CrashPoint.create1 ∉ preAppendPoints → ∃ sf,
        runTMOp c4wop none initSys = RunResult.completed sf ∧
        tmEquiv sr.tm sf.tm)) :=
  ⟨by decide, rfl, rfl,
    c4_crash_replay_equivalence c4wop CrashPoint.create1 initSys initSys
      (by decide) rfl rfl⟩

end RC
